import Mathlib

/-!
Verification of the rail-simulation core of the opensfs repository.

The development shallowly embeds, in Lean, the data model and operations of

* the block/section/junction reservation system (TrackReservationSystem),
* the track-graph pathfinding helpers (TrackGraph.findPath,
  TrackGraph.buildPathForPlannedStops, TrackGraph.buildPathForStops and the
  private helpers they call),
* the per-tick train movement clamp (TrainMovementSystem.move), and
* the timetable spawning loop (TimetableSystem.update / rebuildSpawnIndex),

and proves the specified properties about those embeddings.

Modelling conventions:

* JavaScript Map objects are embedded as association lists (insertion order
  preserved, set updates in place, delete removes the key); JavaScript Set
  objects are embedded as lists with membership-guarded append.
* JavaScript numbers are embedded as exact rationals (all arithmetic the
  claims touch is addition/subtraction/comparison on values where IEEE
  doubles behave exactly like rationals on the scenario inputs), and
  POSITIVE_INFINITY is embedded via WithTop.
* String truthiness of JavaScript (null and the empty string are falsy) is
  embedded explicitly wherever the source relies on it.
-/

namespace OpenSFS

/-! ## Association-list maps (embedding of the JavaScript Map class) -/

/-- First-match lookup on an association list, the embedding of Map.get. -/
def alookup {β : Type} : List (String × β) → String → Option β
  | [], _ => none
  | p :: rest, k => if p.1 = k then some p.2 else alookup rest k

/-- Embedding of Map.set: update the existing key in place, else append. -/
def aset {β : Type} (m : List (String × β)) (k : String) (v : β) : List (String × β) :=
  match alookup m k with
  | some _ => m.map (fun p => if p.1 = k then (k, v) else p)
  | none => m ++ [(k, v)]

/-- Embedding of Map.delete: remove every entry carrying the key. -/
def aerase {β : Type} : List (String × β) → String → List (String × β)
  | [], _ => []
  | p :: rest, k => if p.1 = k then aerase rest k else p :: aerase rest k

@[simp] theorem alookup_nil {β : Type} (k : String) : alookup ([] : List (String × β)) k = none :=
  rfl

@[simp] theorem alookup_cons {β : Type} (p : String × β) (rest : List (String × β)) (k : String) :
    alookup (p :: rest) k = if p.1 = k then some p.2 else alookup rest k :=
  rfl

theorem alookup_append {β : Type} (m₁ m₂ : List (String × β)) (k : String) :
    alookup (m₁ ++ m₂) k = ((alookup m₁ k).or (alookup m₂ k)) := by
  induction m₁ with
  | nil => simp
  | cons p rest ih =>
    by_cases h : p.1 = k <;> simp [alookup, h, ih]

theorem alookup_map_update {β : Type} (m : List (String × β)) (k : String) (v : β) (k' : String) :
    alookup (m.map (fun p => if p.1 = k then (k, v) else p)) k' =
      if k' = k then (alookup m k).map (fun _ => v) else alookup m k' := by
  induction m with
  | nil => simp [alookup]
  | cons p rest ih =>
    by_cases hp : p.1 = k
    · by_cases hk : k' = k
      · subst hk; simp [alookup, hp, ih]
      · have hkk : ¬ k = k' := fun h => hk h.symm
        simp [alookup, hp, hk, ih, hkk]
    · by_cases hp' : p.1 = k'
      · have hk : ¬ k' = k := fun h => hp (hp'.trans h)
        simp [alookup, hp, hp', hk, ih]
      · simp [alookup, hp, hp', ih]

@[simp] theorem alookup_aset_self {β : Type} (m : List (String × β)) (k : String) (v : β) :
    alookup (aset m k v) k = some v := by
  unfold aset
  cases h : alookup m k with
  | none => simp [alookup_append, h, alookup]
  | some w => rw [alookup_map_update]; simp [h]

theorem alookup_aset_ne {β : Type} (m : List (String × β)) (k : String) (v : β) {k' : String}
    (h : k' ≠ k) : alookup (aset m k v) k' = alookup m k' := by
  unfold aset
  cases hm : alookup m k with
  | none =>
    rw [alookup_append]
    cases hmk : alookup m k' with
    | none => simp [alookup, Ne.symm h]
    | some w => simp
  | some w => rw [alookup_map_update]; simp [h]

@[simp] theorem alookup_aerase_self {β : Type} (m : List (String × β)) (k : String) :
    alookup (aerase m k) k = none := by
  induction m with
  | nil => rfl
  | cons p rest ih =>
    by_cases h : p.1 = k <;> simp [aerase, alookup, h, ih]

theorem alookup_aerase_ne {β : Type} (m : List (String × β)) (k : String) {k' : String}
    (h : k' ≠ k) : alookup (aerase m k) k' = alookup m k' := by
  induction m with
  | nil => rfl
  | cons p rest ih =>
    by_cases hp : p.1 = k
    · have hne : ¬ p.1 = k' := fun hh => h (hh.symm.trans hp)
      simp [aerase, alookup, hp, hne, ih, Ne.symm h]
    · by_cases hp' : p.1 = k' <;> simp [aerase, alookup, hp, hp', ih, h]

/-- The keys of an association list. -/
def akeys {β : Type} (m : List (String × β)) : List String := m.map Prod.fst

theorem alookup_eq_none_iff {β : Type} (m : List (String × β)) (k : String) :
    alookup m k = none ↔ k ∉ akeys m := by
  induction m with
  | nil => simp [akeys]
  | cons p rest ih =>
    by_cases h : p.1 = k
    · simp [alookup, akeys, h]
    · have hne : ¬ k = p.1 := fun hh => h hh.symm
      simp [alookup, akeys, h, ih, hne]

theorem alookup_isSome_of_mem {β : Type} {m : List (String × β)} {p : String × β} (hp : p ∈ m) :
    (alookup m p.1).isSome := by
  induction m with
  | nil => cases hp
  | cons q rest ih =>
    rcases List.mem_cons.mp hp with h | hp'
    · subst h; simp [alookup]
    · by_cases h : q.1 = p.1 <;> simp [alookup, h, ih hp']

theorem alookup_of_mem_nodup {β : Type} {m : List (String × β)} (hnd : (akeys m).Nodup)
    {p : String × β} (hp : p ∈ m) : alookup m p.1 = some p.2 := by
  induction m with
  | nil => cases hp
  | cons q rest ih =>
    simp only [akeys, List.map_cons, List.nodup_cons] at hnd
    rcases List.mem_cons.mp hp with h | hp'
    · subst h; simp [alookup]
    · have hne : ¬ q.1 = p.1 := by
        intro h
        exact hnd.1 (h ▸ (List.mem_map_of_mem Prod.fst hp'))
      simp [alookup, hne, ih hnd.2 hp']

theorem mem_of_alookup_eq_some {β : Type} {m : List (String × β)} {k : String} {v : β}
    (h : alookup m k = some v) : (k, v) ∈ m := by
  induction m with
  | nil => cases h
  | cons p rest ih =>
    rw [alookup_cons] at h
    by_cases hp : p.1 = k
    · rw [if_pos hp] at h
      have hpk : p = (k, v) := by
        cases p
        simp only [Option.some.injEq] at h
        simp_all
      exact hpk ▸ List.mem_cons_self _ _
    · rw [if_neg hp] at h
      exact List.mem_cons_of_mem _ (ih h)

theorem akeys_aset_nodup {β : Type} {m : List (String × β)} (hnd : (akeys m).Nodup)
    (k : String) (v : β) : (akeys (aset m k v)).Nodup := by
  unfold aset
  cases h : alookup m k with
  | none =>
    have hk : k ∉ akeys m := (alookup_eq_none_iff m k).mp h
    simpa [akeys, List.nodup_append] using And.intro hnd hk
  | some w =>
    have : akeys (m.map (fun p => if p.1 = k then (k, v) else p)) = akeys m := by
      unfold akeys
      rw [List.map_map]
      apply List.map_congr_left
      intro p _
      by_cases hp : p.1 = k <;> simp [hp]
    rw [this]; exact hnd

theorem akeys_aerase_sublist {β : Type} (m : List (String × β)) (k : String) :
    List.Sublist (akeys (aerase m k)) (akeys m) := by
  induction m with
  | nil => simp [aerase, akeys]
  | cons p rest ih =>
    by_cases h : p.1 = k
    · simpa [aerase, akeys, h] using List.Sublist.cons p.1 ih
    · simpa [aerase, akeys, h] using List.Sublist.cons₂ p.1 ih

theorem akeys_aerase_nodup {β : Type} {m : List (String × β)} (hnd : (akeys m).Nodup)
    (k : String) : (akeys (aerase m k)).Nodup :=
  (akeys_aerase_sublist m k).nodup hnd

/-! ## Lists as JavaScript Set objects -/

/-- Embedding of Set.add: append the element unless already present. -/
def sadd (l : List String) (x : String) : List String :=
  if x ∈ l then l else l ++ [x]

/-- Embedding of Set.delete: remove the element. -/
def sdel (l : List String) (x : String) : List String :=
  l.filter (fun y => y ≠ x)

@[simp] theorem mem_sadd {l : List String} {x y : String} :
    y ∈ sadd l x ↔ y ∈ l ∨ y = x := by
  unfold sadd
  by_cases h : x ∈ l
  · simp only [if_pos h]
    constructor
    · exact Or.inl
    · rintro (hy | rfl)
      · exact hy
      · exact h
  · simp [if_neg h]

@[simp] theorem mem_sdel {l : List String} {x y : String} :
    y ∈ sdel l x ↔ y ∈ l ∧ y ≠ x := by
  simp [sdel]

/-! ## Path data model (TrackGraph.ts interfaces) -/

/-- A section traversal direction, the union type used by the source. -/
inductive Dir : Type
  | forward
  | backward
deriving DecidableEq, Repr

/-- Embedding of the TrackLinkData interface. The polyline geometry
(coordinates) is omitted: it is floating-point render data that none of the
verified code paths inspect. -/
structure TrackLinkData : Type where
  trackId : String
  osmWayId : Int
  length : ℚ
  maxSpeed : ℚ
  electrified : Bool
  usage : String
  service : Option String
  railway : String
  isConnector : Bool
deriving DecidableEq, Repr

/-- Embedding of the PathSegment interface. -/
structure PathSegment : Type where
  fromNodeId : String
  toNodeId : String
  link : TrackLinkData
  cumulativeDistance : ℚ
deriving DecidableEq, Repr

/-- Embedding of the PathResult interface. -/
structure PathResult : Type where
  segments : List PathSegment
  totalLength : ℚ
  stations : List String
  found : Bool
deriving DecidableEq, Repr

/-! ## Reservation system (TrackReservationSystem.ts) -/

/-- The blocked-reason union type of the ReservationUpdate interface. -/
inductive BlockReason : Type
  | block
  | section_direction
  | junction
deriving DecidableEq, Repr

/-- Embedding of the ReservationUpdate interface. -/
structure ReservationUpdate : Type where
  blockedAtOffset : Option ℚ
  blockedBlockId : Option String
  blockedByTrainId : Option String
  blockedReason : Option BlockReason
  blockedResourceId : Option String
deriving DecidableEq, Repr

/-- The all-null ReservationUpdate returned by an unblocked updateTrain call. -/
def noneUpdate : ReservationUpdate :=
  { blockedAtOffset := none, blockedBlockId := none, blockedByTrainId := none,
    blockedReason := none, blockedResourceId := none }

/-- Modelled from the spec: the three TrackGraph queries that the reservation
system consumes (isInterlockingNode, getSectionId, getSectionDirection) are
not part of the TrackGraph sources under src/; only their caller
(TrackReservationSystem) and the reservation test script exist. Per the spec,
an interlocking node is a switch/junction node requiring exclusive transit
reservation, a section is a derived grouping of one or more edges that are
direction-locked together with an id derivable from edge topology, and
getSectionDirection reports the traversal direction of a block of a section
relative to the section orientation. The three queries are therefore embedded
as an abstract structure, instantiated per scenario. -/
structure SectionModel : Type where
  isInterlockingNode : String → Bool
  getSectionId : String → Option String
  getSectionDirection : String → String → String → Option Dir

/-- Embedding of the per-train TrainReservationState interface. -/
structure TrainReservationState : Type where
  reservedBlocks : List String
  reservedNodes : List String
  releaseCursor : ℕ
deriving DecidableEq, Repr

/-- The fresh per-train state installed by setTrainPath / getOrCreateTrainState. -/
def freshTrainState : TrainReservationState :=
  { reservedBlocks := [], reservedNodes := [], releaseCursor := 0 }

/-- The mutable fields of the TrackReservationSystem class. -/
structure ResState : Type where
  reservedByBlockId : List (String × String)
  reservedByNodeId : List (String × String)
  sectionLockDirection : List (String × Dir)
  sectionLockOwner : List (String × String)
  sectionReservedCount : List (String × Int)
  trainState : List (String × TrainReservationState)
deriving DecidableEq, Repr

/-- The initial (empty) reservation-system state. -/
def initRes : ResState :=
  { reservedByBlockId := [], reservedByNodeId := [], sectionLockDirection := [],
    sectionLockOwner := [], sectionReservedCount := [], trainState := [] }

/-- The result enum of the private reserveBlock / reserveNode methods. -/
inductive ReserveResult : Type
  | reserved
  | already
  | blocked
deriving DecidableEq, Repr

/-- Embedding of getOrCreateTrainState followed by reservedBlocks.add. -/
def addReservedBlock (t b : String) (σ : ResState) : ResState :=
  let st := (alookup σ.trainState t).getD freshTrainState
  { σ with trainState := aset σ.trainState t { st with reservedBlocks := sadd st.reservedBlocks b } }

/-- Embedding of getOrCreateTrainState followed by reservedNodes.add. -/
def addReservedNode (t n : String) (σ : ResState) : ResState :=
  let st := (alookup σ.trainState t).getD freshTrainState
  { σ with trainState := aset σ.trainState t { st with reservedNodes := sadd st.reservedNodes n } }

/-- Embedding of TrackReservationSystem.reserveBlock. -/
def reserveBlock (t b : String) (σ : ResState) : ReserveResult × ResState :=
  match alookup σ.reservedByBlockId b with
  | none =>
      (.reserved, addReservedBlock t b { σ with reservedByBlockId := aset σ.reservedByBlockId b t })
  | some owner => if owner = t then (.already, σ) else (.blocked, σ)

/-- Embedding of TrackReservationSystem.reserveNode. -/
def reserveNode (t n : String) (σ : ResState) : ReserveResult × ResState :=
  match alookup σ.reservedByNodeId n with
  | none =>
      (.reserved, addReservedNode t n { σ with reservedByNodeId := aset σ.reservedByNodeId n t })
  | some owner => if owner = t then (.already, σ) else (.blocked, σ)

/-- Embedding of the reservedBlocks.delete step of releaseBlock. -/
def delReservedBlock (t b : String) (σ : ResState) : ResState :=
  match alookup σ.trainState t with
  | some st =>
      { σ with trainState := aset σ.trainState t { st with reservedBlocks := sdel st.reservedBlocks b } }
  | none => σ

/-- Embedding of the reservedNodes.delete step of releaseNode. -/
def delReservedNode (t n : String) (σ : ResState) : ResState :=
  match alookup σ.trainState t with
  | some st =>
      { σ with trainState := aset σ.trainState t { st with reservedNodes := sdel st.reservedNodes n } }
  | none => σ

/-- Embedding of TrackReservationSystem.releaseBlock, including the
section-count bookkeeping that clears the direction lock when the count of
reserved blocks of the section drops to zero. -/
def releaseBlock (m : SectionModel) (t b : String) (σ : ResState) : ResState :=
  if alookup σ.reservedByBlockId b = some t then
    let σ1 := delReservedBlock t b { σ with reservedByBlockId := aerase σ.reservedByBlockId b }
    match m.getSectionId b with
    | none => σ1
    | some s =>
        let current : Int := (alookup σ1.sectionReservedCount s).getD 0
        let next : Int := max 0 (current - 1)
        if next ≤ 0 then
          { σ1 with sectionReservedCount := aerase σ1.sectionReservedCount s,
                    sectionLockDirection := aerase σ1.sectionLockDirection s,
                    sectionLockOwner := aerase σ1.sectionLockOwner s }
        else { σ1 with sectionReservedCount := aset σ1.sectionReservedCount s next }
  else σ

/-- Embedding of TrackReservationSystem.releaseNode. -/
def releaseNode (t n : String) (σ : ResState) : ResState :=
  if alookup σ.reservedByNodeId n = some t then
    delReservedNode t n { σ with reservedByNodeId := aerase σ.reservedByNodeId n }
  else σ

/-- Embedding of TrackReservationSystem.clearTrain. The source iterates
snapshots of the per-train sets (or, when no per-train state exists, the live
ownership maps) and releases every held resource, then deletes the per-train
state. Deleting the entry currently being visited is the only mutation the
live iteration performs, so folding over a snapshot of the map entries is
observationally identical. -/
def clearTrain (m : SectionModel) (t : String) (σ : ResState) : ResState :=
  let σ1 :=
    match alookup σ.trainState t with
    | some st =>
        let σa := st.reservedBlocks.foldl (fun acc b => releaseBlock m t b acc) σ
        st.reservedNodes.foldl (fun acc n => releaseNode t n acc) σa
    | none =>
        let σa := σ.reservedByBlockId.foldl
          (fun (acc : ResState) (p : String × String) =>
            if p.2 = t then releaseBlock m t p.1 acc else acc) σ
        σ.reservedByNodeId.foldl
          (fun (acc : ResState) (p : String × String) =>
            if p.2 = t then releaseNode t p.1 acc else acc) σa
  { σ1 with trainState := aerase σ1.trainState t }

/-- Embedding of TrackReservationSystem.setTrainPath. -/
def setTrainPath (m : SectionModel) (t : String) (σ : ResState) : ResState :=
  let σ1 := clearTrain m t σ
  { σ1 with trainState := aset σ1.trainState t freshTrainState }

/-- JavaScript truthiness of the keepBlockId test in yieldTrain: the entry is
kept when keepBlockId is truthy (non-null and non-empty) and equals the block. -/
def keepMatches (keep : Option String) (b : String) : Bool :=
  match keep with
  | none => false
  | some k => decide (¬ k = "") && decide (b = k)

/-- Embedding of TrackReservationSystem.yieldTrain. The source iterates
Array.from snapshots of the per-train sets; releaseBlock mutates only the
reservedBlocks set, so the reservedNodes snapshot taken afterwards equals the
set captured at entry. -/
def yieldTrain (m : SectionModel) (t : String) (keep : Option String) (σ : ResState) : ResState :=
  match alookup σ.trainState t with
  | none => σ
  | some st =>
      let σa := st.reservedBlocks.foldl
        (fun acc b => if keepMatches keep b then acc else releaseBlock m t b acc) σ
      st.reservedNodes.foldl (fun acc n => releaseNode t n acc) σa

/-- The blocked ReservationUpdate literal built at each early return of
updateTrain. -/
def blockedUpd (seg : PathSegment) (byTrain : Option String) (r : BlockReason)
    (rid : String) : ReservationUpdate :=
  { blockedAtOffset := some seg.cumulativeDistance, blockedBlockId := some seg.link.trackId,
    blockedByTrainId := byTrain, blockedReason := some r, blockedResourceId := some rid }

/-- The section-direction check of updateTrain: returns the section id when
the section is locked to a direction different from the traversal direction. -/
def sectionBlocked (σ : ResState) (sectionId : Option String) (dir : Option Dir) : Option String :=
  match sectionId, dir with
  | some s, some d =>
      match alookup σ.sectionLockDirection s with
      | some l => if l = d then none else some s
      | none => none
  | _, _ => none

/-- The reserve-block step of one updateTrain loop iteration: attempt the
block reservation and, on a fresh reservation, bump the section count and
install the direction lock when the section is not locked yet. -/
def reserveIterBlock (t : String) (seg : PathSegment) (sectionId : Option String)
    (dir : Option Dir) (σ : ResState) : Option ReservationUpdate × ResState :=
  match reserveBlock t seg.link.trackId σ with
  | (.blocked, σ1) =>
      (some (blockedUpd seg (alookup σ1.reservedByBlockId seg.link.trackId) .block
        seg.link.trackId), σ1)
  | (.already, σ1) => (none, σ1)
  | (.reserved, σ1) =>
      match sectionId with
      | none => (none, σ1)
      | some s =>
          let cnt : Int := (alookup σ1.sectionReservedCount s).getD 0 + 1
          let σ2 := { σ1 with sectionReservedCount := aset σ1.sectionReservedCount s cnt }
          match dir with
          | none => (none, σ2)
          | some d =>
              if (alookup σ2.sectionLockDirection s).isSome then (none, σ2)
              else (none, { σ2 with sectionLockDirection := aset σ2.sectionLockDirection s d,
                                    sectionLockOwner := aset σ2.sectionLockOwner s t })

/-- The section-check plus reserve-block part of one updateTrain loop
iteration. -/
def reserveIterCore (m : SectionModel) (t : String) (seg : PathSegment) (σ : ResState) :
    Option ReservationUpdate × ResState :=
  let sectionId := m.getSectionId seg.link.trackId
  let dir := m.getSectionDirection seg.link.trackId seg.fromNodeId seg.toNodeId
  match sectionBlocked σ sectionId dir with
  | some s => (some (blockedUpd seg (alookup σ.sectionLockOwner s) .section_direction s), σ)
  | none => reserveIterBlock t seg sectionId dir σ

/-- One iteration of the reserve-ahead loop of updateTrain (junction-node
check, section-direction check, block reservation); a some result is the
blocked early return of the source. -/
def reserveIter (m : SectionModel) (t : String) (csi : Int) (i : ℕ) (seg : PathSegment)
    (σ : ResState) : Option ReservationUpdate × ResState :=
  if csi < (i : Int) ∧ m.isInterlockingNode seg.fromNodeId = true then
    match reserveNode t seg.fromNodeId σ with
    | (.blocked, σ1) =>
        (some (blockedUpd seg (alookup σ1.reservedByNodeId seg.fromNodeId) .junction
          seg.fromNodeId), σ1)
    | (_, σ1) => reserveIterCore m t seg σ1
  else reserveIterCore m t seg σ

/-- The reserve-ahead loop of updateTrain: i is the index of the first
segment of rest within path.segments; the loop breaks when the segment start
is beyond the lookahead. -/
def reserveLoop (m : SectionModel) (t : String) (csi : Int) (off look : ℚ) :
    ℕ → List PathSegment → ResState → ReservationUpdate × ResState
  | _, [], σ => (noneUpdate, σ)
  | i, seg :: rest, σ =>
      if look < seg.cumulativeDistance - off then (noneUpdate, σ)
      else
        match reserveIter m t csi i seg σ with
        | (some upd, σ1) => (upd, σ1)
        | (none, σ1) => reserveLoop m t csi off look (i + 1) rest σ1
termination_by structural _ rest _ => rest

/-- The release cursor of a train, as read by the release-behind loop. -/
def cursorOf (t : String) (σ : ResState) : ℕ :=
  ((alookup σ.trainState t).getD freshTrainState).releaseCursor

/-- The cursor increment at the end of one release-behind iteration. -/
def bumpCursor (t : String) (σ : ResState) : ResState :=
  match alookup σ.trainState t with
  | some st => { σ with trainState := aset σ.trainState t { st with releaseCursor := st.releaseCursor + 1 } }
  | none => σ

/-- The release-behind loop of updateTrain. The while loop runs while the
cursor is below currentSegmentIndex and the segment under the cursor ends at
or before the release boundary; the fuel argument bounds the iteration count
(the caller passes currentSegmentIndex minus the entry cursor, which the loop
invariant keeps equal to the remaining iteration budget). -/
def releaseLoop (m : SectionModel) (t : String) (segs : List PathSegment) (csi : Int)
    (releaseBefore : ℚ) : ℕ → ResState → ResState
  | 0, σ => σ
  | fuel + 1, σ =>
      if (cursorOf t σ : Int) < csi then
        match segs.get? (cursorOf t σ) with
        | none => σ
        | some seg =>
            if releaseBefore < seg.cumulativeDistance + seg.link.length then σ
            else
              let σa := releaseBlock m t seg.link.trackId σ
              let σb := if m.isInterlockingNode seg.fromNodeId = true
                        then releaseNode t seg.fromNodeId σa else σa
              releaseLoop m t segs csi releaseBefore fuel (bumpCursor t σb)
      else σ

/-- Embedding of TrackReservationSystem.updateTrain (the per-tick core call):
not-found guard, per-train state creation, release-behind sweep, then the
reserve-ahead scan from max 0 currentSegmentIndex. -/
def updateTrain (m : SectionModel) (t : String) (path : PathResult) (csi : Int)
    (off look rel : ℚ) (σ : ResState) : ReservationUpdate × ResState :=
  if path.found = false ∨ path.segments = [] then (noneUpdate, σ)
  else
    let σ0 := if (alookup σ.trainState t).isSome then σ
              else { σ with trainState := aset σ.trainState t freshTrainState }
    let σ1 := releaseLoop m t path.segments csi (off - rel)
      (csi - (cursorOf t σ0 : Int)).toNat σ0
    reserveLoop m t csi off look csi.toNat (path.segments.drop csi.toNat) σ1

/-! ## The literal test scenarios (scripts/test-reservations.ts) -/

/-- The makeLink helper of the reservation test script. -/
def makeLink (trackId : String) (length : ℚ) : TrackLinkData :=
  { trackId := trackId, osmWayId := 0, length := length, maxSpeed := 100,
    electrified := false, usage := "main", service := none, railway := "rail",
    isConnector := false }

/-- The makePath helper of the reservation test script: segments with running
cumulative distances, total length, found = true. -/
def makePath (specs : List (String × String × String × ℚ)) : PathResult :=
  let segs := (specs.foldl
    (fun (acc : List PathSegment × ℚ) sp =>
      (acc.1 ++ [{ fromNodeId := sp.1, toNodeId := sp.2.1, link := makeLink sp.2.2.1 sp.2.2.2,
                   cumulativeDistance := acc.2 }], acc.2 + sp.2.2.2))
    ([], 0))
  { segments := segs.1, totalLength := segs.2, stations := [], found := true }

/-- Modelled from the spec: the section/interlocking view of the two-block
test topology (switch A, track M, switch B, edges e1 = A to M and
e2 = M to B). The switches A and B are interlocking nodes; the chain of edges
e1, e2 joined through the plain track node M forms one section, oriented from
A to B, whose id is derived from the edge topology and carries the section:
prefix asserted by the test. -/
def sectionTestModel : SectionModel :=
  { isInterlockingNode := fun n => n = "A" || n = "B",
    getSectionId := fun b => if b = "e1" ∨ b = "e2" then some "section:e1+e2" else none,
    getSectionDirection := fun b f t =>
      if b = "e1" ∧ f = "A" ∧ t = "M" then some .forward
      else if b = "e1" ∧ f = "M" ∧ t = "A" then some .backward
      else if b = "e2" ∧ f = "M" ∧ t = "B" then some .forward
      else if b = "e2" ∧ f = "B" ∧ t = "M" then some .backward
      else none }

/-- Train 1 path of the section-lock test: A to M to B over e1, e2. -/
def sectionT1Path : PathResult :=
  makePath [("A", "M", "e1", 100), ("M", "B", "e2", 100)]

/-- Train 2 path of the section-lock test: B to M to A over e2, e1. -/
def sectionT2Path : PathResult :=
  makePath [("B", "M", "e2", 100), ("M", "A", "e1", 100)]

/-- Modelled from the spec: the section/interlocking view of the star
topology test (switch J joined to plain track nodes A, B, C by edges eJA,
eJB, eJC of 100 m). J is the only interlocking node; each edge is its own
single-block section oriented away from J. -/
def junctionTestModel : SectionModel :=
  { isInterlockingNode := fun n => n = "J",
    getSectionId := fun b =>
      if b = "eJA" then some "section:eJA"
      else if b = "eJB" then some "section:eJB"
      else if b = "eJC" then some "section:eJC" else none,
    getSectionDirection := fun b f t =>
      if b = "eJA" ∧ f = "J" ∧ t = "A" then some .forward
      else if b = "eJA" ∧ f = "A" ∧ t = "J" then some .backward
      else if b = "eJB" ∧ f = "J" ∧ t = "B" then some .forward
      else if b = "eJB" ∧ f = "B" ∧ t = "J" then some .backward
      else if b = "eJC" ∧ f = "J" ∧ t = "C" then some .forward
      else if b = "eJC" ∧ f = "C" ∧ t = "J" then some .backward
      else none }

/-- Train 1 path of the junction-lock test: A to J to B. -/
def junctionT1Path : PathResult :=
  makePath [("A", "J", "eJA", 100), ("J", "B", "eJB", 100)]

/-- Train 2 path of the junction-lock test: C to J to A. -/
def junctionT2Path : PathResult :=
  makePath [("C", "J", "eJC", 100), ("J", "A", "eJA", 100)]

section ConcreteScenarios

attribute [local semireducible] Rat.add Rat.sub Rat.mul Rat.inv

/-- The reservation state after Train T1 of the section-direction test sets
its path and runs one reservation update (segment 0, offset 0, lookahead 50,
release-behind 0). -/
def sectionAfterT1 : ReservationUpdate × ResState :=
  updateTrain sectionTestModel "T1" sectionT1Path 0 0 50 0
    (setTrainPath sectionTestModel "T1" initRes)

/-- The result of Train T2 of the section-direction test after T1 finished. -/
def sectionT2Result : ReservationUpdate × ResState :=
  updateTrain sectionTestModel "T2" sectionT2Path 0 0 50 0
    (setTrainPath sectionTestModel "T2" sectionAfterT1.2)

/-- C1: in the literal two-block scenario (A, M, B joined by the 100 m edges
e1 = A to M and e2 = M to B), Train T1 with path A to M to B sets its path and
runs updateTrain (segment 0, offset 0, lookahead 50, release-behind 0) without
being blocked; Train T2 with path B to M, M to A then sets its path, runs
updateTrain with the same parameters, and is reported blocked at offset 0 on
block e2 with reason section_direction by train T1, with a blocked resource id
that starts with the section: prefix. -/
theorem c1_section_direction_scenario :
    sectionAfterT1.1 = noneUpdate ∧
    sectionT2Result.1.blockedAtOffset = some 0 ∧
    sectionT2Result.1.blockedBlockId = some "e2" ∧
    sectionT2Result.1.blockedReason = some BlockReason.section_direction ∧
    sectionT2Result.1.blockedByTrainId = some "T1" ∧
    ∃ rest, sectionT2Result.1.blockedResourceId = some ("section:" ++ rest) := by
  exact ⟨by decide, by decide, by decide, by decide, by decide, "e1+e2", by decide⟩

/-- The reservation state after Train T1 of the junction test sets its path
and runs one reservation update (segment 0, offset 0, lookahead 250,
release-behind 0). -/
def junctionAfterT1 : ReservationUpdate × ResState :=
  updateTrain junctionTestModel "T1" junctionT1Path 0 0 250 0
    (setTrainPath junctionTestModel "T1" initRes)

/-- The result of Train T2 of the junction test after T1 finished. -/
def junctionT2Result : ReservationUpdate × ResState :=
  updateTrain junctionTestModel "T2" junctionT2Path 0 0 250 0
    (setTrainPath junctionTestModel "T2" junctionAfterT1.2)

/-- C2: in the literal star-topology scenario (switch J joined to A, B, C by
100 m edges), Train T1 with path A to J to B sets its path and runs
updateTrain (segment 0, offset 0, lookahead 250, release-behind 0) without
being blocked; Train T2 with path C to J to A then sets its path, runs
updateTrain with the same parameters, and is reported blocked at offset 100
with reason junction, blocked resource J, by train T1. -/
theorem c2_junction_scenario :
    junctionAfterT1.1.blockedReason = none ∧
    junctionT2Result.1.blockedAtOffset = some 100 ∧
    junctionT2Result.1.blockedReason = some BlockReason.junction ∧
    junctionT2Result.1.blockedResourceId = some "J" ∧
    junctionT2Result.1.blockedByTrainId = some "T1" := by
  exact ⟨by decide, by decide, by decide, by decide, by decide⟩

end ConcreteScenarios

/-! ## Movement clamp (TrainMovementSystem.move) -/

/-- Embedding of TrainMovementSystem.move: convert the speed from km/h to
m/s, advance the path offset by the travelled distance, limit it by the
blocked offset (never below the current offset), and clamp to the path
bounds. The departing, running and approaching handlers all call this with
maxOffset = movement.blockedAtOffset. -/
def move (pathOffset totalLength currentSpeed deltaSeconds : ℚ)
    (maxOffset : Option ℚ) : ℚ :=
  let speedMs := currentSpeed / (36 / 10)
  let distance := speedMs * deltaSeconds
  let desiredOffset := pathOffset + distance
  let limitOffset := match maxOffset with
    | none => totalLength
    | some m => max pathOffset m
  max 0 (min (min desiredOffset limitOffset) totalLength)

/-- C5: for every per-tick movement step of a train in the departing, running
or approaching state (all of which advance the offset through move with the
recorded blocked offset as the limit), given a nonnegative speed and time step
and an offset within the path bounds, the new offset never decreases, never
exceeds the total path length, and, when a blocked offset is set, never
exceeds the maximum of the previous offset and the blocked offset. -/
theorem c5_move_clamped (pathOffset totalLength currentSpeed deltaSeconds : ℚ)
    (maxOffset : Option ℚ) (hlo : 0 ≤ pathOffset) (hhi : pathOffset ≤ totalLength)
    (hspeed : 0 ≤ currentSpeed) (hdelta : 0 ≤ deltaSeconds) :
    pathOffset ≤ move pathOffset totalLength currentSpeed deltaSeconds maxOffset ∧
    move pathOffset totalLength currentSpeed deltaSeconds maxOffset ≤ totalLength ∧
    (∀ b, maxOffset = some b →
      move pathOffset totalLength currentSpeed deltaSeconds maxOffset ≤ max pathOffset b) := by
  have hdist : 0 ≤ currentSpeed / (36 / 10) * deltaSeconds := by positivity
  unfold move
  cases maxOffset with
  | none =>
    refine ⟨?_, ?_, ?_⟩
    · simp only
      have h1 : pathOffset ≤ min (min (pathOffset + currentSpeed / (36 / 10) * deltaSeconds)
          totalLength) totalLength := by
        refine le_min (le_min (by linarith) hhi) hhi
      exact le_trans h1 (le_max_right _ _)
    · simp only
      have h0 : (0 : ℚ) ≤ totalLength := le_trans hlo hhi
      exact max_le h0 (min_le_right _ _)
    · intro b hb; cases hb
  | some m =>
    refine ⟨?_, ?_, ?_⟩
    · simp only
      have h1 : pathOffset ≤ min (min (pathOffset + currentSpeed / (36 / 10) * deltaSeconds)
          (max pathOffset m)) totalLength := by
        refine le_min (le_min (by linarith) (le_max_left _ _)) hhi
      exact le_trans h1 (le_max_right _ _)
    · simp only
      have h0 : (0 : ℚ) ≤ totalLength := le_trans hlo hhi
      exact max_le h0 (min_le_right _ _)
    · intro b hb
      injection hb with hb
      subst hb
      simp only
      have h0 : (0 : ℚ) ≤ max pathOffset m := le_trans hlo (le_max_left _ _)
      refine max_le h0 (le_trans (min_le_left _ _) (min_le_right _ _))

section ConcreteWitnesses

attribute [local semireducible] Rat.add Rat.sub Rat.mul Rat.inv

/-- Witness for the C5 theorem: a concrete departing-state tick with offset
10 on a 200 m path, speed 36 km/h, one second step and a blocked offset at
12 m advances from 10 to exactly 12 and satisfies every clamp bound. -/
theorem c5_move_clamped_witness :
    (0 ≤ (10 : ℚ) ∧ (10 : ℚ) ≤ 200 ∧ 0 ≤ (36 : ℚ) ∧ 0 ≤ (1 : ℚ)) ∧
    (10 ≤ move 10 200 36 1 (some 12) ∧ move 10 200 36 1 (some 12) ≤ 200 ∧
      (∀ b, (some (12 : ℚ)) = some b → move 10 200 36 1 (some 12) ≤ max 10 b)) := by
  refine ⟨⟨by norm_num, by norm_num, by norm_num, by norm_num⟩, ?_⟩
  exact c5_move_clamped 10 200 36 1 (some 12) (by norm_num) (by norm_num) (by norm_num)
    (by norm_num)

end ConcreteWitnesses

/-! ## Timetable spawning (TimetableSystem.ts) -/

/-- Embedding of the timetable-entry data the spawn loop consults. The
departureTimeMs field embeds getDepartureTimeMs, which the source computes as
midnight of the entry date plus the first-stop departure minutes (null when
the first stop carries no departure); the local-time Date arithmetic is
abstracted into a per-entry epoch-millisecond value. -/
structure TtEntry : Type where
  canceled : Bool
  departureTimeMs : Option Int
deriving DecidableEq, Repr

/-- The TimetableSystem state consumed by update: the entry map, the set of
already-spawned entry ids, the departure-sorted spawn index, and the spawn
cursor. -/
structure TtState : Type where
  timetableEntries : List (String × TtEntry)
  spawnedTrains : List String
  sortedByDeparture : List (String × Int)
  spawnCursor : ℕ
deriving DecidableEq, Repr

/-- The sort comparator of rebuildSpawnIndex: departure time ascending, ties
broken by entry id. -/
def ttLe (a b : String × Int) : Bool :=
  decide (a.2 < b.2) || (decide (a.2 = b.2) && decide (a.1 ≤ b.1))

/-- The sortable array built by rebuildSpawnIndex: the entries that have a
departure time, paired with it. -/
def ttSortable (σ : TtState) : List (String × Int) :=
  σ.timetableEntries.filterMap (fun p => p.2.departureTimeMs.map (fun ms => (p.1, ms)))

/-- Embedding of TimetableSystem.rebuildSpawnIndex: collect the entries that
have a departure time, sort them by departure time then id, reset the
cursor. -/
def rebuildSpawnIndex (σ : TtState) : TtState :=
  { σ with sortedByDeparture := (ttSortable σ).mergeSort ttLe, spawnCursor := 0 }

/-- The guard of the spawn branch of the update loop: the entry exists, is
not cancelled, has not already spawned, and departs strictly after now. -/
def spawnGuard (entries : List (String × TtEntry)) (spawned : List String)
    (nowMs : Int) (p : String × Int) : Bool :=
  match alookup entries p.1 with
  | some e => decide (e.canceled = false) && decide (p.1 ∉ spawned) && decide (nowMs < p.2)
  | none => false

/-- The while loop of TimetableSystem.update over the suffix of the spawn
index from the cursor. Returns the updated spawned-set, the list of entries
for which spawnTrain was invoked (the source increments spawnedCount exactly
once per such entry), and the number of loop iterations (the cursor
advance). The outcome parameter abstracts whether spawnTrain succeeds for an
entry (path found, train created or reused); only successful spawns add the
entry id to spawnedTrains. -/
def spawnLoop (outcome : String → Bool) (entries : List (String × TtEntry))
    (nowMs thresholdMs : Int) :
    List (String × Int) → List String → List String × List (String × Int) × ℕ
  | [], spawned => (spawned, [], 0)
  | p :: rest, spawned =>
      if thresholdMs < p.2 then (spawned, [], 0)
      else
        let g := spawnGuard entries spawned nowMs p
        let spawned1 := if g && outcome p.1 then sadd spawned p.1 else spawned
        let r := spawnLoop outcome entries nowMs thresholdMs rest spawned1
        (r.1, (if g then p :: r.2.1 else r.2.1), r.2.2 + 1)

/-- The lazy-rebuild step at the top of TimetableSystem.update: rebuild the
spawn index when it is empty while entries exist. -/
def ttPre (σ : TtState) : TtState :=
  if σ.sortedByDeparture = [] ∧ σ.timetableEntries ≠ [] then rebuildSpawnIndex σ else σ

/-- Embedding of TimetableSystem.update: rebuild the spawn index when it is
empty but entries exist, then walk the index from the cursor spawning due
entries, advancing the cursor once per visited entry. Returns the new state
and the list of entries for which a spawn was attempted. -/
def ttUpdate (outcome : String → Bool) (spawnAheadMinutes : Int) (σ : TtState)
    (nowMs : Int) : TtState × List (String × Int) :=
  let σ0 := ttPre σ
  let thresholdMs := nowMs + spawnAheadMinutes * 60 * 1000
  let r := spawnLoop outcome σ0.timetableEntries nowMs thresholdMs
    (σ0.sortedByDeparture.drop σ0.spawnCursor) σ0.spawnedTrains
  ({ σ0 with spawnedTrains := r.1, spawnCursor := σ0.spawnCursor + r.2.2 }, r.2.1)

/-- Well-formedness of the spawn index, as established by rebuildSpawnIndex:
the index is sorted by departure time, its ids are distinct, every index row
points at an entry whose departure time matches, and the entry map has
distinct keys. -/
structure IndexWF (σ : TtState) : Prop where
  sorted : List.Pairwise (fun a b => a.2 ≤ b.2) σ.sortedByDeparture
  nodupIds : (σ.sortedByDeparture.map Prod.fst).Nodup
  link : ∀ p ∈ σ.sortedByDeparture,
    (alookup σ.timetableEntries p.1).map (fun e => e.departureTimeMs) = some (some p.2)
  keysNodup : (akeys σ.timetableEntries).Nodup

theorem ttLe_trans : ∀ a b c : String × Int, ttLe a b = true → ttLe b c = true →
    ttLe a c = true := by
  intro a b c hab hbc
  simp only [ttLe, Bool.or_eq_true, Bool.and_eq_true, decide_eq_true_eq] at *
  rcases hab with h1 | ⟨h1, h2⟩ <;> rcases hbc with h3 | ⟨h3, h4⟩
  · exact Or.inl (h1.trans h3)
  · exact Or.inl (h3 ▸ h1)
  · exact Or.inl (h1 ▸ h3)
  · exact Or.inr ⟨h1.trans h3, h2.trans h4⟩

theorem ttLe_total : ∀ a b : String × Int, (ttLe a b || ttLe b a) = true := by
  intro a b
  simp only [ttLe, Bool.or_eq_true, Bool.and_eq_true, decide_eq_true_eq]
  rcases lt_trichotomy a.2 b.2 with h | h | h
  · exact Or.inl (Or.inl h)
  · rcases le_total a.1 b.1 with h2 | h2
    · exact Or.inl (Or.inr ⟨h, h2⟩)
    · exact Or.inr (Or.inr ⟨h.symm, h2⟩)
  · exact Or.inr (Or.inl h)

theorem mem_ttSortable (σ : TtState) {q : String × Int} (hq : q ∈ ttSortable σ) :
    ∃ e, (q.1, e) ∈ σ.timetableEntries ∧ e.departureTimeMs = some q.2 := by
  rw [ttSortable, List.mem_filterMap] at hq
  obtain ⟨p, hp, hval⟩ := hq
  cases hdep : p.2.departureTimeMs with
  | none => rw [hdep] at hval; cases hval
  | some ms =>
      rw [hdep] at hval
      simp only [Option.map_some', Option.some.injEq] at hval
      subst hval
      exact ⟨p.2, hp, hdep⟩

theorem ttSortable_ids_sublist (σ : TtState) :
    List.Sublist ((ttSortable σ).map Prod.fst) (σ.timetableEntries.map Prod.fst) := by
  rw [ttSortable]
  induction σ.timetableEntries with
  | nil => simp
  | cons p rest ih =>
      cases hdep : p.2.departureTimeMs with
      | none => simpa [List.filterMap_cons, hdep] using List.Sublist.cons p.1 ih
      | some ms => simpa [List.filterMap_cons, hdep] using List.Sublist.cons₂ p.1 ih

/-- rebuildSpawnIndex establishes the spawn-index well-formedness. -/
theorem rebuild_indexWF (σ : TtState) (hkeys : (akeys σ.timetableEntries).Nodup) :
    IndexWF (rebuildSpawnIndex σ) := by
  have hperm : ((ttSortable σ).mergeSort ttLe).Perm (ttSortable σ) := List.mergeSort_perm _ _
  have hfields : (rebuildSpawnIndex σ).sortedByDeparture = (ttSortable σ).mergeSort ttLe := rfl
  have hfe : (rebuildSpawnIndex σ).timetableEntries = σ.timetableEntries := rfl
  refine ⟨?_, ?_, ?_, by rw [hfe]; exact hkeys⟩
  · rw [hfields]
    have hpw := List.sorted_mergeSort ttLe_trans ttLe_total (ttSortable σ)
    refine hpw.imp ?_
    intro a b hab
    simp only [ttLe, Bool.or_eq_true, Bool.and_eq_true, decide_eq_true_eq] at hab
    rcases hab with h | ⟨h, _⟩
    · exact le_of_lt h
    · exact le_of_eq h
  · rw [hfields]
    have hnodup : ((ttSortable σ).map Prod.fst).Nodup :=
      (ttSortable_ids_sublist σ).nodup hkeys
    exact (hperm.map Prod.fst).nodup_iff.mpr hnodup
  · intro p hp
    rw [hfields] at hp
    have hp' : p ∈ ttSortable σ := hperm.mem_iff.mp hp
    obtain ⟨e, hmem, hdep⟩ := mem_ttSortable σ hp'
    rw [hfe, alookup_of_mem_nodup hkeys hmem]
    simp [hdep]

theorem ttPre_indexWF (σ : TtState) (hwf : IndexWF σ) : IndexWF (ttPre σ) := by
  unfold ttPre
  split
  · exact rebuild_indexWF σ hwf.keysNodup
  · exact hwf

@[simp] theorem ttPre_entries (σ : TtState) :
    (ttPre σ).timetableEntries = σ.timetableEntries := by
  unfold ttPre; split <;> rfl

@[simp] theorem ttPre_spawned (σ : TtState) :
    (ttPre σ).spawnedTrains = σ.spawnedTrains := by
  unfold ttPre; split <;> rfl

/-- Per-iteration facts of the spawn loop: the attempted list is a sublist of
the first k visited index rows, k never exceeds the suffix length, and every
attempted entry passed the guard (exists, not cancelled, not yet spawned,
departure strictly after now) and the window test (departure at or before the
threshold). -/
theorem spawnLoop_spec (outcome : String → Bool) (entries : List (String × TtEntry))
    (nowMs thresholdMs : Int) :
    ∀ (l : List (String × Int)) (spawned : List String),
      List.Sublist (spawnLoop outcome entries nowMs thresholdMs l spawned).2.1
        (l.take (spawnLoop outcome entries nowMs thresholdMs l spawned).2.2) ∧
      (spawnLoop outcome entries nowMs thresholdMs l spawned).2.2 ≤ l.length ∧
      (∀ p ∈ (spawnLoop outcome entries nowMs thresholdMs l spawned).2.1,
        (∃ e, alookup entries p.1 = some e ∧ e.canceled = false) ∧
        p.1 ∉ spawned ∧ nowMs < p.2 ∧ p.2 ≤ thresholdMs) := by
  intro l
  induction l with
  | nil => intro spawned; simp [spawnLoop]
  | cons p rest ih =>
      intro spawned
      by_cases hth : thresholdMs < p.2
      · simp [spawnLoop, hth]
      · rw [spawnLoop]
        simp only [if_neg hth]
        set g := spawnGuard entries spawned nowMs p with hg
        set spawned1 := if g && outcome p.1 then sadd spawned p.1 else spawned with hsp1
        obtain ⟨ih1, ih2, ih3⟩ := ih spawned1
        have hsub : spawned ⊆ spawned1 := by
          rw [hsp1]
          split
          · intro x hx
            exact mem_sadd.mpr (Or.inl hx)
          · exact fun x hx => hx
        have hmono : ∀ q ∈ (spawnLoop outcome entries nowMs thresholdMs rest spawned1).2.1,
            (∃ e, alookup entries q.1 = some e ∧ e.canceled = false) ∧
            q.1 ∉ spawned ∧ nowMs < q.2 ∧ q.2 ≤ thresholdMs := by
          intro q hq
          obtain ⟨he, hns, hlt, hle⟩ := ih3 q hq
          exact ⟨he, fun hmem => hns (hsub hmem), hlt, hle⟩
        cases hgv : g with
        | false =>
            simp only [hgv, Bool.false_eq_true, if_false]
            refine ⟨?_, by simpa using Nat.succ_le_succ ih2, hmono⟩
            rw [List.take_succ_cons]
            exact List.Sublist.cons p ih1
        | true =>
            simp only [hgv, if_true]
            refine ⟨?_, by simpa using Nat.succ_le_succ ih2, ?_⟩
            · rw [List.take_succ_cons]
              exact List.Sublist.cons₂ p ih1
            · intro q hq
              rcases List.mem_cons.mp hq with h | hq'
              · subst h
                have hguard := hgv
                rw [hg] at hguard
                unfold spawnGuard at hguard
                cases he : alookup entries q.1 with
                | none => rw [he] at hguard; cases hguard
                | some e =>
                    rw [he] at hguard
                    simp only [Bool.and_eq_true, decide_eq_true_eq] at hguard
                    exact ⟨⟨e, rfl, hguard.1.1⟩, hguard.1.2, hguard.2, le_of_not_lt hth⟩
              · exact hmono q hq'

/-- C8: given a well-formed spawn index, every entry update(currentTime)
attempts to spawn exists, is not cancelled, has not already spawned, and has
a first-stop departure time strictly later than currentTime and at most
currentTime plus the spawnAheadMinutes window; entries are visited in
non-decreasing departure-time order with no entry attempted twice within the
call; and across two successive update calls no entry is considered for
spawning twice. -/
theorem c8_timetable_spawn_window (outcome outcome2 : String → Bool) (ahead : Int)
    (σ : TtState) (nowMs now2 : Int) (hwf : IndexWF σ) :
    (∀ p ∈ (ttUpdate outcome ahead σ nowMs).2,
      ∃ e, alookup σ.timetableEntries p.1 = some e ∧ e.canceled = false ∧
        e.departureTimeMs = some p.2 ∧ p.1 ∉ σ.spawnedTrains ∧
        nowMs < p.2 ∧ p.2 ≤ nowMs + ahead * 60 * 1000) ∧
    List.Chain' (fun a b => a.2 ≤ b.2) (ttUpdate outcome ahead σ nowMs).2 ∧
    ((ttUpdate outcome ahead σ nowMs).2.map Prod.fst).Nodup ∧
    (∀ p ∈ (ttUpdate outcome2 ahead (ttUpdate outcome ahead σ nowMs).1 now2).2,
      p.1 ∉ (ttUpdate outcome ahead σ nowMs).2.map Prod.fst) := by
  have hwf0 : IndexWF (ttPre σ) := ttPre_indexWF σ hwf
  obtain ⟨hs1, hs2, hs3⟩ := spawnLoop_spec outcome (ttPre σ).timetableEntries nowMs
    (nowMs + ahead * 60 * 1000) ((ttPre σ).sortedByDeparture.drop (ttPre σ).spawnCursor)
    (ttPre σ).spawnedTrains
  have hatt : (ttUpdate outcome ahead σ nowMs).2 =
      (spawnLoop outcome (ttPre σ).timetableEntries nowMs (nowMs + ahead * 60 * 1000)
        ((ttPre σ).sortedByDeparture.drop (ttPre σ).spawnCursor) (ttPre σ).spawnedTrains).2.1 :=
    rfl
  have hattSorted : List.Sublist (ttUpdate outcome ahead σ nowMs).2
      (ttPre σ).sortedByDeparture := by
    rw [hatt]
    exact (hs1.trans (List.take_sublist _ _)).trans (List.drop_sublist _ _)
  refine ⟨?_, ?_, ?_, ?_⟩
  · intro p hp
    obtain ⟨⟨e0, he0, hcanc⟩, hnospawn, hlt, hle⟩ := hs3 p (hatt ▸ hp)
    have hlink := hwf0.link p (hattSorted.subset hp)
    rw [Option.map_eq_some'] at hlink
    obtain ⟨e, he, hdep⟩ := hlink
    rw [he] at he0
    injection he0 with he0
    subst he0
    refine ⟨e, ?_, hcanc, hdep, ?_, hlt, hle⟩
    · rw [ttPre_entries] at he; exact he
    · rw [ttPre_spawned] at hnospawn; exact hnospawn
  · exact (List.Pairwise.sublist hattSorted hwf0.sorted).chain'
  · exact (hattSorted.map Prod.fst).nodup hwf0.nodupIds
  · by_cases hnil : (ttPre σ).sortedByDeparture = []
    · intro p _ hmem
      have hattnil : (ttUpdate outcome ahead σ nowMs).2 = [] := by
        have := hattSorted
        rw [hnil] at this
        exact List.sublist_nil.mp this
      rw [hattnil] at hmem
      cases hmem
    · set σ1 := (ttUpdate outcome ahead σ nowMs).1 with hσ1
      have hσ1sorted : σ1.sortedByDeparture = (ttPre σ).sortedByDeparture := rfl
      have hσ1pre : ttPre σ1 = σ1 := by
        unfold ttPre
        rw [if_neg]
        intro hcontra
        exact hnil (hσ1sorted ▸ hcontra.1)
      have hσ1cursor : σ1.spawnCursor = (ttPre σ).spawnCursor +
          (spawnLoop outcome (ttPre σ).timetableEntries nowMs (nowMs + ahead * 60 * 1000)
            ((ttPre σ).sortedByDeparture.drop (ttPre σ).spawnCursor)
            (ttPre σ).spawnedTrains).2.2 := rfl
      obtain ⟨ht1, _, _⟩ := spawnLoop_spec outcome2 σ1.timetableEntries now2
        (now2 + ahead * 60 * 1000) (σ1.sortedByDeparture.drop σ1.spawnCursor) σ1.spawnedTrains
      have hatt2 : (ttUpdate outcome2 ahead σ1 now2).2 =
          (spawnLoop outcome2 σ1.timetableEntries now2 (now2 + ahead * 60 * 1000)
            (σ1.sortedByDeparture.drop σ1.spawnCursor) σ1.spawnedTrains).2.1 := by
        show (ttUpdate outcome2 ahead σ1 now2).2 = _
        unfold ttUpdate
        rw [hσ1pre]
      intro p hp hmem
      -- the id of p lies in the first-call slice and in the later suffix
      set L := ((ttPre σ).sortedByDeparture.drop (ttPre σ).spawnCursor).map Prod.fst with hL
      set k := (spawnLoop outcome (ttPre σ).timetableEntries nowMs (nowMs + ahead * 60 * 1000)
        ((ttPre σ).sortedByDeparture.drop (ttPre σ).spawnCursor)
        (ttPre σ).spawnedTrains).2.2 with hk
      have hLnodup : L.Nodup := by
        rw [hL]
        exact ((List.drop_sublist _ _).map Prod.fst).nodup hwf0.nodupIds
      have hmem1 : p.1 ∈ L.take k := by
        have h1 : List.Sublist ((ttUpdate outcome ahead σ nowMs).2.map Prod.fst)
            (L.take k) := by
          rw [hatt, hL, hk, ← List.map_take]
          exact List.Sublist.map Prod.fst hs1
        exact h1.subset hmem
      have hmem2 : p.1 ∈ L.drop k := by
        have hdropdrop : σ1.sortedByDeparture.drop σ1.spawnCursor =
            ((ttPre σ).sortedByDeparture.drop (ttPre σ).spawnCursor).drop k := by
          rw [hσ1sorted, hσ1cursor, List.drop_drop]
        have h2 : p ∈ σ1.sortedByDeparture.drop σ1.spawnCursor := by
          have := (ht1.trans (List.take_sublist _ _)).subset (hatt2 ▸ hp)
          exact this
        rw [hdropdrop] at h2
        rw [hL, ← List.map_drop]
        exact List.mem_map_of_mem Prod.fst h2
      have hsplit : (L.take k ++ L.drop k).Nodup := by
        rw [List.take_append_drop]; exact hLnodup
      exact (List.nodup_append.mp hsplit).2.2 hmem1 hmem2

/-- A concrete three-entry timetable state with a built spawn index, used to
witness the C8 theorem. -/
def ttWitnessState : TtState :=
  { timetableEntries :=
      [("E1", { canceled := false, departureTimeMs := some 120000 }),
       ("E2", { canceled := false, departureTimeMs := some 300000 }),
       ("E3", { canceled := true, departureTimeMs := some 180000 })],
    spawnedTrains := [],
    sortedByDeparture := [("E1", 120000), ("E3", 180000), ("E2", 300000)],
    spawnCursor := 0 }

/-- Witness for the C8 theorem: the concrete timetable state satisfies the
index well-formedness and hence the spawn-window conclusions at time 60000 ms
with a 3 minute spawn-ahead window. -/
theorem c8_timetable_spawn_window_witness :
    (∀ p ∈ (ttUpdate (fun _ => true) 3 ttWitnessState 60000).2,
      ∃ e, alookup ttWitnessState.timetableEntries p.1 = some e ∧ e.canceled = false ∧
        e.departureTimeMs = some p.2 ∧ p.1 ∉ ttWitnessState.spawnedTrains ∧
        60000 < p.2 ∧ p.2 ≤ 60000 + 3 * 60 * 1000) ∧
    List.Chain' (fun a b => a.2 ≤ b.2) (ttUpdate (fun _ => true) 3 ttWitnessState 60000).2 ∧
    ((ttUpdate (fun _ => true) 3 ttWitnessState 60000).2.map Prod.fst).Nodup ∧
    (∀ p ∈ (ttUpdate (fun _ => true) 3
        (ttUpdate (fun _ => true) 3 ttWitnessState 60000).1 240000).2,
      p.1 ∉ (ttUpdate (fun _ => true) 3 ttWitnessState 60000).2.map Prod.fst) :=
  c8_timetable_spawn_window (fun _ => true) (fun _ => true) 3 ttWitnessState 60000 240000
    ⟨by decide, by decide, by decide, by decide⟩

/-! ## Track graph pathfinding (TrackGraph.ts) -/

/-- Embedding of the TrackNodeData fields the pathfinding code reads
(positions are geometric render data consumed only by the interpolation
helpers, which are outside the verified claims). -/
structure TrackNodeData : Type where
  kind : String
  degree : ℕ
  stationId : Option String
deriving DecidableEq, Repr

/-- The per-edge orientation record built from signal tagging. -/
structure EdgeOrientation : Type where
  fromNodeId : String
  toNodeId : String
  preferredDirection : Option Dir
deriving DecidableEq, Repr

/-- One entry of an ngraph adjacency list: the target node id and the link
payload. -/
structure NgLink : Type where
  toId : String
  data : Option TrackLinkData
deriving DecidableEq, Repr

/-- The TrackGraph state consumed by the pathfinding methods. The ngraph
graph object and the ngraph.path A-star finder are external libraries, so the
adjacency query (getLinks), node query (getNode) and the node-path search
(findNodePath, which also wraps the path cache) are abstract fields;
getStationStopCandidates is likewise abstract because it mixes regex platform
normalization and floating-point station-axis geometry. The station maps are
the two Map fields of the class. -/
structure TrackGraphModel : Type where
  getLinks : String → Option (List NgLink)
  getNode : String → Option TrackNodeData
  stationNodeMap : List (String × String)
  stationStopNodeMap : List (String × List String)
  edgeOrientationByTrackId : List (String × EdgeOrientation)
  findNodePath : String → String → Option (List String)
  getStationStopCandidates : String → Option String → Option String → ℕ → List String

/-- Embedding of TrackGraph.getLinkCost: base length plus the connector,
non-rail, non-main-service, against-signal-direction and crossover
penalties. -/
def getLinkCost (g : TrackGraphModel) (fromNodeId toNodeId : String)
    (fromData toData : TrackNodeData) (link : TrackLinkData) : ℚ :=
  let c1 : ℚ := if link.isConnector then 5000 else 0
  let c2 : ℚ := if link.railway ≠ "rail" then 10000 else 0
  let c3 : ℚ := match link.service with
    | some sv => if sv ≠ "" ∧ sv ≠ "main" then 250 else 0
    | none => 0
  let c4 : ℚ := match alookup g.edgeOrientationByTrackId link.trackId with
    | some o =>
        match o.preferredDirection with
        | some d =>
            let isFwd := fromNodeId = o.fromNodeId ∧ toNodeId = o.toNodeId
            (if d = Dir.forward ∧ ¬ isFwd then (5000 : ℚ) else 0) +
              (if d = Dir.backward ∧ isFwd then (5000 : ℚ) else 0)
        | none => 0
    | none => 0
  let jdh := 3 ≤ fromData.degree ∧ 3 ≤ toData.degree
  let s2s := fromData.kind = "switch" ∧ toData.kind = "switch"
  let c5 : ℚ := if jdh ∧ link.length < 250 then 2000 else 0
  let c6 : ℚ := if jdh ∧ link.length < 900 then 3000 else 0
  let c7 : ℚ := if jdh ∧ s2s ∧ link.length < 900 then 2000 else 0
  link.length + c1 + c2 + c3 + c4 + c5 + c6 + c7

/-- Embedding of TrackGraph.getBestLink: scan the links out of fromNodeId
toward toNodeId, keeping the entry with the lowest cost (ties broken by
length, then by first hit), starting from an infinite best cost. Returns the
link payload of the winner. -/
def getBestLink (g : TrackGraphModel) (fromNodeId toNodeId : String) : Option TrackLinkData :=
  match g.getLinks fromNodeId with
  | none => none
  | some links =>
      let fromData := g.getNode fromNodeId
      let toData := g.getNode toNodeId
      (links.foldl
        (fun (acc : Option TrackLinkData × WithTop ℚ × WithTop ℚ) l =>
          if l.toId ≠ toNodeId then acc
          else
            match l.data with
            | none => acc
            | some d =>
                let len := d.length
                let cost : ℚ := match fromData, toData with
                  | some fd, some td => getLinkCost g fromNodeId toNodeId fd td d
                  | _, _ => len
                if (cost : WithTop ℚ) < acc.2.1 ∨
                    ((cost : WithTop ℚ) = acc.2.1 ∧ (len : WithTop ℚ) < acc.2.2) ∨
                    ((cost : WithTop ℚ) = acc.2.1 ∧ (len : WithTop ℚ) = acc.2.2 ∧ acc.1 = none)
                then (some d, (cost : WithTop ℚ), (len : WithTop ℚ))
                else acc)
        (none, ⊤, ⊤)).1

/-- Embedding of TrackGraph.getNodePathLength: sum the best-link lengths over
consecutive node pairs, short-circuiting to infinity on a missing link; pairs
with a falsy node id are skipped. -/
def getNodePathLength (g : TrackGraphModel) : List String → WithTop ℚ
  | a :: b :: rest =>
      if a = "" ∨ b = "" then getNodePathLength g (b :: rest)
      else
        match getBestLink g a b with
        | none => ⊤
        | some d => (d.length : WithTop ℚ) + getNodePathLength g (b :: rest)
  | _ => 0
termination_by structural l => l

/-- Embedding of TrackGraph.getNodePathCost: as getNodePathLength but summing
getLinkCost, short-circuiting to infinity when either node or the link is
missing. -/
def getNodePathCost (g : TrackGraphModel) : List String → WithTop ℚ
  | a :: b :: rest =>
      if a = "" ∨ b = "" then getNodePathCost g (b :: rest)
      else
        match g.getNode a, g.getNode b, getBestLink g a b with
        | some fd, some td, some d =>
            ((getLinkCost g a b fd td d : ℚ) : WithTop ℚ) + getNodePathCost g (b :: rest)
        | _, _, _ => ⊤
  | _ => 0
termination_by structural l => l

/-- The not-found PathResult literal returned at every failure exit. -/
def notFoundPath : PathResult :=
  { segments := [], totalLength := 0, stations := [], found := false }

/-- The candidate stop-node list of a station as computed at the top of
findPath: the stop-node map entry, else the singleton primary node, else
empty. -/
def stationCandidates (g : TrackGraphModel) (stationId : String) : List String :=
  match alookup g.stationStopNodeMap stationId with
  | some l => l
  | none =>
      match alookup g.stationNodeMap stationId with
      | some p => [p]
      | none => []

/-- One candidate pair of the findPath sweep: keep the node path when it
improves the running best length. -/
def bestPairStep (g : TrackGraphModel) (f : String)
    (acc2 : Option (List String) × WithTop ℚ) (t : String) :
    Option (List String) × WithTop ℚ :=
  match g.findNodePath f t with
  | none => acc2
  | some p =>
      let len := getNodePathLength g p
      if len < acc2.2 then (some p, len) else acc2

/-- The candidate-pair sweep of findPath: try every from-candidate and
to-candidate pair and keep the node path with the lowest length. -/
def bestPairFold (g : TrackGraphModel) (fromCandidates toCandidates : List String) :
    Option (List String) × WithTop ℚ :=
  fromCandidates.foldl (fun acc f => toCandidates.foldl (bestPairStep g f) acc) (none, ⊤)

/-- The segment-assembly loop of findPath, also collecting the ordered
deduplicated station ids of the visited from-nodes. -/
def findPathLoop (g : TrackGraphModel) :
    List String → ℚ → List PathSegment → List String → List PathSegment × ℚ × List String
  | a :: b :: rest, cum, segs, stations =>
      if a = "" ∨ b = "" then findPathLoop g (b :: rest) cum segs stations
      else
        match getBestLink g a b with
        | none => findPathLoop g (b :: rest) cum segs stations
        | some d =>
            let stations' := match (g.getNode a).bind (fun nd => nd.stationId) with
              | some sid => if sid ∈ stations then stations else stations ++ [sid]
              | none => stations
            findPathLoop g (b :: rest) (cum + d.length)
              (segs ++ [{ fromNodeId := a, toNodeId := b, link := d, cumulativeDistance := cum }])
              stations'
  | _, cum, segs, stations => (segs, cum, stations)
termination_by structural l => l

/-- Embedding of TrackGraph.findPath: candidate lookup, not-found on empty
candidate sets, lowest-length sweep over all candidate pairs, not-found when
no pair connects (or the best is degenerate), then segment assembly. -/
def findPath (g : TrackGraphModel) (fromStationId toStationId : String) : PathResult :=
  let fromCandidates := stationCandidates g fromStationId
  let toCandidates := stationCandidates g toStationId
  if fromCandidates = [] ∨ toCandidates = [] then notFoundPath
  else
    let best := bestPairFold g fromCandidates toCandidates
    match best.1 with
    | none => notFoundPath
    | some bestPath =>
        if bestPath.length < 2 ∨ best.2 = ⊤ then notFoundPath
        else
          let r := findPathLoop g bestPath 0 [] []
          let stations' := match bestPath.getLast? with
            | some lastId =>
                if lastId = "" then r.2.2
                else
                  match (g.getNode lastId).bind (fun nd => nd.stationId) with
                  | some sid => if sid ∈ r.2.2 then r.2.2 else r.2.2 ++ [sid]
                  | none => r.2.2
            | none => r.2.2
          { segments := r.1, totalLength := r.2.1, stations := stations', found := true }

/-- Embedding of the PlannedStopConstraint interface. -/
structure PlannedStopConstraint : Type where
  stationId : String
  platform : Option String
deriving DecidableEq, Repr

/-- Embedding of TrackGraph.buildSegmentsFromNodePath: walk consecutive node
pairs, skipping falsy ids and missing links, pushing segments with running
cumulative distances; returns the leg segments and the leg length. -/
def buildSegmentsFromNodePath (g : TrackGraphModel) :
    List String → ℚ → List PathSegment × ℚ
  | a :: b :: rest, cum =>
      if a = "" ∨ b = "" then buildSegmentsFromNodePath g (b :: rest) cum
      else
        match getBestLink g a b with
        | none => buildSegmentsFromNodePath g (b :: rest) cum
        | some d =>
            let r := buildSegmentsFromNodePath g (b :: rest) (cum + d.length)
            ({ fromNodeId := a, toNodeId := b, link := d, cumulativeDistance := cum } :: r.1,
              d.length + r.2)
  | _, _ => ([], 0)
termination_by structural l => l

/-- The inner double loop of the chooseStopNodesDP forward pass: relax every
transition from a candidate of one stop to a candidate of the next, keeping
per-target minimum costs and back-pointers (minus one marks no predecessor). -/
def dpStep (g : TrackGraphModel) (fromList toList : List String)
    (costs : List (WithTop ℚ)) : List (WithTop ℚ) × List Int :=
  (List.range fromList.length).foldl
    (fun (acc : List (WithTop ℚ) × List Int) a =>
      let fromNodeId := (fromList.get? a).getD ""
      if fromNodeId = "" then acc
      else
        let baseCost := (costs.get? a).getD ⊤
        if baseCost = ⊤ then acc
        else
          (List.range toList.length).foldl
            (fun (acc2 : List (WithTop ℚ) × List Int) b =>
              let toNodeId := (toList.get? b).getD ""
              if toNodeId = "" then acc2
              else
                match g.findNodePath fromNodeId toNodeId with
                | none => acc2
                | some np =>
                    let legCost := getNodePathCost g np
                    if legCost = ⊤ then acc2
                    else
                      let candidateCost := baseCost + legCost
                      if candidateCost < (acc2.1.get? b).getD ⊤ then
                        (acc2.1.set b candidateCost, acc2.2.set b (a : Int))
                      else acc2)
            acc)
    (toList.map (fun _ => (⊤ : WithTop ℚ)), toList.map (fun _ => (-1 : Int)))

/-- The forward pass of chooseStopNodesDP over all stop levels, accumulating
the per-level back-pointer arrays and the cost array of the last level. -/
def dpForward (g : TrackGraphModel) :
    List (List String) → List (WithTop ℚ) → List (List Int) →
      List (WithTop ℚ) × List (List Int)
  | fromList :: toList :: rest, costs, prevs =>
      let r := dpStep g fromList toList costs
      dpForward g (toList :: rest) r.1 (prevs ++ [r.2])
  | _, costs, prevs => (costs, prevs)
termination_by structural l => l

/-- The minimum-cost terminal candidate scan of chooseStopNodesDP: the first
index strictly improving the running best, starting from infinity. -/
def dpBestLast (lastCosts : List (WithTop ℚ)) : Int × WithTop ℚ :=
  (List.range lastCosts.length).foldl
    (fun (acc : Int × WithTop ℚ) i =>
      match lastCosts.get? i with
      | some c => if c < acc.2 then ((i : Int), c) else acc
      | none => acc)
    (-1, ⊤)

/-- The backtracking pass of chooseStopNodesDP, processing stop levels from
the last down to the first: read the chosen candidate under the cursor
(failing on an absent or falsy entry), then follow the back-pointer, failing
when it is exhausted before the first level. -/
def dpBacktrack (cands : List (List String)) (prevs : List (List Int)) :
    ℕ → Int → Option (List String)
  | i, cursor =>
      match cands.get? i with
      | none => none
      | some list =>
          let chosen := if cursor < 0 then "" else (list.get? cursor.toNat).getD ""
          if chosen = "" then none
          else
            let cursor' := ((prevs.get? i).bind
              (fun l => if cursor < 0 then none else l.get? cursor.toNat)).getD (-1)
            match i with
            | 0 => some [chosen]
            | j + 1 =>
                if cursor' = -1 then none
                else
                  match dpBacktrack cands prevs j cursor' with
                  | none => none
                  | some pre => some (pre ++ [chosen])

/-- Embedding of TrackGraph.chooseStopNodesDP: dynamic programming over the
per-stop candidate lists, then backtracking from the cheapest terminal
candidate. -/
def chooseStopNodesDP (g : TrackGraphModel) (stopCandidates : List (List String)) :
    Option (List String) :=
  match stopCandidates with
  | [] => none
  | first :: _ =>
      if first = [] then none
      else
        let fwd := dpForward g stopCandidates (first.map (fun _ => (0 : WithTop ℚ)))
          [first.map (fun _ => (-1 : Int))]
        let best := dpBestLast fwd.1
        if best.1 = -1 then none
        else dpBacktrack stopCandidates fwd.2 (stopCandidates.length - 1) best.1

/-- The per-leg assembly loop of the attempt closure in
buildPathForPlannedStops: for each consecutive pair of chosen stop nodes,
find a node path (failing the attempt when none exists) and append its
segments; returns the segments, the stop offsets pushed after each leg, and
the final cumulative distance. -/
def assembleLegs (g : TrackGraphModel) :
    List String → ℚ → Option (List PathSegment × List ℚ × ℚ)
  | a :: b :: rest, cum =>
      if a = "" ∨ b = "" then assembleLegs g (b :: rest) cum
      else
        match g.findNodePath a b with
        | none => none
        | some np =>
            let leg := buildSegmentsFromNodePath g np cum
            match assembleLegs g (b :: rest) (cum + leg.2) with
            | none => none
            | some r => some (leg.1 ++ r.1, (cum + leg.2) :: r.2.1, r.2.2)
  | _, cum => some ([], [], cum)
termination_by structural l => l

/-- Embedding of the JavaScript String.prototype.trim used by the stop
normalization: strip leading and trailing whitespace. -/
def jsTrim (s : String) : String :=
  ⟨((s.data.dropWhile (fun c => c.isWhitespace)).reverse.dropWhile
    (fun c => c.isWhitespace)).reverse⟩

/-- The stop normalization at the top of buildPathForPlannedStops: trim the
station id, keep the platform only when its trim is non-empty, drop stops
with an empty station id. -/
def effectiveStopsOf (stops : List PlannedStopConstraint) : List PlannedStopConstraint :=
  (stops.map (fun s =>
    { stationId := jsTrim s.stationId,
      platform := match s.platform with
        | some p => if jsTrim p ≠ "" then some (jsTrim p) else none
        | none => none })).filter (fun s => s.stationId ≠ "")

/-- The destination-station normalization of buildPathForPlannedStops: a
truthy trimmed override wins, else the last effective stop. -/
def destinationIdOf (effectiveStops : List PlannedStopConstraint)
    (destinationStationId : Option String) : Option String :=
  match destinationStationId with
  | some d => if jsTrim d ≠ "" then some (jsTrim d) else (effectiveStops.getLast?).map (·.stationId)
  | none => (effectiveStops.getLast?).map (·.stationId)

/-- The result record of buildPathForPlannedStops. -/
structure PlannedPathResult : Type where
  path : PathResult
  stopOffsets : List ℚ
  chosenStopNodeIds : List String
deriving DecidableEq, Repr

/-- The not-found result of buildPathForPlannedStops. -/
def notFoundPlanned : PlannedPathResult :=
  { path := notFoundPath, stopOffsets := [], chosenStopNodeIds := [] }

/-- The bounded per-stop candidate lists computed by the attempt closure
under the requested filters. -/
def attemptCands (g : TrackGraphModel) (effectiveStops : List PlannedStopConstraint)
    (destinationId : Option String) (applyPlatformFilter applySideFilter : Bool) :
    List (List String) :=
  effectiveStops.map (fun stop =>
    g.getStationStopCandidates stop.stationId
      (if applyPlatformFilter then stop.platform else none)
      (if applySideFilter then destinationId else none) 6)

/-- The successful-result record built at the end of the attempt closure:
the concatenated segments, their final cumulative distance as the total
length, the requested station ids, found if any segment exists, the stop
offsets with the leading zero, and the chosen stop nodes. -/
def attemptPack (effectiveStops : List PlannedStopConstraint) (chosen : List String)
    (a : List PathSegment × List ℚ × ℚ) : PlannedPathResult :=
  { path := { segments := a.1, totalLength := a.2.2,
              stations := effectiveStops.map (·.stationId),
              found := decide (a.1 ≠ []) },
    stopOffsets := 0 :: a.2.1,
    chosenStopNodeIds := chosen }

/-- Embedding of the attempt closure of buildPathForPlannedStops: compute the
bounded candidate lists under the requested filters, fail when any stop has
none, choose the stop nodes by dynamic programming, then assemble the legs
into one continuous segment list. -/
def attemptF (g : TrackGraphModel) (effectiveStops : List PlannedStopConstraint)
    (destinationId : Option String) (applyPlatformFilter applySideFilter : Bool) :
    Option PlannedPathResult :=
  if (attemptCands g effectiveStops destinationId applyPlatformFilter applySideFilter).any
      (fun c => c = []) then none
  else
    match chooseStopNodesDP g
        (attemptCands g effectiveStops destinationId applyPlatformFilter applySideFilter) with
    | none => none
    | some chosen =>
        match assembleLegs g chosen 0 with
        | none => none
        | some r => some (attemptPack effectiveStops chosen r)

/-- Embedding of TrackGraph.buildPathForPlannedStops: normalize the stops,
fail fast on fewer than two, then try the attempt with progressively relaxed
platform and side filters, returning the not-found result when every attempt
fails. -/
def buildPathForPlannedStops (g : TrackGraphModel) (stops : List PlannedStopConstraint)
    (destinationStationId : Option String) : PlannedPathResult :=
  let effectiveStops := effectiveStopsOf stops
  if effectiveStops.length < 2 then notFoundPlanned
  else
    let destinationId := destinationIdOf effectiveStops destinationStationId
    match attemptF g effectiveStops destinationId true true with
    | some r => r
    | none =>
        match attemptF g effectiveStops destinationId true false with
        | some r => r
        | none =>
            match attemptF g effectiveStops destinationId false false with
            | some r => r
            | none => notFoundPlanned

/-- Embedding of TrackGraph.buildPathForStops: keep the non-blank station
ids, fail fast on fewer than two, and delegate to buildPathForPlannedStops
with no platform hints. -/
def buildPathForStops (g : TrackGraphModel) (stopStationIds : List String) :
    PathResult × List ℚ :=
  let effectiveStops := stopStationIds.filter (fun id => jsTrim id ≠ "")
  if effectiveStops.length < 2 then (notFoundPath, [])
  else
    let r := buildPathForPlannedStops g
      (effectiveStops.map (fun stationId => { stationId := stationId, platform := none })) none
    (r.path, r.stopOffsets)

theorem bestPairFold_of_no_path (g : TrackGraphModel) (fc tc : List String)
    (h : ∀ a ∈ fc, ∀ b ∈ tc, g.findNodePath a b = none) :
    bestPairFold g fc tc = (none, ⊤) := by
  unfold bestPairFold
  have hinner : ∀ a ∈ fc, ∀ acc, tc.foldl (bestPairStep g a) acc = acc := by
    intro a ha
    have hb := h a ha
    clear h
    induction tc with
    | nil => intro acc; rfl
    | cons t rest ih =>
        intro acc
        rw [List.foldl_cons]
        have hstep : bestPairStep g a acc t = acc := by
          unfold bestPairStep
          rw [hb t (List.mem_cons_self t rest)]
        rw [hstep]
        exact ih (fun b hbm => hb b (List.mem_cons_of_mem t hbm)) acc
  induction fc with
  | nil => rfl
  | cons f rest ih =>
      rw [List.foldl_cons, hinner f (List.mem_cons_self f rest)]
      exact ih (fun a ha b hbm => h a (List.mem_cons_of_mem f ha) b hbm)
        (fun a ha acc => hinner a (List.mem_cons_of_mem f ha) acc)

/-- C7: findPath and buildPathForPlannedStops are total functions whose every
failure exit is the explicit not-found result: empty or absent candidate
sets, a candidate sweep in which no origin-destination pair is connected by a
node path, and a planned-stops request in which every relaxation attempt
fails, all return the not-found literal rather than raising. -/
theorem c7_pathfinding_notfound_semantics :
    (∀ (g : TrackGraphModel) (fromStationId toStationId : String),
      stationCandidates g fromStationId = [] ∨ stationCandidates g toStationId = [] →
      findPath g fromStationId toStationId = notFoundPath) ∧
    (∀ (g : TrackGraphModel) (fromStationId toStationId : String),
      (∀ a ∈ stationCandidates g fromStationId, ∀ b ∈ stationCandidates g toStationId,
        g.findNodePath a b = none) →
      findPath g fromStationId toStationId = notFoundPath) ∧
    (∀ (g : TrackGraphModel) (stops : List PlannedStopConstraint)
        (destinationStationId : Option String),
      (∀ pf sf : Bool, attemptF g (effectiveStopsOf stops)
        (destinationIdOf (effectiveStopsOf stops) destinationStationId) pf sf = none) →
      buildPathForPlannedStops g stops destinationStationId = notFoundPlanned) := by
  refine ⟨?_, ?_, ?_⟩
  · intro g fromS toS h
    unfold findPath
    rw [if_pos h]
  · intro g fromS toS h
    unfold findPath
    by_cases hempty : stationCandidates g fromS = [] ∨ stationCandidates g toS = []
    · rw [if_pos hempty]
    · rw [if_neg hempty]
      have hfold := bestPairFold_of_no_path g _ _ h
      rw [hfold]
  · intro g stops dest h
    unfold buildPathForPlannedStops
    by_cases hlen : (effectiveStopsOf stops).length < 2
    · rw [if_pos hlen]
    · rw [if_neg hlen]
      show (match attemptF g (effectiveStopsOf stops)
          (destinationIdOf (effectiveStopsOf stops) dest) true true with
        | some r => r
        | none =>
          match attemptF g (effectiveStopsOf stops)
              (destinationIdOf (effectiveStopsOf stops) dest) true false with
          | some r => r
          | none =>
            match attemptF g (effectiveStopsOf stops)
                (destinationIdOf (effectiveStopsOf stops) dest) false false with
            | some r => r
            | none => notFoundPlanned) = notFoundPlanned
      rw [h true true, h true false, h false false]

/-- A graph model with no stations, no nodes and no finder results. -/
def emptyGraphModel : TrackGraphModel :=
  { getLinks := fun _ => none, getNode := fun _ => none, stationNodeMap := [],
    stationStopNodeMap := [], edgeOrientationByTrackId := [],
    findNodePath := fun _ _ => none,
    getStationStopCandidates := fun _ _ _ _ => [] }

/-- A graph model whose two stations have candidate stop nodes but whose
finder connects nothing. -/
def disconnectedGraphModel : TrackGraphModel :=
  { emptyGraphModel with stationStopNodeMap := [("S1", ["a"]), ("S2", ["b"])] }

/-- Witness for the C7 theorem: an absent station, a disconnected candidate
pair, and a planned-stops request whose every attempt fails, each produce the
not-found literal. -/
theorem c7_pathfinding_notfound_semantics_witness :
    findPath emptyGraphModel "S1" "S2" = notFoundPath ∧
    findPath disconnectedGraphModel "S1" "S2" = notFoundPath ∧
    buildPathForPlannedStops emptyGraphModel
      [{ stationId := "S1", platform := none }, { stationId := "S2", platform := none }]
      none = notFoundPlanned := by
  refine ⟨?_, ?_, ?_⟩
  · exact c7_pathfinding_notfound_semantics.1 emptyGraphModel "S1" "S2" (Or.inl (by decide))
  · exact c7_pathfinding_notfound_semantics.2.1 disconnectedGraphModel "S1" "S2"
      (fun a _ b _ => rfl)
  · exact c7_pathfinding_notfound_semantics.2.2 emptyGraphModel _ none
      (fun pf sf => by cases pf <;> cases sf <;> decide)

/-! ## Path-shape properties of the multi-stop builder (C4) -/

/-- The sum of the link lengths of a segment list. -/
def sumLen (segs : List PathSegment) : ℚ := (segs.map (fun s => s.link.length)).sum

@[simp] theorem sumLen_nil : sumLen [] = 0 := rfl

@[simp] theorem sumLen_cons (s : PathSegment) (rest : List PathSegment) :
    sumLen (s :: rest) = s.link.length + sumLen rest := by
  simp [sumLen]

theorem sumLen_append (l₁ l₂ : List PathSegment) :
    sumLen (l₁ ++ l₂) = sumLen l₁ + sumLen l₂ := by
  simp [sumLen]

/-- Every segment carries the running cumulative distance from the given
start. -/
def CumOK : List PathSegment → ℚ → Prop
  | [], _ => True
  | s :: rest, start => s.cumulativeDistance = start ∧ CumOK rest (start + s.link.length)

theorem cumOK_append {l₁ l₂ : List PathSegment} {c : ℚ} (h₁ : CumOK l₁ c)
    (h₂ : CumOK l₂ (c + sumLen l₁)) : CumOK (l₁ ++ l₂) c := by
  induction l₁ generalizing c with
  | nil => simpa using h₂
  | cons s rest ih =>
      obtain ⟨hs, hrest⟩ := h₁
      refine ⟨hs, ih hrest ?_⟩
      have : c + sumLen (s :: rest) = c + s.link.length + sumLen rest := by
        rw [sumLen_cons]; ring
      rw [← this]
      exact h₂

theorem cumOK_get {l : List PathSegment} {c : ℚ} (h : CumOK l c) :
    ∀ i (hi : i < l.length), (l.get ⟨i, hi⟩).cumulativeDistance = c + sumLen (l.take i) := by
  induction l generalizing c with
  | nil => intro i hi; cases hi
  | cons s rest ih =>
      intro i hi
      obtain ⟨hs, hrest⟩ := h
      cases i with
      | zero => simpa using hs
      | succ j =>
          have hj : j < rest.length := Nat.lt_of_succ_lt_succ hi
          have := ih hrest j hj
          simp only [List.get_cons_succ, List.take_succ_cons, sumLen_cons, this]
          ring

/-- The segment list consists exactly of the consecutive node pairs of the
node path. -/
def SegsMatch : List String → List PathSegment → Prop
  | a :: b :: rest, s :: segs => s.fromNodeId = a ∧ s.toNodeId = b ∧ SegsMatch (b :: rest) segs
  | [_], [] => True
  | [], [] => True
  | _, _ => False

theorem segsMatch_head {np : List String} {segs : List PathSegment} (h : SegsMatch np segs) :
    ∀ s, segs.head? = some s → np.head? = some s.fromNodeId := by
  match np, segs with
  | a :: b :: rest, s :: segs =>
      intro s' hs'
      obtain ⟨hf, _, _⟩ := h
      injection hs' with hs'
      subst hs'
      simp [hf]
  | [_], [] => intro s hs; cases hs
  | [], [] => intro s hs; cases hs
  | [], s :: segs => cases h
  | [_], s :: segs => cases h
  | a :: b :: rest, [] => intro s hs; cases hs

theorem segsMatch_chain {np : List String} {segs : List PathSegment} (h : SegsMatch np segs) :
    List.Chain' (fun s1 s2 => s2.fromNodeId = s1.toNodeId) segs := by
  induction segs generalizing np with
  | nil => exact List.chain'_nil
  | cons s rest ih =>
      match np, h with
      | a :: b :: np', ⟨hf, ht, hrest⟩ =>
          rw [List.chain'_cons']
          refine ⟨?_, ih hrest⟩
          intro s2 hs2
          have hhead := segsMatch_head hrest s2 hs2
          simp only [List.head?_cons, Option.some.injEq] at hhead
          rw [← hhead, ht]

theorem segsMatch_last {np : List String} {segs : List PathSegment} (h : SegsMatch np segs) :
    ∀ s, segs.getLast? = some s → np.getLast? = some s.toNodeId := by
  induction segs generalizing np with
  | nil => intro s hs; cases hs
  | cons s0 rest ih =>
      match np, h with
      | a :: b :: np', ⟨hf, ht, hrest⟩ =>
          intro s hs
          cases rest with
          | nil =>
              match np', hrest with
              | [], _ =>
                  simp only [List.getLast?_singleton, Option.some.injEq] at hs
                  subst hs
                  simp [ht]
          | cons s1 rest' =>
              have hlast : (s0 :: s1 :: rest').getLast? = (s1 :: rest').getLast? := by
                simp [List.getLast?_cons_cons]
              rw [hlast] at hs
              have := ih hrest s hs
              have hnp : (a :: b :: np').getLast? = (b :: np').getLast? := by
                simp [List.getLast?_cons_cons]
              rw [hnp]
              exact this

theorem segsMatch_nonempty {np : List String} {segs : List PathSegment}
    (h : SegsMatch np segs) (hlen : 2 ≤ np.length) : segs ≠ [] := by
  match np, segs with
  | a :: b :: rest, s :: segs => exact List.cons_ne_nil s segs
  | a :: b :: rest, [] => cases h
  | [_], _ => simp at hlen
  | [], _ => simp at hlen

/-- The guarantees of the external ngraph.path A-star search as wrapped by
findNodePath: a returned node path has at least two nodes, starts at the
source, ends at the target, contains no empty node id, and every consecutive
node pair is joined by a link of the graph. -/
def FinderOK (g : TrackGraphModel) : Prop :=
  ∀ a b p, g.findNodePath a b = some p →
    2 ≤ p.length ∧ p.head? = some a ∧ p.getLast? = some b ∧
    (∀ q ∈ p, q ≠ "") ∧
    List.Chain' (fun x y => (getBestLink g x y).isSome) p

theorem buildSegs_spec (g : TrackGraphModel) :
    ∀ (np : List String) (cum : ℚ),
      (∀ q ∈ np, q ≠ "") →
      List.Chain' (fun x y => (getBestLink g x y).isSome) np →
      SegsMatch np (buildSegmentsFromNodePath g np cum).1 ∧
      CumOK (buildSegmentsFromNodePath g np cum).1 cum ∧
      (buildSegmentsFromNodePath g np cum).2 = sumLen (buildSegmentsFromNodePath g np cum).1 := by
  intro np
  induction np with
  | nil => intro cum _ _; exact ⟨trivial, trivial, rfl⟩
  | cons a tail ih =>
      intro cum hne hchain
      cases tail with
      | nil => exact ⟨trivial, trivial, rfl⟩
      | cons b rest =>
          have ha : a ≠ "" := hne a (List.mem_cons_self _ _)
          have hb : b ≠ "" := hne b (List.mem_cons_of_mem _ (List.mem_cons_self _ _))
          have hlink : (getBestLink g a b).isSome := (List.chain'_cons.mp hchain).1
          obtain ⟨d, hd⟩ := Option.isSome_iff_exists.mp hlink
          have hskip : ¬ (a = "" ∨ b = "") := by
            rintro (h | h)
            · exact ha h
            · exact hb h
          have hbuild : buildSegmentsFromNodePath g (a :: b :: rest) cum =
              ({ fromNodeId := a, toNodeId := b, link := d, cumulativeDistance := cum } ::
                (buildSegmentsFromNodePath g (b :: rest) (cum + d.length)).1,
               d.length + (buildSegmentsFromNodePath g (b :: rest) (cum + d.length)).2) := by
            rw [buildSegmentsFromNodePath]
            rw [if_neg hskip, hd]
          obtain ⟨ihm, ihc, ihs⟩ := ih (cum + d.length)
            (fun q hq => hne q (List.mem_cons_of_mem _ hq)) (List.chain'_cons.mp hchain).2
          rw [hbuild]
          refine ⟨⟨rfl, rfl, ihm⟩, ⟨rfl, ihc⟩, ?_⟩
          rw [sumLen_cons, ihs]

theorem assembleLegs_spec (g : TrackGraphModel) (hf : FinderOK g) :
    ∀ (l : List String) (cum : ℚ) (r : List PathSegment × List ℚ × ℚ),
      (∀ x ∈ l, x ≠ "") →
      assembleLegs g l cum = some r →
      CumOK r.1 cum ∧ r.2.2 = cum + sumLen r.1 ∧
      List.Chain' (fun s1 s2 => s2.fromNodeId = s1.toNodeId) r.1 ∧
      (∀ s, r.1.head? = some s → l.head? = some s.fromNodeId) := by
  intro l
  induction l with
  | nil =>
      intro cum r _ hr
      have hbase : assembleLegs g [] cum = some ([], [], cum) := rfl
      rw [hbase] at hr
      injection hr with hr
      subst hr
      exact ⟨trivial, by simp, List.chain'_nil, fun s hs => by cases hs⟩
  | cons a tail ih =>
      intro cum r hne hr
      cases tail with
      | nil =>
          have hbase : assembleLegs g [a] cum = some ([], [], cum) := rfl
          rw [hbase] at hr
          injection hr with hr
          subst hr
          exact ⟨trivial, by simp, List.chain'_nil, fun s hs => by cases hs⟩
      | cons b rest =>
          have ha : a ≠ "" := hne a (List.mem_cons_self _ _)
          have hb : b ≠ "" := hne b (List.mem_cons_of_mem _ (List.mem_cons_self _ _))
          have hskip : ¬ (a = "" ∨ b = "") := by
            rintro (h | h)
            · exact ha h
            · exact hb h
          rw [assembleLegs, if_neg hskip] at hr
          cases hfind : g.findNodePath a b with
          | none => rw [hfind] at hr; cases hr
          | some np =>
              rw [hfind] at hr
              obtain ⟨hlen2, hhead, hlast, hnps, hnpchain⟩ := hf a b np hfind
              obtain ⟨hmatch, hcum, hsum⟩ := buildSegs_spec g np cum hnps hnpchain
              have hr2 : (match assembleLegs g (b :: rest)
                    (cum + (buildSegmentsFromNodePath g np cum).2) with
                  | none => none
                  | some r' => some ((buildSegmentsFromNodePath g np cum).1 ++ r'.1,
                      (cum + (buildSegmentsFromNodePath g np cum).2) :: r'.2.1, r'.2.2)) =
                  some r := hr
              clear hr
              cases hrec : assembleLegs g (b :: rest)
                  (cum + (buildSegmentsFromNodePath g np cum).2) with
              | none => rw [hrec] at hr2; cases hr2
              | some r' =>
                  rw [hrec] at hr2
                  injection hr2 with hr2
                  subst hr2
                  obtain ⟨ihc, ihfin, ihchain, ihhead⟩ := ih _ r'
                    (fun x hx => hne x (List.mem_cons_of_mem _ hx)) hrec
                  have hlegsum : (buildSegmentsFromNodePath g np cum).2 =
                      sumLen (buildSegmentsFromNodePath g np cum).1 := hsum
                  have hlegne : (buildSegmentsFromNodePath g np cum).1 ≠ [] :=
                    segsMatch_nonempty hmatch hlen2
                  refine ⟨?_, ?_, ?_, ?_⟩
                  · exact cumOK_append hcum (by rw [← hlegsum]; exact ihc)
                  · simp only
                    rw [ihfin, sumLen_append, hlegsum]
                    ring
                  · rw [List.chain'_append]
                    refine ⟨segsMatch_chain hmatch, ihchain, ?_⟩
                    intro x hx y hy
                    have hxlast := segsMatch_last hmatch x (Option.mem_def.mp hx)
                    have hyhead := ihhead y (Option.mem_def.mp hy)
                    rw [hlast] at hxlast
                    injection hxlast with hxlast
                    simp only [List.head?_cons, Option.some.injEq] at hyhead
                    rw [← hyhead, ← hxlast]
                  · intro s hs
                    have hs' : (buildSegmentsFromNodePath g np cum).1.head? = some s := by
                      cases hleg : (buildSegmentsFromNodePath g np cum).1 with
                      | nil => exact absurd hleg hlegne
                      | cons s0 segs0 =>
                          rw [hleg] at hs
                          simpa using hs
                    have := segsMatch_head hmatch s hs'
                    rw [hhead] at this
                    injection this with this
                    simp [this]

/-- Every node id chosen by the dynamic-programming backtrack is non-empty
(the source fails the attempt on a falsy entry). -/
theorem dpBacktrack_no_empty (cands : List (List String)) (prevs : List (List Int)) :
    ∀ (i : ℕ) (cursor : Int) (l : List String),
      dpBacktrack cands prevs i cursor = some l → ∀ x ∈ l, x ≠ "" := by
  intro i
  induction i with
  | zero =>
      intro cursor l h x hx
      rw [dpBacktrack] at h
      cases hc : cands.get? 0 with
      | none => rw [hc] at h; cases h
      | some list =>
          rw [hc] at h
          have h2 : (if (if cursor < 0 then "" else (list.get? cursor.toNat).getD "") = ""
              then none
              else some [if cursor < 0 then "" else (list.get? cursor.toNat).getD ""]) =
              some l := h
          clear h
          by_cases hch : (if cursor < 0 then "" else (list.get? cursor.toNat).getD "") = ""
          · rw [if_pos hch] at h2; cases h2
          · rw [if_neg hch] at h2
            injection h2 with h2
            subst h2
            simp only [List.mem_singleton] at hx
            subst hx
            exact hch
  | succ j ih =>
      intro cursor l h x hx
      rw [dpBacktrack] at h
      cases hc : cands.get? (j + 1) with
      | none => rw [hc] at h; cases h
      | some list =>
          rw [hc] at h
          have h2 : (if (if cursor < 0 then "" else (list.get? cursor.toNat).getD "") = ""
              then none
              else
                if (((prevs.get? (j + 1)).bind
                    (fun l => if cursor < 0 then none else l.get? cursor.toNat)).getD (-1)) = -1
                then none
                else
                  match dpBacktrack cands prevs j (((prevs.get? (j + 1)).bind
                      (fun l => if cursor < 0 then none else l.get? cursor.toNat)).getD (-1)) with
                  | none => none
                  | some pre =>
                      some (pre ++ [if cursor < 0 then "" else (list.get? cursor.toNat).getD ""])) =
              some l := h
          clear h
          by_cases hch : (if cursor < 0 then "" else (list.get? cursor.toNat).getD "") = ""
          · rw [if_pos hch] at h2; cases h2
          · rw [if_neg hch] at h2
            by_cases hcur : (((prevs.get? (j + 1)).bind
                (fun l => if cursor < 0 then none else l.get? cursor.toNat)).getD (-1)) = -1
            · rw [if_pos hcur] at h2; cases h2
            · rw [if_neg hcur] at h2
              cases hpre : dpBacktrack cands prevs j (((prevs.get? (j + 1)).bind
                  (fun l => if cursor < 0 then none else l.get? cursor.toNat)).getD (-1)) with
              | none => rw [hpre] at h2; cases h2
              | some pre =>
                  rw [hpre] at h2
                  injection h2 with h2
                  subst h2
                  rcases List.mem_append.mp hx with hx' | hx'
                  · exact ih _ pre hpre x hx'
                  · simp only [List.mem_singleton] at hx'
                    subst hx'
                    exact hch

theorem chooseStopNodesDP_no_empty (g : TrackGraphModel) (stopCandidates : List (List String))
    (chosen : List String) (h : chooseStopNodesDP g stopCandidates = some chosen) :
    ∀ x ∈ chosen, x ≠ "" := by
  cases stopCandidates with
  | nil => cases h
  | cons first rest =>
      have h2 : (if first = [] then none
          else
            if (dpBestLast (dpForward g (first :: rest)
                (first.map (fun _ => (0 : WithTop ℚ))) [first.map (fun _ => (-1 : Int))]).1).1 = -1
            then none
            else dpBacktrack (first :: rest)
              (dpForward g (first :: rest) (first.map (fun _ => (0 : WithTop ℚ)))
                [first.map (fun _ => (-1 : Int))]).2
              ((first :: rest).length - 1)
              (dpBestLast (dpForward g (first :: rest)
                (first.map (fun _ => (0 : WithTop ℚ))) [first.map (fun _ => (-1 : Int))]).1).1) =
          some chosen := h
      clear h
      by_cases hfe : first = []
      · rw [if_pos hfe] at h2; cases h2
      · rw [if_neg hfe] at h2
        by_cases hbest : (dpBestLast (dpForward g (first :: rest)
            (first.map (fun _ => (0 : WithTop ℚ))) [first.map (fun _ => (-1 : Int))]).1).1 = -1
        · rw [if_pos hbest] at h2; cases h2
        · rw [if_neg hbest] at h2
          exact dpBacktrack_no_empty _ _ _ _ _ h2

theorem attemptF_spec (g : TrackGraphModel) (hf : FinderOK g)
    (es : List PlannedStopConstraint) (dest : Option String) (pf sf : Bool)
    (r : PlannedPathResult) (h : attemptF g es dest pf sf = some r) :
    CumOK r.path.segments 0 ∧ r.path.totalLength = sumLen r.path.segments ∧
    List.Chain' (fun s1 s2 => s2.fromNodeId = s1.toNodeId) r.path.segments := by
  unfold attemptF at h
  by_cases hany : (attemptCands g es dest pf sf).any (fun c => c = []) = true
  · rw [if_pos hany] at h; cases h
  · rw [if_neg hany] at h
    cases hdp : chooseStopNodesDP g (attemptCands g es dest pf sf) with
    | none => rw [hdp] at h; cases h
    | some chosen =>
        rw [hdp] at h
        have h2 : (match assembleLegs g chosen 0 with
            | none => none
            | some a => some (attemptPack es chosen a)) = some r := h
        clear h
        cases hasm : assembleLegs g chosen 0 with
        | none => rw [hasm] at h2; cases h2
        | some a =>
            rw [hasm] at h2
            injection h2 with h2
            subst h2
            have hchosen := chooseStopNodesDP_no_empty g _ chosen hdp
            obtain ⟨hcum, hfin, hchain, _⟩ := assembleLegs_spec g hf chosen 0 a hchosen hasm
            exact ⟨hcum, by simpa [attemptPack] using hfin, hchain⟩

theorem plannedPath_props (g : TrackGraphModel) (hf : FinderOK g)
    (stops : List PlannedStopConstraint) (dest : Option String)
    (hfound : (buildPathForPlannedStops g stops dest).path.found = true) :
    CumOK (buildPathForPlannedStops g stops dest).path.segments 0 ∧
    (buildPathForPlannedStops g stops dest).path.totalLength =
      sumLen (buildPathForPlannedStops g stops dest).path.segments ∧
    List.Chain' (fun s1 s2 => s2.fromNodeId = s1.toNodeId)
      (buildPathForPlannedStops g stops dest).path.segments := by
  have hres : buildPathForPlannedStops g stops dest = notFoundPlanned ∨
      ∃ pf sf, attemptF g (effectiveStopsOf stops)
        (destinationIdOf (effectiveStopsOf stops) dest) pf sf =
          some (buildPathForPlannedStops g stops dest) := by
    have hb : buildPathForPlannedStops g stops dest =
        (if (effectiveStopsOf stops).length < 2 then notFoundPlanned
         else
           match attemptF g (effectiveStopsOf stops)
               (destinationIdOf (effectiveStopsOf stops) dest) true true with
           | some r => r
           | none =>
             match attemptF g (effectiveStopsOf stops)
                 (destinationIdOf (effectiveStopsOf stops) dest) true false with
             | some r => r
             | none =>
               match attemptF g (effectiveStopsOf stops)
                   (destinationIdOf (effectiveStopsOf stops) dest) false false with
               | some r => r
               | none => notFoundPlanned) := rfl
    rw [hb]
    by_cases hlen : (effectiveStopsOf stops).length < 2
    · rw [if_pos hlen]; exact Or.inl rfl
    · rw [if_neg hlen]
      cases h1 : attemptF g (effectiveStopsOf stops)
          (destinationIdOf (effectiveStopsOf stops) dest) true true with
      | some r => exact Or.inr ⟨true, true, h1⟩
      | none =>
          cases h2 : attemptF g (effectiveStopsOf stops)
              (destinationIdOf (effectiveStopsOf stops) dest) true false with
          | some r => exact Or.inr ⟨true, false, h2⟩
          | none =>
              cases h3 : attemptF g (effectiveStopsOf stops)
                  (destinationIdOf (effectiveStopsOf stops) dest) false false with
              | some r => exact Or.inr ⟨false, false, h3⟩
              | none => exact Or.inl rfl
  rcases hres with hnf | ⟨pf, sf, hat⟩
  · rw [hnf] at hfound
    cases hfound
  · exact attemptF_spec g hf _ _ pf sf _ hat

/-- C4: for every multi-stop path request with a found result, every segment
carries the sum of the lengths of the preceding segments as its cumulative
distance, the total length equals the sum of all segment lengths, and every
pair of consecutive segments shares a node; the same holds for the
buildPathForStops wrapper. The hypothesis packages the contract of the
external ngraph A-star finder (paths start and end at the requested nodes,
have at least two nodes, and follow graph links). -/
theorem c4_path_segment_consistency (g : TrackGraphModel) (hf : FinderOK g) :
    (∀ (stops : List PlannedStopConstraint) (dest : Option String),
      (buildPathForPlannedStops g stops dest).path.found = true →
      sumLen (buildPathForPlannedStops g stops dest).path.segments =
        (buildPathForPlannedStops g stops dest).path.totalLength ∧
      (∀ i (hi : i < (buildPathForPlannedStops g stops dest).path.segments.length),
        ((buildPathForPlannedStops g stops dest).path.segments.get ⟨i, hi⟩).cumulativeDistance =
          sumLen ((buildPathForPlannedStops g stops dest).path.segments.take i)) ∧
      (∀ i (hi : i < (buildPathForPlannedStops g stops dest).path.segments.length - 1),
        ((buildPathForPlannedStops g stops dest).path.segments.get
            ⟨i + 1, by omega⟩).fromNodeId =
          ((buildPathForPlannedStops g stops dest).path.segments.get
            ⟨i, by omega⟩).toNodeId)) ∧
    (∀ ids : List String,
      (buildPathForStops g ids).1.found = true →
      sumLen (buildPathForStops g ids).1.segments = (buildPathForStops g ids).1.totalLength ∧
      (∀ i (hi : i < (buildPathForStops g ids).1.segments.length),
        ((buildPathForStops g ids).1.segments.get ⟨i, hi⟩).cumulativeDistance =
          sumLen ((buildPathForStops g ids).1.segments.take i)) ∧
      (∀ i (hi : i < (buildPathForStops g ids).1.segments.length - 1),
        ((buildPathForStops g ids).1.segments.get ⟨i + 1, by omega⟩).fromNodeId =
          ((buildPathForStops g ids).1.segments.get ⟨i, by omega⟩).toNodeId)) := by
  have hmain : ∀ (stops : List PlannedStopConstraint) (dest : Option String),
      (buildPathForPlannedStops g stops dest).path.found = true →
      sumLen (buildPathForPlannedStops g stops dest).path.segments =
        (buildPathForPlannedStops g stops dest).path.totalLength ∧
      (∀ i (hi : i < (buildPathForPlannedStops g stops dest).path.segments.length),
        ((buildPathForPlannedStops g stops dest).path.segments.get ⟨i, hi⟩).cumulativeDistance =
          sumLen ((buildPathForPlannedStops g stops dest).path.segments.take i)) ∧
      (∀ i (hi : i < (buildPathForPlannedStops g stops dest).path.segments.length - 1),
        ((buildPathForPlannedStops g stops dest).path.segments.get
            ⟨i + 1, by omega⟩).fromNodeId =
          ((buildPathForPlannedStops g stops dest).path.segments.get
            ⟨i, by omega⟩).toNodeId) := by
    intro stops dest hfound
    obtain ⟨hcum, htot, hchain⟩ := plannedPath_props g hf stops dest hfound
    refine ⟨htot.symm, ?_, ?_⟩
    · intro i hi
      have := cumOK_get hcum i hi
      simpa using this
    · intro i hi
      exact List.chain'_iff_get.mp hchain i hi
  refine ⟨hmain, ?_⟩
  intro ids hfound
  unfold buildPathForStops at hfound ⊢
  by_cases hlen : (ids.filter (fun id => jsTrim id ≠ "")).length < 2
  · rw [if_pos hlen] at hfound
    cases hfound
  · rw [if_neg hlen] at hfound ⊢
    exact hmain _ none hfound

/-- A two-station graph (stop nodes A and B joined by one 100 m link) whose
finder returns the single two-node path. -/
def c4WitnessGraph : TrackGraphModel :=
  { getLinks := fun n =>
      if n = "A" then some [{ toId := "B", data := some (makeLink "t1" 100) }] else none,
    getNode := fun n =>
      if n = "A" then some { kind := "stop", degree := 1, stationId := some "S1" }
      else if n = "B" then some { kind := "stop", degree := 1, stationId := some "S2" }
      else none,
    stationNodeMap := [],
    stationStopNodeMap := [("S1", ["A"]), ("S2", ["B"])],
    edgeOrientationByTrackId := [],
    findNodePath := fun a b => if a = "A" ∧ b = "B" then some ["A", "B"] else none,
    getStationStopCandidates := fun st _ _ _ =>
      if st = "S1" then ["A"] else if st = "S2" then ["B"] else [] }

section ConcreteC4

attribute [local semireducible] Rat.add Rat.sub Rat.mul Rat.inv

theorem c4WitnessGraph_finderOK : FinderOK c4WitnessGraph := by
  intro a b p h
  by_cases hc : a = "A" ∧ b = "B"
  · have h2 : (if a = "A" ∧ b = "B" then some ["A", "B"] else none) = some p := h
    rw [if_pos hc] at h2
    injection h2 with h2
    subst h2
    obtain ⟨ha, hb⟩ := hc
    subst ha
    subst hb
    refine ⟨by decide, rfl, rfl, by decide, ?_⟩
    rw [List.chain'_cons]
    exact ⟨by decide, List.chain'_singleton _⟩
  · have h2 : (if a = "A" ∧ b = "B" then some ["A", "B"] else none) = some p := h
    rw [if_neg hc] at h2
    cases h2

/-- Witness for the C4 theorem: the concrete two-station request succeeds and
its result satisfies the cumulative-distance, total-length and shared-node
properties. -/
theorem c4_path_segment_consistency_witness :
    (buildPathForPlannedStops c4WitnessGraph
      [{ stationId := "S1", platform := none }, { stationId := "S2", platform := none }]
      none).path.found = true ∧
    (sumLen (buildPathForPlannedStops c4WitnessGraph
        [{ stationId := "S1", platform := none }, { stationId := "S2", platform := none }]
        none).path.segments =
      (buildPathForPlannedStops c4WitnessGraph
        [{ stationId := "S1", platform := none }, { stationId := "S2", platform := none }]
        none).path.totalLength) := by
  refine ⟨by decide, ?_⟩
  exact ((c4_path_segment_consistency c4WitnessGraph c4WitnessGraph_finderOK).1
    [{ stationId := "S1", platform := none }, { stationId := "S2", platform := none }]
    none (by decide)).1

end ConcreteC4

/-! ## Well-formedness of reservation states

The remaining reservation claims quantify over the states the system can
actually be in, so this part develops the state invariant that the public
operations (setTrainPath, updateTrain, yieldTrain, clearTrain) maintain:
the ownership maps and the per-train sets mirror each other, the per-section
reserved count equals the number of reserved blocks of the section, and the
direction lock and its owner exist exactly while that count is positive. -/

theorem alookup_aset {β : Type} (m : List (String × β)) (k : String) (v : β) (q : String) :
    alookup (aset m k v) q = if q = k then some v else alookup m q := by
  by_cases h : q = k
  · subst h; simp
  · rw [alookup_aset_ne m k v h, if_neg h]

theorem alookup_aerase {β : Type} (m : List (String × β)) (k : String) (q : String) :
    alookup (aerase m k) q = if q = k then none else alookup m q := by
  by_cases h : q = k
  · subst h; simp
  · rw [alookup_aerase_ne m k h, if_neg h]

theorem aerase_of_not_mem {β : Type} {m : List (String × β)} {k : String}
    (h : k ∉ akeys m) : aerase m k = m := by
  induction m with
  | nil => rfl
  | cons p rest ih =>
    simp only [akeys, List.map_cons, List.mem_cons, not_or] at h
    have hp : ¬ p.1 = k := fun hh => h.1 hh.symm
    simp only [aerase, if_neg hp]
    rw [ih (by simpa [akeys] using h.2)]

theorem akeys_aset_of_none {β : Type} {m : List (String × β)} {k : String} (v : β)
    (h : alookup m k = none) : akeys (aset m k v) = akeys m ++ [k] := by
  unfold aset
  rw [h]
  simp [akeys]

/-- The number of reserved blocks belonging to a section, computed from the
block-ownership map: the exact value the source keeps in
sectionReservedCount. -/
def countVal (m : SectionModel) (s : String) (bm : List (String × String)) : ℕ :=
  ((akeys bm).filter (fun b => decide (m.getSectionId b = some s))).length

theorem countVal_aset_fresh {m : SectionModel} {s : String} {bm : List (String × String)}
    {b t : String} (h : alookup bm b = none) :
    countVal m s (aset bm b t) =
      countVal m s bm + (if m.getSectionId b = some s then 1 else 0) := by
  unfold countVal
  rw [akeys_aset_of_none t h, List.filter_append]
  by_cases hb : m.getSectionId b = some s <;> simp [hb]

theorem countVal_aerase {m : SectionModel} {s : String} {bm : List (String × String)}
    {b : String} {t : String} (hnd : (akeys bm).Nodup) (h : alookup bm b = some t) :
    countVal m s bm =
      countVal m s (aerase bm b) + (if m.getSectionId b = some s then 1 else 0) := by
  induction bm with
  | nil => cases h
  | cons p rest ih =>
    simp only [akeys, List.map_cons, List.nodup_cons] at hnd
    rw [alookup_cons] at h
    by_cases hp : p.1 = b
    · have hrest : aerase (p :: rest) b = rest := by
        have hb : b ∉ akeys rest := hp ▸ (by simpa [akeys] using hnd.1)
        simp only [aerase, if_pos hp]
        exact aerase_of_not_mem hb
      rw [hrest]
      unfold countVal
      simp only [akeys, List.map_cons, List.filter_cons]
      subst hp
      by_cases hb : m.getSectionId p.1 = some s <;> simp [hb, akeys, Nat.add_comm]
    · rw [if_neg hp] at h
      have ihr := ih (by simpa [akeys] using hnd.2) h
      have hstep : aerase (p :: rest) b = p :: aerase rest b := by
        simp [aerase, hp]
      rw [hstep]
      unfold countVal at ihr ⊢
      simp only [akeys, List.map_cons, List.filter_cons]
      by_cases hq : m.getSectionId p.1 = some s <;>
        simp [hq, akeys] at ihr ⊢ <;> omega

theorem countVal_pos_iff {m : SectionModel} {s : String} {bm : List (String × String)} :
    0 < countVal m s bm ↔ ∃ b, m.getSectionId b = some s ∧ (alookup bm b).isSome := by
  unfold countVal
  rw [List.length_pos]
  constructor
  · intro h
    rcases List.exists_mem_of_ne_nil _ h with ⟨b, hb⟩
    rcases List.mem_filter.mp hb with ⟨hmem, hsec⟩
    refine ⟨b, by simpa using hsec, ?_⟩
    rw [Option.isSome_iff_ne_none]
    intro hnone
    exact (alookup_eq_none_iff bm b).mp hnone hmem
  · rintro ⟨b, hsec, hsome⟩
    intro hnil
    have hmem : b ∈ akeys bm := by
      by_contra hmem
      rw [(alookup_eq_none_iff bm b).mpr hmem] at hsome
      cases hsome
    have : b ∈ (akeys bm).filter (fun b => decide (m.getSectionId b = some s)) :=
      List.mem_filter.mpr ⟨hmem, by simpa using hsec⟩
    rw [hnil] at this
    cases this

/-- The queries of the section model used by the reservation system answer a
direction for every block that belongs to a section (the shape the derived
section data of the spec has: a section direction is defined for each of its
blocks). -/
def DirectionTotal (m : SectionModel) : Prop :=
  ∀ b f t, (m.getSectionId b).isSome → (m.getSectionDirection b f t).isSome

/-- The per-train view of block ownership: the train's state set holds the
block. -/
def ownsBlock (σ : ResState) (t b : String) : Prop :=
  ∃ st, alookup σ.trainState t = some st ∧ b ∈ st.reservedBlocks

/-- The per-train view of node ownership: the train's state set holds the
node. -/
def ownsNode (σ : ResState) (t n : String) : Prop :=
  ∃ st, alookup σ.trainState t = some st ∧ n ∈ st.reservedNodes

theorem ownsBlock_addReservedBlock (σ : ResState) (t b u b' : String) :
    ownsBlock (addReservedBlock t b σ) u b' ↔ (ownsBlock σ u b' ∨ (u = t ∧ b' = b)) := by
  unfold ownsBlock addReservedBlock
  simp only [alookup_aset]
  by_cases hu : u = t
  · rw [if_pos hu]
    subst hu
    cases hst : alookup σ.trainState u <;>
      simp [hst, freshTrainState, or_comm, and_comm]
  · rw [if_neg hu]
    simp [hu]

theorem ownsNode_addReservedBlock (σ : ResState) (t b u n : String) :
    ownsNode (addReservedBlock t b σ) u n ↔ ownsNode σ u n := by
  unfold ownsNode addReservedBlock
  simp only [alookup_aset]
  by_cases hu : u = t
  · rw [if_pos hu]
    subst hu
    cases hst : alookup σ.trainState u <;> simp [hst, freshTrainState]
  · rw [if_neg hu]

theorem ownsNode_addReservedNode (σ : ResState) (t n u n' : String) :
    ownsNode (addReservedNode t n σ) u n' ↔ (ownsNode σ u n' ∨ (u = t ∧ n' = n)) := by
  unfold ownsNode addReservedNode
  simp only [alookup_aset]
  by_cases hu : u = t
  · rw [if_pos hu]
    subst hu
    cases hst : alookup σ.trainState u <;>
      simp [hst, freshTrainState, or_comm, and_comm]
  · rw [if_neg hu]
    simp [hu]

theorem ownsBlock_addReservedNode (σ : ResState) (t n u b : String) :
    ownsBlock (addReservedNode t n σ) u b ↔ ownsBlock σ u b := by
  unfold ownsBlock addReservedNode
  simp only [alookup_aset]
  by_cases hu : u = t
  · rw [if_pos hu]
    subst hu
    cases hst : alookup σ.trainState u <;> simp [hst, freshTrainState]
  · rw [if_neg hu]

theorem ownsBlock_delReservedBlock (σ : ResState) (t b u b' : String) :
    ownsBlock (delReservedBlock t b σ) u b' ↔ (ownsBlock σ u b' ∧ ¬(u = t ∧ b' = b)) := by
  unfold ownsBlock delReservedBlock
  cases hst : alookup σ.trainState t with
  | none =>
    simp only [hst]
    constructor
    · intro hw
      refine ⟨hw, ?_⟩
      rintro ⟨rfl, rfl⟩
      rcases hw with ⟨st, hc, _⟩
      rw [hst] at hc
      cases hc
    · exact fun hw => hw.1
  | some st0 =>
    simp only [hst, alookup_aset]
    by_cases hu : u = t
    · rw [if_pos hu]
      subst hu
      simp [hst, and_comm, Decidable.not_and_iff_or_not, and_or_left]
    · rw [if_neg hu]
      simp [hu]

theorem ownsNode_delReservedBlock (σ : ResState) (t b u n : String) :
    ownsNode (delReservedBlock t b σ) u n ↔ ownsNode σ u n := by
  unfold ownsNode delReservedBlock
  cases hst : alookup σ.trainState t with
  | none => simp only [hst]
  | some st0 =>
    simp only [hst, alookup_aset]
    by_cases hu : u = t
    · rw [if_pos hu]
      subst hu
      simp [hst]
    · rw [if_neg hu]

theorem ownsNode_delReservedNode (σ : ResState) (t n u n' : String) :
    ownsNode (delReservedNode t n σ) u n' ↔ (ownsNode σ u n' ∧ ¬(u = t ∧ n' = n)) := by
  unfold ownsNode delReservedNode
  cases hst : alookup σ.trainState t with
  | none =>
    simp only [hst]
    constructor
    · intro hw
      refine ⟨hw, ?_⟩
      rintro ⟨rfl, rfl⟩
      rcases hw with ⟨st, hc, _⟩
      rw [hst] at hc
      cases hc
    · exact fun hw => hw.1
  | some st0 =>
    simp only [hst, alookup_aset]
    by_cases hu : u = t
    · rw [if_pos hu]
      subst hu
      simp [hst, and_comm, Decidable.not_and_iff_or_not, and_or_left]
    · rw [if_neg hu]
      simp [hu]

theorem ownsBlock_delReservedNode (σ : ResState) (t n u b : String) :
    ownsBlock (delReservedNode t n σ) u b ↔ ownsBlock σ u b := by
  unfold ownsBlock delReservedNode
  cases hst : alookup σ.trainState t with
  | none => simp only [hst]
  | some st0 =>
    simp only [hst, alookup_aset]
    by_cases hu : u = t
    · rw [if_pos hu]
      subst hu
      simp [hst]
    · rw [if_neg hu]

theorem ownsBlock_bumpCursor (σ : ResState) (t u b : String) :
    ownsBlock (bumpCursor t σ) u b ↔ ownsBlock σ u b := by
  unfold ownsBlock bumpCursor
  cases hst : alookup σ.trainState t with
  | none => simp only [hst]
  | some st0 =>
    simp only [hst, alookup_aset]
    by_cases hu : u = t
    · rw [if_pos hu]
      subst hu
      simp [hst]
    · rw [if_neg hu]

theorem ownsNode_bumpCursor (σ : ResState) (t u n : String) :
    ownsNode (bumpCursor t σ) u n ↔ ownsNode σ u n := by
  unfold ownsNode bumpCursor
  cases hst : alookup σ.trainState t with
  | none => simp only [hst]
  | some st0 =>
    simp only [hst, alookup_aset]
    by_cases hu : u = t
    · rw [if_pos hu]
      subst hu
      simp [hst]
    · rw [if_neg hu]

/-- The reservation-state invariant: block and node ownership agree with the
per-train sets, block keys are duplicate-free, the per-section count is the
exact number of reserved blocks of the section (absent at zero), and the
direction lock and its owner live exactly while that count is positive. -/
structure WFRes (m : SectionModel) (σ : ResState) : Prop where
  blocksNodup : (akeys σ.reservedByBlockId).Nodup
  blocks_iff : ∀ t b, alookup σ.reservedByBlockId b = some t ↔ ownsBlock σ t b
  nodes_iff : ∀ t n, alookup σ.reservedByNodeId n = some t ↔ ownsNode σ t n
  count_eq : ∀ s, alookup σ.sectionReservedCount s =
    (if countVal m s σ.reservedByBlockId = 0 then none
     else some (countVal m s σ.reservedByBlockId : Int))
  lock_iff : ∀ s, (alookup σ.sectionLockDirection s).isSome ↔
    0 < countVal m s σ.reservedByBlockId
  owner_iff : ∀ s, (alookup σ.sectionLockOwner s).isSome =
    (alookup σ.sectionLockDirection s).isSome

theorem wf_initRes (m : SectionModel) : WFRes m initRes := by
  refine ⟨?_, ?_, ?_, ?_, ?_, ?_⟩
  · simp [initRes, akeys]
  · intro t b; simp [initRes, ownsBlock]
  · intro t n; simp [initRes, ownsNode]
  · intro s; simp [initRes, countVal, akeys]
  · intro s; simp [initRes, countVal, akeys]
  · intro s; simp [initRes]

@[simp] theorem delReservedBlock_bm (t b : String) (σ : ResState) :
    (delReservedBlock t b σ).reservedByBlockId = σ.reservedByBlockId := by
  unfold delReservedBlock; cases alookup σ.trainState t <;> rfl

@[simp] theorem delReservedBlock_nm (t b : String) (σ : ResState) :
    (delReservedBlock t b σ).reservedByNodeId = σ.reservedByNodeId := by
  unfold delReservedBlock; cases alookup σ.trainState t <;> rfl

@[simp] theorem delReservedBlock_count (t b : String) (σ : ResState) :
    (delReservedBlock t b σ).sectionReservedCount = σ.sectionReservedCount := by
  unfold delReservedBlock; cases alookup σ.trainState t <;> rfl

@[simp] theorem delReservedBlock_lockDir (t b : String) (σ : ResState) :
    (delReservedBlock t b σ).sectionLockDirection = σ.sectionLockDirection := by
  unfold delReservedBlock; cases alookup σ.trainState t <;> rfl

@[simp] theorem delReservedBlock_lockOwner (t b : String) (σ : ResState) :
    (delReservedBlock t b σ).sectionLockOwner = σ.sectionLockOwner := by
  unfold delReservedBlock; cases alookup σ.trainState t <;> rfl

@[simp] theorem delReservedNode_bm (t n : String) (σ : ResState) :
    (delReservedNode t n σ).reservedByBlockId = σ.reservedByBlockId := by
  unfold delReservedNode; cases alookup σ.trainState t <;> rfl

@[simp] theorem delReservedNode_nm (t n : String) (σ : ResState) :
    (delReservedNode t n σ).reservedByNodeId = σ.reservedByNodeId := by
  unfold delReservedNode; cases alookup σ.trainState t <;> rfl

@[simp] theorem delReservedNode_count (t n : String) (σ : ResState) :
    (delReservedNode t n σ).sectionReservedCount = σ.sectionReservedCount := by
  unfold delReservedNode; cases alookup σ.trainState t <;> rfl

@[simp] theorem delReservedNode_lockDir (t n : String) (σ : ResState) :
    (delReservedNode t n σ).sectionLockDirection = σ.sectionLockDirection := by
  unfold delReservedNode; cases alookup σ.trainState t <;> rfl

@[simp] theorem delReservedNode_lockOwner (t n : String) (σ : ResState) :
    (delReservedNode t n σ).sectionLockOwner = σ.sectionLockOwner := by
  unfold delReservedNode; cases alookup σ.trainState t <;> rfl

@[simp] theorem bumpCursor_bm (t : String) (σ : ResState) :
    (bumpCursor t σ).reservedByBlockId = σ.reservedByBlockId := by
  unfold bumpCursor; cases alookup σ.trainState t <;> rfl

@[simp] theorem bumpCursor_nm (t : String) (σ : ResState) :
    (bumpCursor t σ).reservedByNodeId = σ.reservedByNodeId := by
  unfold bumpCursor; cases alookup σ.trainState t <;> rfl

@[simp] theorem bumpCursor_count (t : String) (σ : ResState) :
    (bumpCursor t σ).sectionReservedCount = σ.sectionReservedCount := by
  unfold bumpCursor; cases alookup σ.trainState t <;> rfl

@[simp] theorem bumpCursor_lockDir (t : String) (σ : ResState) :
    (bumpCursor t σ).sectionLockDirection = σ.sectionLockDirection := by
  unfold bumpCursor; cases alookup σ.trainState t <;> rfl

@[simp] theorem bumpCursor_lockOwner (t : String) (σ : ResState) :
    (bumpCursor t σ).sectionLockOwner = σ.sectionLockOwner := by
  unfold bumpCursor; cases alookup σ.trainState t <;> rfl

theorem wf_bumpCursor {m : SectionModel} {σ : ResState} (h : WFRes m σ) (t : String) :
    WFRes m (bumpCursor t σ) := by
  refine ⟨?_, ?_, ?_, ?_, ?_, ?_⟩
  · rw [bumpCursor_bm]; exact h.blocksNodup
  · intro u b
    rw [bumpCursor_bm, ownsBlock_bumpCursor]
    exact h.blocks_iff u b
  · intro u n
    rw [bumpCursor_nm, ownsNode_bumpCursor]
    exact h.nodes_iff u n
  · intro s; rw [bumpCursor_count, bumpCursor_bm]; exact h.count_eq s
  · intro s; rw [bumpCursor_lockDir, bumpCursor_bm]; exact h.lock_iff s
  · intro s; rw [bumpCursor_lockOwner, bumpCursor_lockDir]; exact h.owner_iff s

theorem wf_reserveNode {m : SectionModel} {σ : ResState} (h : WFRes m σ) (t n : String) :
    WFRes m (reserveNode t n σ).2 := by
  unfold reserveNode
  cases halk : alookup σ.reservedByNodeId n with
  | some o =>
    show WFRes m (if o = t then (ReserveResult.already, σ) else (ReserveResult.blocked, σ)).2
    by_cases ho : o = t
    · rw [if_pos ho]; exact h
    · rw [if_neg ho]; exact h
  | none =>
    show WFRes m
      (addReservedNode t n { σ with reservedByNodeId := aset σ.reservedByNodeId n t })
    refine ⟨h.blocksNodup, ?_, ?_, h.count_eq, h.lock_iff, h.owner_iff⟩
    · intro u b
      exact (h.blocks_iff u b).trans (ownsBlock_addReservedNode _ t n u b).symm
    · intro u n'
      rw [ownsNode_addReservedNode]
      have hnm : (addReservedNode t n
          { σ with reservedByNodeId := aset σ.reservedByNodeId n t }).reservedByNodeId =
          aset σ.reservedByNodeId n t := rfl
      rw [hnm, alookup_aset]
      by_cases hn : n' = n
      · rw [if_pos hn]
        constructor
        · intro hc
          injection hc with hc
          exact Or.inr ⟨hc.symm, hn⟩
        · rintro (hw | ⟨rfl, _⟩)
          · have := (h.nodes_iff u n').mpr hw
            rw [hn, halk] at this
            cases this
          · rfl
      · rw [if_neg hn, h.nodes_iff u n']
        constructor
        · exact Or.inl
        · rintro (hw | ⟨rfl, hn'⟩)
          · exact hw
          · exact absurd hn' hn

theorem wf_releaseNode {m : SectionModel} {σ : ResState} (h : WFRes m σ) (t n : String) :
    WFRes m (releaseNode t n σ) := by
  unfold releaseNode
  by_cases h0 : alookup σ.reservedByNodeId n = some t
  · rw [if_pos h0]
    refine ⟨?_, ?_, ?_, ?_, ?_, ?_⟩
    · rw [delReservedNode_bm]; exact h.blocksNodup
    · intro u b
      rw [delReservedNode_bm]
      exact (h.blocks_iff u b).trans
        (ownsBlock_delReservedNode { σ with reservedByNodeId := aerase σ.reservedByNodeId n }
          t n u b).symm
    · intro u n'
      rw [delReservedNode_nm, ownsNode_delReservedNode]
      show alookup (aerase σ.reservedByNodeId n) n' = some u ↔ _
      rw [alookup_aerase]
      by_cases hn : n' = n
      · rw [if_pos hn]
        constructor
        · intro hc; cases hc
        · rintro ⟨hw, hne⟩
          have := (h.nodes_iff u n').mpr hw
          rw [hn, h0] at this
          injection this with this
          exact absurd ⟨this.symm, hn⟩ hne
      · rw [if_neg hn, h.nodes_iff u n']
        constructor
        · exact fun hw => ⟨hw, fun hc => hn hc.2⟩
        · exact fun hw => hw.1
    · intro s; rw [delReservedNode_count, delReservedNode_bm]; exact h.count_eq s
    · intro s; rw [delReservedNode_lockDir, delReservedNode_bm]; exact h.lock_iff s
    · intro s; rw [delReservedNode_lockOwner, delReservedNode_lockDir]; exact h.owner_iff s
  · rw [if_neg h0]; exact h

theorem countVal_aerase_of_ne_section {m : SectionModel} {bm : List (String × String)}
    {b t s : String} (hnd : (akeys bm).Nodup) (h0 : alookup bm b = some t)
    (hsec : m.getSectionId b ≠ some s) :
    countVal m s (aerase bm b) = countVal m s bm := by
  have hc := countVal_aerase (m := m) (s := s) hnd h0
  rw [if_neg hsec] at hc
  omega

/-- The block-iff and node-iff facts of the state reached by the erase plus
per-train delete shared by every branch of releaseBlock. -/
theorem releaseBlock_core_iffs {m : SectionModel} {σ : ResState} (h : WFRes m σ)
    {t b : String} (h0 : alookup σ.reservedByBlockId b = some t) :
    (∀ u b', alookup (aerase σ.reservedByBlockId b) b' = some u ↔
      ownsBlock (delReservedBlock t b
        { σ with reservedByBlockId := aerase σ.reservedByBlockId b }) u b') ∧
    (∀ u n, alookup σ.reservedByNodeId n = some u ↔
      ownsNode (delReservedBlock t b
        { σ with reservedByBlockId := aerase σ.reservedByBlockId b }) u n) := by
  constructor
  · intro u b'
    rw [ownsBlock_delReservedBlock { σ with reservedByBlockId := aerase σ.reservedByBlockId b }
      t b u b']
    show alookup (aerase σ.reservedByBlockId b) b' = some u ↔ ownsBlock σ u b' ∧ _
    rw [alookup_aerase]
    by_cases hb : b' = b
    · rw [if_pos hb]
      constructor
      · intro hc; cases hc
      · rintro ⟨hw, hne⟩
        have := (h.blocks_iff u b').mpr hw
        rw [hb, h0] at this
        injection this with this
        exact absurd ⟨this.symm, hb⟩ hne
    · rw [if_neg hb, h.blocks_iff u b']
      constructor
      · exact fun hw => ⟨hw, fun hc => hb hc.2⟩
      · exact fun hw => hw.1
  · intro u n
    exact (h.nodes_iff u n).trans
      (ownsNode_delReservedBlock { σ with reservedByBlockId := aerase σ.reservedByBlockId b }
        t b u n).symm

theorem wf_releaseBlock {m : SectionModel} {σ : ResState} (h : WFRes m σ) (t b : String) :
    WFRes m (releaseBlock m t b σ) := by
  by_cases h0 : alookup σ.reservedByBlockId b = some t
  case neg =>
    unfold releaseBlock
    rw [if_neg h0]
    exact h
  case pos =>
  have hcore := releaseBlock_core_iffs h h0
  have hnd1 : (akeys (aerase σ.reservedByBlockId b)).Nodup :=
    akeys_aerase_nodup h.blocksNodup b
  cases hsec : m.getSectionId b with
  | none =>
    have hred : releaseBlock m t b σ =
        delReservedBlock t b { σ with reservedByBlockId := aerase σ.reservedByBlockId b } := by
      unfold releaseBlock
      rw [if_pos h0, hsec]
    rw [hred]
    have hcv : ∀ s', countVal m s' (aerase σ.reservedByBlockId b) =
        countVal m s' σ.reservedByBlockId := by
      intro s'
      exact countVal_aerase_of_ne_section h.blocksNodup h0 (by rw [hsec]; intro hc; cases hc)
    refine ⟨?_, ?_, ?_, ?_, ?_, ?_⟩
    · rw [delReservedBlock_bm]
      exact hnd1
    · intro u b'
      rw [delReservedBlock_bm]
      exact hcore.1 u b'
    · intro u n
      rw [delReservedBlock_nm]
      exact hcore.2 u n
    · intro s'
      rw [delReservedBlock_count, delReservedBlock_bm]
      show alookup σ.sectionReservedCount s' = _
      rw [h.count_eq s']
      show _ = (if countVal m s' (aerase σ.reservedByBlockId b) = 0 then none
        else some (countVal m s' (aerase σ.reservedByBlockId b) : Int))
      rw [hcv s']
    · intro s'
      rw [delReservedBlock_lockDir, delReservedBlock_bm]
      show (alookup σ.sectionLockDirection s').isSome ↔
        0 < countVal m s' (aerase σ.reservedByBlockId b)
      rw [hcv s']
      exact h.lock_iff s'
    · intro s'
      rw [delReservedBlock_lockOwner, delReservedBlock_lockDir]
      exact h.owner_iff s'
  | some s =>
    have hcnt : countVal m s σ.reservedByBlockId =
        countVal m s (aerase σ.reservedByBlockId b) + 1 := by
      have hc := countVal_aerase (m := m) (s := s) h.blocksNodup h0
      rw [if_pos hsec] at hc
      exact hc
    have hcv : ∀ s', s' ≠ s → countVal m s' (aerase σ.reservedByBlockId b) =
        countVal m s' σ.reservedByBlockId := by
      intro s' hs
      exact countVal_aerase_of_ne_section h.blocksNodup h0
        (by rw [hsec]; intro hc; injection hc with hc; exact hs hc.symm)
    have hcur : (alookup (delReservedBlock t b
        { σ with reservedByBlockId := aerase σ.reservedByBlockId b }).sectionReservedCount
          s).getD 0 =
        ((countVal m s (aerase σ.reservedByBlockId b) : Int) + 1) := by
      rw [delReservedBlock_count]
      show (alookup σ.sectionReservedCount s).getD 0 = _
      rw [h.count_eq s, hcnt]
      rw [if_neg (by omega)]
      push_cast
      simp
    have hred : releaseBlock m t b σ =
        (if (max 0 (((alookup (delReservedBlock t b
              { σ with reservedByBlockId := aerase σ.reservedByBlockId b
              }).sectionReservedCount s).getD 0) - 1) ≤ (0 : Int)) then
          { (delReservedBlock t b
              { σ with reservedByBlockId := aerase σ.reservedByBlockId b }) with
            sectionReservedCount := aerase (delReservedBlock t b
              { σ with reservedByBlockId := aerase σ.reservedByBlockId b
              }).sectionReservedCount s,
            sectionLockDirection := aerase (delReservedBlock t b
              { σ with reservedByBlockId := aerase σ.reservedByBlockId b
              }).sectionLockDirection s,
            sectionLockOwner := aerase (delReservedBlock t b
              { σ with reservedByBlockId := aerase σ.reservedByBlockId b
              }).sectionLockOwner s }
        else
          { (delReservedBlock t b
              { σ with reservedByBlockId := aerase σ.reservedByBlockId b }) with
            sectionReservedCount := aset (delReservedBlock t b
              { σ with reservedByBlockId := aerase σ.reservedByBlockId b
              }).sectionReservedCount s
              (max 0 (((alookup (delReservedBlock t b
                { σ with reservedByBlockId := aerase σ.reservedByBlockId b
                }).sectionReservedCount s).getD 0) - 1)) }) := by
      unfold releaseBlock
      rw [if_pos h0, hsec]
    have hnext : (max 0 (((alookup (delReservedBlock t b
        { σ with reservedByBlockId := aerase σ.reservedByBlockId b
        }).sectionReservedCount s).getD 0) - 1)) =
        (countVal m s (aerase σ.reservedByBlockId b) : Int) := by
      rw [hcur]
      have : ((countVal m s (aerase σ.reservedByBlockId b) : Int) + 1) - 1 =
          (countVal m s (aerase σ.reservedByBlockId b) : Int) := by ring
      rw [this]
      exact max_eq_right (Int.natCast_nonneg _)
    rw [hred, hnext]
    by_cases hk : countVal m s (aerase σ.reservedByBlockId b) = 0
    · rw [if_pos (by rw [hk]; norm_num)]
      refine ⟨?_, ?_, ?_, ?_, ?_, ?_⟩ <;>
        simp only [delReservedBlock_bm, delReservedBlock_nm, delReservedBlock_count,
          delReservedBlock_lockDir, delReservedBlock_lockOwner]
      · exact hnd1
      · intro u b'
        exact hcore.1 u b'
      · intro u n
        exact hcore.2 u n
      · intro s'
        rw [alookup_aerase]
        by_cases hs : s' = s
        · rw [if_pos hs, hs, if_pos hk]
        · rw [if_neg hs, h.count_eq s', hcv s' hs]
      · intro s'
        rw [alookup_aerase]
        by_cases hs : s' = s
        · rw [if_pos hs, hs]
          simp [hk]
        · rw [if_neg hs, hcv s' hs]
          exact h.lock_iff s'
      · intro s'
        rw [alookup_aerase, alookup_aerase]
        by_cases hs : s' = s
        · rw [if_pos hs, if_pos hs]
          rfl
        · rw [if_neg hs, if_neg hs]
          exact h.owner_iff s'
    · rw [if_neg (by omega)]
      refine ⟨?_, ?_, ?_, ?_, ?_, ?_⟩ <;>
        simp only [delReservedBlock_bm, delReservedBlock_nm, delReservedBlock_count,
          delReservedBlock_lockDir, delReservedBlock_lockOwner]
      · exact hnd1
      · intro u b'
        exact hcore.1 u b'
      · intro u n
        exact hcore.2 u n
      · intro s'
        rw [alookup_aset]
        by_cases hs : s' = s
        · rw [if_pos hs, hs, if_neg hk]
        · rw [if_neg hs, h.count_eq s', hcv s' hs]
      · intro s'
        by_cases hs : s' = s
        · subst hs
          have hold : (alookup σ.sectionLockDirection s').isSome :=
            (h.lock_iff s').mpr (by omega)
          rw [hold]
          simp only [true_iff]
          omega
        · rw [hcv s' hs]
          exact h.lock_iff s'
      · intro s'
        exact h.owner_iff s'

theorem reserveBlock_eq_of_some {t b : String} {σ : ResState} {o : String}
    (halk : alookup σ.reservedByBlockId b = some o) :
    reserveBlock t b σ =
      (if o = t then (ReserveResult.already, σ) else (ReserveResult.blocked, σ)) := by
  unfold reserveBlock
  rw [halk]

theorem reserveBlock_eq_of_none {t b : String} {σ : ResState}
    (halk : alookup σ.reservedByBlockId b = none) :
    reserveBlock t b σ =
      (ReserveResult.reserved,
        addReservedBlock t b { σ with reservedByBlockId := aset σ.reservedByBlockId b t }) := by
  unfold reserveBlock
  rw [halk]

/-- The block-iff and node-iff facts of the state reached by a fresh block
reservation (map insert plus per-train add), shared by every section branch
of the reserve step. -/
theorem reserveBlock_fresh_iffs {m : SectionModel} {σ : ResState} (h : WFRes m σ)
    {t b : String} (halk : alookup σ.reservedByBlockId b = none) :
    (∀ u b', alookup (aset σ.reservedByBlockId b t) b' = some u ↔
      ownsBlock (addReservedBlock t b
        { σ with reservedByBlockId := aset σ.reservedByBlockId b t }) u b') ∧
    (∀ u n, alookup σ.reservedByNodeId n = some u ↔
      ownsNode (addReservedBlock t b
        { σ with reservedByBlockId := aset σ.reservedByBlockId b t }) u n) := by
  constructor
  · intro u b'
    rw [ownsBlock_addReservedBlock { σ with reservedByBlockId := aset σ.reservedByBlockId b t }
      t b u b']
    show alookup (aset σ.reservedByBlockId b t) b' = some u ↔ ownsBlock σ u b' ∨ _
    rw [alookup_aset]
    by_cases hb : b' = b
    · rw [if_pos hb]
      constructor
      · intro hc
        injection hc with hc
        exact Or.inr ⟨hc.symm, hb⟩
      · rintro (hw | ⟨rfl, _⟩)
        · have := (h.blocks_iff u b').mpr hw
          rw [hb, halk] at this
          cases this
        · rfl
    · rw [if_neg hb, h.blocks_iff u b']
      constructor
      · exact Or.inl
      · rintro (hw | ⟨rfl, hb'⟩)
        · exact hw
        · exact absurd hb' hb
  · intro u n
    exact (h.nodes_iff u n).trans
      (ownsNode_addReservedBlock { σ with reservedByBlockId := aset σ.reservedByBlockId b t }
        t b u n).symm

theorem wf_reserveIterBlock {m : SectionModel} {σ : ResState} (h : WFRes m σ)
    (t : String) (seg : PathSegment) (dir : Option Dir)
    (hdirT : (m.getSectionId seg.link.trackId).isSome = true → dir.isSome = true) :
    WFRes m (reserveIterBlock t seg (m.getSectionId seg.link.trackId) dir σ).2 := by
  unfold reserveIterBlock
  cases halk : alookup σ.reservedByBlockId seg.link.trackId with
  | some o =>
    rw [reserveBlock_eq_of_some halk]
    by_cases ho : o = t
    · rw [if_pos ho]
      exact h
    · rw [if_neg ho]
      exact h
  | none =>
    rw [reserveBlock_eq_of_none halk]
    have hiffs := reserveBlock_fresh_iffs (t := t) h halk
    have hnd1 : (akeys (aset σ.reservedByBlockId seg.link.trackId t)).Nodup :=
      akeys_aset_nodup h.blocksNodup seg.link.trackId t
    have hcv : ∀ s', countVal m s' (aset σ.reservedByBlockId seg.link.trackId t) =
        countVal m s' σ.reservedByBlockId +
          (if m.getSectionId seg.link.trackId = some s' then 1 else 0) :=
      fun s' => countVal_aset_fresh halk
    cases hsec : m.getSectionId seg.link.trackId with
    | none =>
      show WFRes m (addReservedBlock t seg.link.trackId
        { σ with reservedByBlockId := aset σ.reservedByBlockId seg.link.trackId t })
      have hcv0 : ∀ s', countVal m s'
          (aset σ.reservedByBlockId seg.link.trackId t) =
          countVal m s' σ.reservedByBlockId := by
        intro s'
        rw [hcv s', hsec]
        simp
      refine ⟨hnd1, hiffs.1, hiffs.2, ?_, ?_, ?_⟩
      · intro s'
        show alookup σ.sectionReservedCount s' = _
        rw [h.count_eq s']
        show _ = (if countVal m s' (aset σ.reservedByBlockId seg.link.trackId t) = 0 then none
          else some (countVal m s' (aset σ.reservedByBlockId seg.link.trackId t) : Int))
        rw [hcv0 s']
      · intro s'
        show (alookup σ.sectionLockDirection s').isSome ↔
          0 < countVal m s' (aset σ.reservedByBlockId seg.link.trackId t)
        rw [hcv0 s']
        exact h.lock_iff s'
      · intro s'
        exact h.owner_iff s'
    | some s =>
      have hcvs : countVal m s (aset σ.reservedByBlockId seg.link.trackId t) =
          countVal m s σ.reservedByBlockId + 1 := by
        rw [hcv s, hsec, if_pos rfl]
      have hcvne : ∀ s', s' ≠ s → countVal m s'
          (aset σ.reservedByBlockId seg.link.trackId t) =
          countVal m s' σ.reservedByBlockId := by
        intro s' hs
        rw [hcv s', hsec, if_neg (fun hc => hs (by injection hc with hc; exact hc.symm))]
        simp
      have hcurc : ((alookup σ.sectionReservedCount s).getD 0) + 1 =
          (countVal m s (aset σ.reservedByBlockId seg.link.trackId t) : Int) := by
        rw [h.count_eq s, hcvs]
        by_cases hz : countVal m s σ.reservedByBlockId = 0
        · rw [if_pos hz, hz]
          simp
        · rw [if_neg hz]
          push_cast
          simp
      cases dir with
      | none =>
        have := hdirT (by rw [hsec]; rfl)
        simp at this
      | some d =>
        show WFRes m
          ((if (alookup σ.sectionLockDirection s).isSome = true then
              ((none : Option ReservationUpdate),
                { (addReservedBlock t seg.link.trackId
                    { σ with reservedByBlockId := aset σ.reservedByBlockId seg.link.trackId t })
                  with
                  sectionReservedCount := aset σ.sectionReservedCount s
                    (((alookup σ.sectionReservedCount s).getD 0) + 1) })
            else
              ((none : Option ReservationUpdate),
                { (addReservedBlock t seg.link.trackId
                    { σ with reservedByBlockId := aset σ.reservedByBlockId seg.link.trackId t })
                  with
                  sectionReservedCount := aset σ.sectionReservedCount s
                    (((alookup σ.sectionReservedCount s).getD 0) + 1),
                  sectionLockDirection := aset σ.sectionLockDirection s d,
                  sectionLockOwner := aset σ.sectionLockOwner s t })).2)
        rw [hcurc]
        by_cases hlk : (alookup σ.sectionLockDirection s).isSome = true
        · rw [if_pos hlk]
          refine ⟨hnd1, hiffs.1, hiffs.2, ?_, ?_, ?_⟩
          · intro s'
            show alookup (aset σ.sectionReservedCount s
              (countVal m s (aset σ.reservedByBlockId seg.link.trackId t) : Int)) s' =
              (if countVal m s' (aset σ.reservedByBlockId seg.link.trackId t) = 0 then none
              else some (countVal m s' (aset σ.reservedByBlockId seg.link.trackId t) : Int))
            rw [alookup_aset]
            by_cases hs : s' = s
            · rw [if_pos hs, hs, if_neg (by omega)]
            · rw [if_neg hs]
              rw [h.count_eq s', hcvne s' hs]
          · intro s'
            show (alookup σ.sectionLockDirection s').isSome ↔
              0 < countVal m s' (aset σ.reservedByBlockId seg.link.trackId t)
            by_cases hs : s' = s
            · rw [hs, hlk]
              simp only [true_iff]
              omega
            · rw [hcvne s' hs]
              exact h.lock_iff s'
          · intro s'
            exact h.owner_iff s'
        · rw [if_neg hlk]
          refine ⟨hnd1, hiffs.1, hiffs.2, ?_, ?_, ?_⟩
          · intro s'
            show alookup (aset σ.sectionReservedCount s
              (countVal m s (aset σ.reservedByBlockId seg.link.trackId t) : Int)) s' =
              (if countVal m s' (aset σ.reservedByBlockId seg.link.trackId t) = 0 then none
              else some (countVal m s' (aset σ.reservedByBlockId seg.link.trackId t) : Int))
            rw [alookup_aset]
            by_cases hs : s' = s
            · rw [if_pos hs, hs, if_neg (by omega)]
            · rw [if_neg hs]
              rw [h.count_eq s', hcvne s' hs]
          · intro s'
            show (alookup (aset σ.sectionLockDirection s d) s').isSome ↔
              0 < countVal m s' (aset σ.reservedByBlockId seg.link.trackId t)
            rw [alookup_aset]
            by_cases hs : s' = s
            · rw [if_pos hs, hs]
              simp only [Option.isSome_some, true_iff]
              omega
            · rw [if_neg hs, hcvne s' hs]
              exact h.lock_iff s'
          · intro s'
            show (alookup (aset σ.sectionLockOwner s t) s').isSome =
              (alookup (aset σ.sectionLockDirection s d) s').isSome
            rw [alookup_aset, alookup_aset]
            by_cases hs : s' = s
            · rw [if_pos hs, if_pos hs]
              rfl
            · rw [if_neg hs, if_neg hs]
              exact h.owner_iff s'

theorem wf_reserveIterCore {m : SectionModel} {σ : ResState} (hT : DirectionTotal m)
    (h : WFRes m σ) (t : String) (seg : PathSegment) :
    WFRes m (reserveIterCore m t seg σ).2 := by
  have hc : reserveIterCore m t seg σ =
      (match sectionBlocked σ (m.getSectionId seg.link.trackId)
          (m.getSectionDirection seg.link.trackId seg.fromNodeId seg.toNodeId) with
       | some s =>
          (some (blockedUpd seg (alookup σ.sectionLockOwner s) .section_direction s), σ)
       | none => reserveIterBlock t seg (m.getSectionId seg.link.trackId)
           (m.getSectionDirection seg.link.trackId seg.fromNodeId seg.toNodeId) σ) := rfl
  rw [hc]
  cases hsb : sectionBlocked σ (m.getSectionId seg.link.trackId)
      (m.getSectionDirection seg.link.trackId seg.fromNodeId seg.toNodeId) with
  | some s => exact h
  | none =>
    exact wf_reserveIterBlock h t seg _
      (fun hs => hT seg.link.trackId seg.fromNodeId seg.toNodeId hs)

theorem wf_reserveIter {m : SectionModel} {σ : ResState} (hT : DirectionTotal m)
    (h : WFRes m σ) (t : String) (csi : Int) (i : ℕ) (seg : PathSegment) :
    WFRes m (reserveIter m t csi i seg σ).2 := by
  unfold reserveIter
  by_cases hj : csi < (i : Int) ∧ m.isInterlockingNode seg.fromNodeId = true
  · rw [if_pos hj]
    cases hrn : reserveNode t seg.fromNodeId σ with
    | mk r σ1 =>
      have h1 : WFRes m σ1 := by
        have := wf_reserveNode h t seg.fromNodeId
        rw [hrn] at this
        exact this
      cases r with
      | blocked => exact h1
      | already => exact wf_reserveIterCore hT h1 t seg
      | reserved => exact wf_reserveIterCore hT h1 t seg
  · rw [if_neg hj]
    exact wf_reserveIterCore hT h t seg

theorem wf_reserveLoop {m : SectionModel} (hT : DirectionTotal m) (t : String) (csi : Int)
    (off look : ℚ) :
    ∀ (segs : List PathSegment) (i : ℕ) (σ : ResState), WFRes m σ →
      WFRes m (reserveLoop m t csi off look i segs σ).2 := by
  intro segs
  induction segs with
  | nil => intro i σ h; exact h
  | cons seg rest ih =>
    intro i σ h
    have hc : reserveLoop m t csi off look i (seg :: rest) σ =
        (if look < seg.cumulativeDistance - off then (noneUpdate, σ)
         else match reserveIter m t csi i seg σ with
           | (some upd, σ1) => (upd, σ1)
           | (none, σ1) => reserveLoop m t csi off look (i + 1) rest σ1) := rfl
    rw [hc]
    by_cases hb : look < seg.cumulativeDistance - off
    · rw [if_pos hb]; exact h
    · rw [if_neg hb]
      cases hri : reserveIter m t csi i seg σ with
      | mk o σ1 =>
        have h1 : WFRes m σ1 := by
          have := wf_reserveIter hT h t csi i seg
          rw [hri] at this
          exact this
        cases o with
        | some upd => exact h1
        | none => exact ih (i + 1) σ1 h1

theorem wf_releaseLoop {m : SectionModel} (t : String) (segs : List PathSegment) (csi : Int)
    (rb : ℚ) :
    ∀ (fuel : ℕ) (σ : ResState), WFRes m σ → WFRes m (releaseLoop m t segs csi rb fuel σ) := by
  intro fuel
  induction fuel with
  | zero => intro σ h; exact h
  | succ fuel ih =>
    intro σ h
    have hc : releaseLoop m t segs csi rb (fuel + 1) σ =
        (if (cursorOf t σ : Int) < csi then
          match segs.get? (cursorOf t σ) with
          | none => σ
          | some seg =>
              if rb < seg.cumulativeDistance + seg.link.length then σ
              else releaseLoop m t segs csi rb fuel (bumpCursor t
                (if m.isInterlockingNode seg.fromNodeId = true
                 then releaseNode t seg.fromNodeId (releaseBlock m t seg.link.trackId σ)
                 else releaseBlock m t seg.link.trackId σ))
         else σ) := rfl
    rw [hc]
    by_cases h1 : (cursorOf t σ : Int) < csi
    · rw [if_pos h1]
      cases hg : segs.get? (cursorOf t σ) with
      | none => exact h
      | some seg =>
        show WFRes m (if rb < seg.cumulativeDistance + seg.link.length then σ
          else releaseLoop m t segs csi rb fuel (bumpCursor t
            (if m.isInterlockingNode seg.fromNodeId = true
             then releaseNode t seg.fromNodeId (releaseBlock m t seg.link.trackId σ)
             else releaseBlock m t seg.link.trackId σ)))
        by_cases h2 : rb < seg.cumulativeDistance + seg.link.length
        · rw [if_pos h2]; exact h
        · rw [if_neg h2]
          refine ih _ (wf_bumpCursor ?_ t)
          by_cases h3 : m.isInterlockingNode seg.fromNodeId = true
          · rw [if_pos h3]
            exact wf_releaseNode (wf_releaseBlock h t seg.link.trackId) t seg.fromNodeId
          · rw [if_neg h3]
            exact wf_releaseBlock h t seg.link.trackId
    · rw [if_neg h1]; exact h

theorem wf_ensureState {m : SectionModel} {σ : ResState} (h : WFRes m σ) (t : String) :
    WFRes m (if (alookup σ.trainState t).isSome then σ
      else { σ with trainState := aset σ.trainState t freshTrainState }) := by
  by_cases hs : (alookup σ.trainState t).isSome = true
  · rw [if_pos hs]; exact h
  · rw [if_neg hs]
    have hnone : alookup σ.trainState t = none := by
      cases halk : alookup σ.trainState t with
      | none => rfl
      | some st => rw [halk] at hs; exact absurd rfl hs
    refine ⟨h.blocksNodup, ?_, ?_, h.count_eq, h.lock_iff, h.owner_iff⟩
    · intro u b
      rw [h.blocks_iff u b]
      unfold ownsBlock
      show _ ↔ ∃ st, alookup (aset σ.trainState t freshTrainState) u = some st ∧ _
      rw [alookup_aset]
      by_cases hu : u = t
      · rw [if_pos hu, hu, hnone]
        simp [freshTrainState]
      · rw [if_neg hu]
    · intro u n
      rw [h.nodes_iff u n]
      unfold ownsNode
      show _ ↔ ∃ st, alookup (aset σ.trainState t freshTrainState) u = some st ∧ _
      rw [alookup_aset]
      by_cases hu : u = t
      · rw [if_pos hu, hu, hnone]
        simp [freshTrainState]
      · rw [if_neg hu]

theorem wf_updateTrain {m : SectionModel} {σ : ResState} (hT : DirectionTotal m)
    (h : WFRes m σ) (t : String) (path : PathResult) (csi : Int) (off look rel : ℚ) :
    WFRes m (updateTrain m t path csi off look rel σ).2 := by
  have hc : updateTrain m t path csi off look rel σ =
      (if path.found = false ∨ path.segments = [] then (noneUpdate, σ)
       else
        reserveLoop m t csi off look csi.toNat (path.segments.drop csi.toNat)
          (releaseLoop m t path.segments csi (off - rel)
            (csi - (cursorOf t (if (alookup σ.trainState t).isSome then σ
              else { σ with trainState := aset σ.trainState t freshTrainState }) : Int)).toNat
            (if (alookup σ.trainState t).isSome then σ
              else { σ with trainState := aset σ.trainState t freshTrainState }))) := rfl
  rw [hc]
  by_cases hg : path.found = false ∨ path.segments = []
  · rw [if_pos hg]; exact h
  · rw [if_neg hg]
    exact wf_reserveLoop hT t csi off look _ _ _
      (wf_releaseLoop t path.segments csi (off - rel) _ _ (wf_ensureState h t))

theorem releaseBlock_bm (m : SectionModel) (t b : String) (σ : ResState) :
    (releaseBlock m t b σ).reservedByBlockId =
      (if alookup σ.reservedByBlockId b = some t then aerase σ.reservedByBlockId b
       else σ.reservedByBlockId) := by
  unfold releaseBlock
  by_cases h0 : alookup σ.reservedByBlockId b = some t
  · rw [if_pos h0, if_pos h0]
    cases m.getSectionId b with
    | none => simp
    | some s =>
      split
      · simp
      · simp only [delReservedBlock_bm, delReservedBlock_nm, delReservedBlock_count,
          delReservedBlock_lockDir, delReservedBlock_lockOwner]
        split_ifs <;> simp
  · rw [if_neg h0, if_neg h0]

theorem releaseBlock_nm (m : SectionModel) (t b : String) (σ : ResState) :
    (releaseBlock m t b σ).reservedByNodeId = σ.reservedByNodeId := by
  unfold releaseBlock
  by_cases h0 : alookup σ.reservedByBlockId b = some t
  · rw [if_pos h0]
    cases m.getSectionId b with
    | none => simp
    | some s =>
      split
      · simp
      · simp only [delReservedBlock_bm, delReservedBlock_nm, delReservedBlock_count,
          delReservedBlock_lockDir, delReservedBlock_lockOwner]
        split_ifs <;> simp
  · rw [if_neg h0]

theorem releaseNode_nm (t n : String) (σ : ResState) :
    (releaseNode t n σ).reservedByNodeId =
      (if alookup σ.reservedByNodeId n = some t then aerase σ.reservedByNodeId n
       else σ.reservedByNodeId) := by
  unfold releaseNode
  by_cases h0 : alookup σ.reservedByNodeId n = some t
  · rw [if_pos h0, if_pos h0]
    simp
  · rw [if_neg h0, if_neg h0]

theorem releaseNode_bm (t n : String) (σ : ResState) :
    (releaseNode t n σ).reservedByBlockId = σ.reservedByBlockId := by
  unfold releaseNode
  by_cases h0 : alookup σ.reservedByNodeId n = some t
  · rw [if_pos h0]
    simp
  · rw [if_neg h0]

theorem releaseBlock_owner_mono {m : SectionModel} {t b : String} {σ : ResState}
    {b' u : String} (h : alookup (releaseBlock m t b σ).reservedByBlockId b' = some u) :
    alookup σ.reservedByBlockId b' = some u := by
  rw [releaseBlock_bm] at h
  by_cases h0 : alookup σ.reservedByBlockId b = some t
  · rw [if_pos h0, alookup_aerase] at h
    by_cases hb : b' = b
    · rw [if_pos hb] at h; cases h
    · rw [if_neg hb] at h; exact h
  · rw [if_neg h0] at h; exact h

theorem releaseBlock_not_owner_self {m : SectionModel} (t b : String) (σ : ResState) :
    alookup (releaseBlock m t b σ).reservedByBlockId b ≠ some t := by
  rw [releaseBlock_bm]
  by_cases h0 : alookup σ.reservedByBlockId b = some t
  · rw [if_pos h0, alookup_aerase_self]
    intro hc; cases hc
  · rw [if_neg h0]; exact h0

theorem releaseNode_owner_mono {t n : String} {σ : ResState} {n' u : String}
    (h : alookup (releaseNode t n σ).reservedByNodeId n' = some u) :
    alookup σ.reservedByNodeId n' = some u := by
  rw [releaseNode_nm] at h
  by_cases h0 : alookup σ.reservedByNodeId n = some t
  · rw [if_pos h0, alookup_aerase] at h
    by_cases hn : n' = n
    · rw [if_pos hn] at h; cases h
    · rw [if_neg hn] at h; exact h
  · rw [if_neg h0] at h; exact h

theorem releaseNode_not_owner_self (t n : String) (σ : ResState) :
    alookup (releaseNode t n σ).reservedByNodeId n ≠ some t := by
  rw [releaseNode_nm]
  by_cases h0 : alookup σ.reservedByNodeId n = some t
  · rw [if_pos h0, alookup_aerase_self]
    intro hc; cases hc
  · rw [if_neg h0]; exact h0

theorem wf_foldl {m : SectionModel} {α : Type} {f : ResState → α → ResState}
    (hf : ∀ σ x, WFRes m σ → WFRes m (f σ x)) :
    ∀ (l : List α) (σ : ResState), WFRes m σ → WFRes m (l.foldl f σ) := by
  intro l
  induction l with
  | nil => intro σ h; exact h
  | cons x rest ih =>
    intro σ h
    rw [List.foldl_cons]
    exact ih _ (hf σ x h)

/-- The release fold over a list of block ids: if every block the train owns
is either listed or kept, afterwards every block it still owns is kept. -/
theorem release_fold_blocks {m : SectionModel} (t : String) (keep : Option String) :
    ∀ (l : List String) (σ : ResState),
      (∀ b, alookup σ.reservedByBlockId b = some t → b ∈ l ∨ keepMatches keep b = true) →
      ∀ b, alookup (l.foldl (fun acc x => if keepMatches keep x then acc
        else releaseBlock m t x acc) σ).reservedByBlockId b = some t →
        keepMatches keep b = true := by
  intro l
  induction l with
  | nil =>
    intro σ hpre b hb
    rcases hpre b hb with h | h
    · cases h
    · exact h
  | cons x rest ih =>
    intro σ hpre b hb
    rw [List.foldl_cons] at hb
    refine ih _ ?_ b hb
    intro b' hb'
    by_cases hx : keepMatches keep x = true
    · rw [if_pos hx] at hb'
      rcases hpre b' hb' with hmem | hk
      · rcases List.mem_cons.mp hmem with rfl | hmem'
        · exact Or.inr hx
        · exact Or.inl hmem'
      · exact Or.inr hk
    · rw [if_neg hx] at hb'
      have hb'' : alookup σ.reservedByBlockId b' = some t := releaseBlock_owner_mono hb'
      rcases hpre b' hb'' with hmem | hk
      · rcases List.mem_cons.mp hmem with rfl | hmem'
        · exact absurd hb' (releaseBlock_not_owner_self t b' σ)
        · exact Or.inl hmem'
      · exact Or.inr hk

/-- The release fold over a list of node ids: if every node the train owns is
listed, afterwards it owns none. -/
theorem release_fold_nodes (t : String) :
    ∀ (l : List String) (σ : ResState),
      (∀ n, alookup σ.reservedByNodeId n = some t → n ∈ l) →
      ∀ n, alookup (l.foldl (fun acc x => releaseNode t x acc) σ).reservedByNodeId n ≠
        some t := by
  intro l
  induction l with
  | nil =>
    intro σ hpre n hn
    exact absurd (hpre n hn) (List.not_mem_nil n)
  | cons x rest ih =>
    intro σ hpre n hn
    rw [List.foldl_cons] at hn
    refine ih _ ?_ n hn
    intro n' hn'
    have hn'' : alookup σ.reservedByNodeId n' = some t := releaseNode_owner_mono hn'
    rcases List.mem_cons.mp (hpre n' hn'') with rfl | hmem'
    · exact absurd hn' (releaseNode_not_owner_self t n' σ)
    · exact hmem'

/-- The ownership-map release fold of clearTrain (the branch without a
per-train state): afterwards the train owns no block. -/
theorem release_entry_fold_blocks {m : SectionModel} (t : String) :
    ∀ (l : List (String × String)) (σ : ResState),
      (∀ b, alookup σ.reservedByBlockId b = some t → (b, t) ∈ l) →
      ∀ b, alookup (l.foldl (fun (acc : ResState) (p : String × String) =>
        if p.2 = t then releaseBlock m t p.1 acc else acc) σ).reservedByBlockId b ≠
        some t := by
  intro l
  induction l with
  | nil =>
    intro σ hpre b hb
    exact absurd (hpre b hb) (List.not_mem_nil _)
  | cons p rest ih =>
    intro σ hpre b hb
    rw [List.foldl_cons] at hb
    refine ih _ ?_ b hb
    intro b' hb'
    by_cases hp : p.2 = t
    · rw [if_pos hp] at hb'
      have hb'' : alookup σ.reservedByBlockId b' = some t := releaseBlock_owner_mono hb'
      rcases List.mem_cons.mp (hpre b' hb'') with heq | hmem'
      · have hbp : b' = p.1 := by rw [← heq]
        rw [hbp] at hb'
        exact absurd hb' (releaseBlock_not_owner_self t p.1 σ)
      · exact hmem'
    · rw [if_neg hp] at hb'
      rcases List.mem_cons.mp (hpre b' hb') with heq | hmem'
      · exact absurd (by rw [← heq] : p.2 = t) hp
      · exact hmem'

/-- The ownership-map release fold of clearTrain for nodes. -/
theorem release_entry_fold_nodes (t : String) :
    ∀ (l : List (String × String)) (σ : ResState),
      (∀ n, alookup σ.reservedByNodeId n = some t → (n, t) ∈ l) →
      ∀ n, alookup (l.foldl (fun (acc : ResState) (p : String × String) =>
        if p.2 = t then releaseNode t p.1 acc else acc) σ).reservedByNodeId n ≠
        some t := by
  intro l
  induction l with
  | nil =>
    intro σ hpre n hn
    exact absurd (hpre n hn) (List.not_mem_nil _)
  | cons p rest ih =>
    intro σ hpre n hn
    rw [List.foldl_cons] at hn
    refine ih _ ?_ n hn
    intro n' hn'
    by_cases hp : p.2 = t
    · rw [if_pos hp] at hn'
      have hn'' : alookup σ.reservedByNodeId n' = some t := releaseNode_owner_mono hn'
      rcases List.mem_cons.mp (hpre n' hn'') with heq | hmem'
      · have hnp : n' = p.1 := by rw [← heq]
        rw [hnp] at hn'
        exact absurd hn' (releaseNode_not_owner_self t p.1 σ)
      · exact hmem'
    · rw [if_neg hp] at hn'
      rcases List.mem_cons.mp (hpre n' hn') with heq | hmem'
      · exact absurd (by rw [← heq] : p.2 = t) hp
      · exact hmem'

theorem fold_release_blocks_nm {m : SectionModel} (t : String) (keep : Option String) :
    ∀ (l : List String) (σ : ResState),
      (l.foldl (fun acc x => if keepMatches keep x then acc
        else releaseBlock m t x acc) σ).reservedByNodeId = σ.reservedByNodeId := by
  intro l
  induction l with
  | nil => intro σ; rfl
  | cons x rest ih =>
    intro σ
    rw [List.foldl_cons, ih]
    by_cases hx : keepMatches keep x = true
    · rw [if_pos hx]
    · rw [if_neg hx, releaseBlock_nm]

theorem fold_release_nodes_bm (t : String) :
    ∀ (l : List String) (σ : ResState),
      (l.foldl (fun acc x => releaseNode t x acc) σ).reservedByBlockId =
        σ.reservedByBlockId := by
  intro l
  induction l with
  | nil => intro σ; rfl
  | cons x rest ih =>
    intro σ
    rw [List.foldl_cons, ih, releaseNode_bm]

theorem entry_fold_release_blocks_nm {m : SectionModel} (t : String) :
    ∀ (l : List (String × String)) (σ : ResState),
      (l.foldl (fun (acc : ResState) (p : String × String) =>
        if p.2 = t then releaseBlock m t p.1 acc else acc) σ).reservedByNodeId =
        σ.reservedByNodeId := by
  intro l
  induction l with
  | nil => intro σ; rfl
  | cons p rest ih =>
    intro σ
    rw [List.foldl_cons, ih]
    by_cases hp : p.2 = t
    · rw [if_pos hp, releaseBlock_nm]
    · rw [if_neg hp]

theorem entry_fold_release_nodes_bm (t : String) :
    ∀ (l : List (String × String)) (σ : ResState),
      (l.foldl (fun (acc : ResState) (p : String × String) =>
        if p.2 = t then releaseNode t p.1 acc else acc) σ).reservedByBlockId =
        σ.reservedByBlockId := by
  intro l
  induction l with
  | nil => intro σ; rfl
  | cons p rest ih =>
    intro σ
    rw [List.foldl_cons, ih]
    by_cases hp : p.2 = t
    · rw [if_pos hp, releaseNode_bm]
    · rw [if_neg hp]

theorem wf_eraseTrainState {m : SectionModel} {σ : ResState} (h : WFRes m σ) (t : String)
    (hb : ∀ b, alookup σ.reservedByBlockId b ≠ some t)
    (hn : ∀ n, alookup σ.reservedByNodeId n ≠ some t) :
    WFRes m { σ with trainState := aerase σ.trainState t } := by
  refine ⟨h.blocksNodup, ?_, ?_, h.count_eq, h.lock_iff, h.owner_iff⟩
  · intro u b
    rw [h.blocks_iff u b]
    unfold ownsBlock
    show _ ↔ ∃ st, alookup (aerase σ.trainState t) u = some st ∧ _
    rw [alookup_aerase]
    by_cases hu : u = t
    · rw [if_pos hu]
      constructor
      · intro hw
        exact absurd ((h.blocks_iff u b).mpr hw) (hu ▸ hb b)
      · rintro ⟨st, hc, _⟩; cases hc
    · rw [if_neg hu]
  · intro u n
    rw [h.nodes_iff u n]
    unfold ownsNode
    show _ ↔ ∃ st, alookup (aerase σ.trainState t) u = some st ∧ _
    rw [alookup_aerase]
    by_cases hu : u = t
    · rw [if_pos hu]
      constructor
      · intro hw
        exact absurd ((h.nodes_iff u n).mpr hw) (hu ▸ hn n)
      · rintro ⟨st, hc, _⟩; cases hc
    · rw [if_neg hu]

theorem wf_setFreshTrainState {m : SectionModel} {σ : ResState} (h : WFRes m σ) (t : String)
    (hb : ∀ b, alookup σ.reservedByBlockId b ≠ some t)
    (hn : ∀ n, alookup σ.reservedByNodeId n ≠ some t) :
    WFRes m { σ with trainState := aset σ.trainState t freshTrainState } := by
  refine ⟨h.blocksNodup, ?_, ?_, h.count_eq, h.lock_iff, h.owner_iff⟩
  · intro u b
    rw [h.blocks_iff u b]
    unfold ownsBlock
    show _ ↔ ∃ st, alookup (aset σ.trainState t freshTrainState) u = some st ∧ _
    rw [alookup_aset]
    by_cases hu : u = t
    · rw [if_pos hu]
      constructor
      · intro hw
        exact absurd ((h.blocks_iff u b).mpr hw) (hu ▸ hb b)
      · rintro ⟨st, hc, hmem⟩
        injection hc with hc
        subst hc
        simp [freshTrainState] at hmem
    · rw [if_neg hu]
  · intro u n
    rw [h.nodes_iff u n]
    unfold ownsNode
    show _ ↔ ∃ st, alookup (aset σ.trainState t freshTrainState) u = some st ∧ _
    rw [alookup_aset]
    by_cases hu : u = t
    · rw [if_pos hu]
      constructor
      · intro hw
        exact absurd ((h.nodes_iff u n).mpr hw) (hu ▸ hn n)
      · rintro ⟨st, hc, hmem⟩
        injection hc with hc
        subst hc
        simp [freshTrainState] at hmem
    · rw [if_neg hu]

/-- clearTrain preserves the invariant and leaves the train owning nothing,
with its per-train state deleted. -/
theorem wf_clearTrain {m : SectionModel} {σ : ResState} (h : WFRes m σ) (t : String) :
    WFRes m (clearTrain m t σ) ∧
    (∀ b, alookup (clearTrain m t σ).reservedByBlockId b ≠ some t) ∧
    (∀ n, alookup (clearTrain m t σ).reservedByNodeId n ≠ some t) ∧
    alookup (clearTrain m t σ).trainState t = none := by
  unfold clearTrain
  cases hst : alookup σ.trainState t with
  | some st =>
    have hfb : ∀ σ0 x, WFRes m σ0 → WFRes m (releaseBlock m t x σ0) :=
      fun σ0 x h0 => wf_releaseBlock h0 t x
    have hwa : WFRes m (st.reservedBlocks.foldl (fun acc b => releaseBlock m t b acc) σ) :=
      wf_foldl hfb st.reservedBlocks σ h
    have hpreb : ∀ b, alookup σ.reservedByBlockId b = some t →
        b ∈ st.reservedBlocks ∨ keepMatches none b = true := by
      intro b hb
      rcases (h.blocks_iff t b).mp hb with ⟨st', hst', hmem⟩
      rw [hst] at hst'
      injection hst' with hst'
      exact Or.inl (hst' ▸ hmem)
    have hclearb : ∀ b, alookup (st.reservedBlocks.foldl
        (fun acc b => releaseBlock m t b acc) σ).reservedByBlockId b ≠ some t := by
      intro b hb
      have := release_fold_blocks (m := m) t none st.reservedBlocks σ hpreb b hb
      simp [keepMatches] at this
    have hwn : WFRes m (st.reservedNodes.foldl (fun acc n => releaseNode t n acc)
        (st.reservedBlocks.foldl (fun acc b => releaseBlock m t b acc) σ)) :=
      wf_foldl (fun σ0 x h0 => wf_releaseNode h0 t x) st.reservedNodes _ hwa
    have hpren : ∀ n, alookup (st.reservedBlocks.foldl
        (fun acc b => releaseBlock m t b acc) σ).reservedByNodeId n = some t →
        n ∈ st.reservedNodes := by
      intro n hn
      rw [show (st.reservedBlocks.foldl (fun acc b => releaseBlock m t b acc)
          σ).reservedByNodeId = σ.reservedByNodeId from
        fold_release_blocks_nm (m := m) t none st.reservedBlocks σ] at hn
      rcases (h.nodes_iff t n).mp hn with ⟨st', hst', hmem⟩
      rw [hst] at hst'
      injection hst' with hst'
      exact hst' ▸ hmem
    have hclearn : ∀ n, alookup (st.reservedNodes.foldl (fun acc n => releaseNode t n acc)
        (st.reservedBlocks.foldl (fun acc b => releaseBlock m t b acc)
          σ)).reservedByNodeId n ≠ some t :=
      release_fold_nodes t st.reservedNodes _ hpren
    have hclearb2 : ∀ b, alookup (st.reservedNodes.foldl (fun acc n => releaseNode t n acc)
        (st.reservedBlocks.foldl (fun acc b => releaseBlock m t b acc)
          σ)).reservedByBlockId b ≠ some t := by
      intro b
      rw [fold_release_nodes_bm t st.reservedNodes _]
      exact hclearb b
    exact ⟨wf_eraseTrainState hwn t hclearb2 hclearn, hclearb2, hclearn, by
      show alookup (aerase _ t) t = none
      exact alookup_aerase_self _ t⟩
  | none =>
    have hfb : ∀ σ0 (p : String × String), WFRes m σ0 →
        WFRes m (if p.2 = t then releaseBlock m t p.1 σ0 else σ0) := by
      intro σ0 p h0
      by_cases hp : p.2 = t
      · rw [if_pos hp]; exact wf_releaseBlock h0 t p.1
      · rw [if_neg hp]; exact h0
    have hwa : WFRes m (σ.reservedByBlockId.foldl
        (fun (acc : ResState) (p : String × String) =>
          if p.2 = t then releaseBlock m t p.1 acc else acc) σ) :=
      wf_foldl hfb σ.reservedByBlockId σ h
    have hclearb : ∀ b, alookup (σ.reservedByBlockId.foldl
        (fun (acc : ResState) (p : String × String) =>
          if p.2 = t then releaseBlock m t p.1 acc else acc) σ).reservedByBlockId b ≠
        some t :=
      release_entry_fold_blocks t σ.reservedByBlockId σ
        (fun b hb => mem_of_alookup_eq_some hb)
    have hwn : WFRes m (σ.reservedByNodeId.foldl
        (fun (acc : ResState) (p : String × String) =>
          if p.2 = t then releaseNode t p.1 acc else acc)
        (σ.reservedByBlockId.foldl
          (fun (acc : ResState) (p : String × String) =>
            if p.2 = t then releaseBlock m t p.1 acc else acc) σ)) := by
      refine wf_foldl ?_ σ.reservedByNodeId _ hwa
      intro σ0 p h0
      by_cases hp : p.2 = t
      · rw [if_pos hp]; exact wf_releaseNode h0 t p.1
      · rw [if_neg hp]; exact h0
    have hpren : ∀ n, alookup (σ.reservedByBlockId.foldl
        (fun (acc : ResState) (p : String × String) =>
          if p.2 = t then releaseBlock m t p.1 acc else acc) σ).reservedByNodeId n =
        some t → (n, t) ∈ σ.reservedByNodeId := by
      intro n hn
      rw [entry_fold_release_blocks_nm (m := m) t σ.reservedByBlockId σ] at hn
      exact mem_of_alookup_eq_some hn
    have hclearn : ∀ n, alookup (σ.reservedByNodeId.foldl
        (fun (acc : ResState) (p : String × String) =>
          if p.2 = t then releaseNode t p.1 acc else acc)
        (σ.reservedByBlockId.foldl
          (fun (acc : ResState) (p : String × String) =>
            if p.2 = t then releaseBlock m t p.1 acc else acc) σ)).reservedByNodeId n ≠
        some t :=
      release_entry_fold_nodes t σ.reservedByNodeId _ hpren
    have hclearb2 : ∀ b, alookup (σ.reservedByNodeId.foldl
        (fun (acc : ResState) (p : String × String) =>
          if p.2 = t then releaseNode t p.1 acc else acc)
        (σ.reservedByBlockId.foldl
          (fun (acc : ResState) (p : String × String) =>
            if p.2 = t then releaseBlock m t p.1 acc else acc) σ)).reservedByBlockId b ≠
        some t := by
      intro b
      rw [entry_fold_release_nodes_bm t σ.reservedByNodeId _]
      exact hclearb b
    exact ⟨wf_eraseTrainState hwn t hclearb2 hclearn, hclearb2, hclearn, by
      show alookup (aerase _ t) t = none
      exact alookup_aerase_self _ t⟩

theorem wf_setTrainPath {m : SectionModel} {σ : ResState} (h : WFRes m σ) (t : String) :
    WFRes m (setTrainPath m t σ) := by
  unfold setTrainPath
  obtain ⟨hwf, hb, hn, _⟩ := wf_clearTrain h t
  exact wf_setFreshTrainState hwf t hb hn

theorem wf_yieldTrain {m : SectionModel} {σ : ResState} (h : WFRes m σ) (t : String)
    (keep : Option String) : WFRes m (yieldTrain m t keep σ) := by
  unfold yieldTrain
  cases hst : alookup σ.trainState t with
  | none => exact h
  | some st =>
    refine wf_foldl (fun σ0 x h0 => wf_releaseNode h0 t x) st.reservedNodes _ ?_
    refine wf_foldl ?_ st.reservedBlocks σ h
    intro σ0 x h0
    by_cases hx : keepMatches keep x = true
    · rw [if_pos hx]; exact h0
    · rw [if_neg hx]; exact wf_releaseBlock h0 t x

/-- The states the reservation system can reach from its initial state by its
public operations. -/
inductive Reachable (m : SectionModel) : ResState → Prop
  | init : Reachable m initRes
  | setPath (t : String) {σ : ResState} (h : Reachable m σ) :
      Reachable m (setTrainPath m t σ)
  | updated (t : String) (path : PathResult) (csi : Int) (off look rel : ℚ) {σ : ResState}
      (h : Reachable m σ) : Reachable m (updateTrain m t path csi off look rel σ).2
  | yielded (t : String) (keep : Option String) {σ : ResState} (h : Reachable m σ) :
      Reachable m (yieldTrain m t keep σ)
  | cleared (t : String) {σ : ResState} (h : Reachable m σ) :
      Reachable m (clearTrain m t σ)

/-- Every reachable reservation state is well formed (under a direction-total
section model). -/
theorem reachable_wf {m : SectionModel} (hT : DirectionTotal m) {σ : ResState}
    (h : Reachable m σ) : WFRes m σ := by
  induction h with
  | init => exact wf_initRes m
  | setPath t h ih => exact wf_setTrainPath ih t
  | updated t path csi off look rel h ih => exact wf_updateTrain hT ih t path csi off look rel
  | yielded t keep h ih => exact wf_yieldTrain ih t keep
  | cleared t h ih => exact (wf_clearTrain ih t).1

/-- C3: in every reachable reservation state over a direction-total section
model, every block and every junction node has at most one owning train, a
section's direction lock exists exactly while at least one block of the
section is reserved, and releasing the last reserved block of a section
clears the section's direction lock and owner. -/
theorem c3_reservation_invariants (m : SectionModel) (σ : ResState)
    (hT : DirectionTotal m) (hσ : Reachable m σ) :
    (∀ t1 t2 st1 st2 b, alookup σ.trainState t1 = some st1 →
      alookup σ.trainState t2 = some st2 →
      b ∈ st1.reservedBlocks → b ∈ st2.reservedBlocks → t1 = t2) ∧
    (∀ t1 t2 st1 st2 n, alookup σ.trainState t1 = some st1 →
      alookup σ.trainState t2 = some st2 →
      n ∈ st1.reservedNodes → n ∈ st2.reservedNodes → t1 = t2) ∧
    (∀ s, (alookup σ.sectionLockDirection s).isSome ↔
      ∃ b, m.getSectionId b = some s ∧ (alookup σ.reservedByBlockId b).isSome) ∧
    (∀ t b s, alookup σ.reservedByBlockId b = some t → m.getSectionId b = some s →
      (∀ b', b' ≠ b → m.getSectionId b' = some s → alookup σ.reservedByBlockId b' = none) →
      alookup (releaseBlock m t b σ).sectionLockDirection s = none ∧
      alookup (releaseBlock m t b σ).sectionLockOwner s = none) := by
  have h := reachable_wf hT hσ
  refine ⟨?_, ?_, ?_, ?_⟩
  · intro t1 t2 st1 st2 b h1 h2 hb1 hb2
    have e1 : alookup σ.reservedByBlockId b = some t1 :=
      (h.blocks_iff t1 b).mpr ⟨st1, h1, hb1⟩
    have e2 : alookup σ.reservedByBlockId b = some t2 :=
      (h.blocks_iff t2 b).mpr ⟨st2, h2, hb2⟩
    rw [e1] at e2
    injection e2
  · intro t1 t2 st1 st2 n h1 h2 hn1 hn2
    have e1 : alookup σ.reservedByNodeId n = some t1 :=
      (h.nodes_iff t1 n).mpr ⟨st1, h1, hn1⟩
    have e2 : alookup σ.reservedByNodeId n = some t2 :=
      (h.nodes_iff t2 n).mpr ⟨st2, h2, hn2⟩
    rw [e1] at e2
    injection e2
  · intro s
    rw [h.lock_iff s, countVal_pos_iff]
  · intro t b s hb hsec honly
    have hcnt : countVal m s σ.reservedByBlockId =
        countVal m s (aerase σ.reservedByBlockId b) + 1 := by
      have hc := countVal_aerase (m := m) (s := s) h.blocksNodup hb
      rw [if_pos hsec] at hc
      exact hc
    have hzero : countVal m s (aerase σ.reservedByBlockId b) = 0 := by
      by_contra hnz
      rcases countVal_pos_iff.mp (Nat.pos_of_ne_zero hnz) with ⟨b', hsec', hsome⟩
      by_cases hbb : b' = b
      · rw [hbb, alookup_aerase_self] at hsome
        cases hsome
      · rw [alookup_aerase_ne _ _ hbb, honly b' hbb hsec'] at hsome
        cases hsome
    have hcur : (alookup (delReservedBlock t b
        { σ with reservedByBlockId := aerase σ.reservedByBlockId b
        }).sectionReservedCount s).getD 0 = (1 : Int) := by
      rw [delReservedBlock_count]
      show (alookup σ.sectionReservedCount s).getD 0 = (1 : Int)
      rw [h.count_eq s, hcnt, hzero]
      simp
    have hred : releaseBlock m t b σ =
        (if (max 0 (((alookup (delReservedBlock t b
              { σ with reservedByBlockId := aerase σ.reservedByBlockId b
              }).sectionReservedCount s).getD 0) - 1) ≤ (0 : Int)) then
          { (delReservedBlock t b
              { σ with reservedByBlockId := aerase σ.reservedByBlockId b }) with
            sectionReservedCount := aerase (delReservedBlock t b
              { σ with reservedByBlockId := aerase σ.reservedByBlockId b
              }).sectionReservedCount s,
            sectionLockDirection := aerase (delReservedBlock t b
              { σ with reservedByBlockId := aerase σ.reservedByBlockId b
              }).sectionLockDirection s,
            sectionLockOwner := aerase (delReservedBlock t b
              { σ with reservedByBlockId := aerase σ.reservedByBlockId b
              }).sectionLockOwner s }
        else
          { (delReservedBlock t b
              { σ with reservedByBlockId := aerase σ.reservedByBlockId b }) with
            sectionReservedCount := aset (delReservedBlock t b
              { σ with reservedByBlockId := aerase σ.reservedByBlockId b
              }).sectionReservedCount s
              (max 0 (((alookup (delReservedBlock t b
                { σ with reservedByBlockId := aerase σ.reservedByBlockId b
                }).sectionReservedCount s).getD 0) - 1)) }) := by
      unfold releaseBlock
      rw [if_pos hb, hsec]
    rw [hred, hcur]
    rw [if_pos (by norm_num)]
    constructor
    · show alookup (aerase (delReservedBlock t b
        { σ with reservedByBlockId := aerase σ.reservedByBlockId b
        }).sectionLockDirection s) s = none
      exact alookup_aerase_self _ s
    · show alookup (aerase (delReservedBlock t b
        { σ with reservedByBlockId := aerase σ.reservedByBlockId b
        }).sectionLockOwner s) s = none
      exact alookup_aerase_self _ s

/-- A direction-total witness section model: the single block e1 forms the
section s, always traversed forward; J is the only interlocking node. -/
def c3WitnessModel : SectionModel :=
  { isInterlockingNode := fun n => n = "J",
    getSectionId := fun b => if b = "e1" then some "s" else none,
    getSectionDirection := fun b _ _ => if b = "e1" then some Dir.forward else none }

theorem c3WitnessModel_total : DirectionTotal c3WitnessModel := by
  intro b f t hx
  by_cases hb : b = "e1"
  · show (if b = "e1" then some Dir.forward else none).isSome = true
    rw [if_pos hb]
    rfl
  · exfalso
    have hx' : (if b = "e1" then some "s" else none).isSome = true := hx
    rw [if_neg hb] at hx'
    cases hx'

/-- Witness for the C3 theorem: the lock-iff-reserved-block property
instantiated at the initial state of the witness model. -/
theorem c3_reservation_invariants_witness :
    (alookup initRes.sectionLockDirection "s").isSome ↔
      ∃ b, c3WitnessModel.getSectionId b = some "s" ∧
        (alookup initRes.reservedByBlockId b).isSome :=
  (c3_reservation_invariants c3WitnessModel initRes c3WitnessModel_total
    Reachable.init).2.2.1 "s"

/-! ## Frame and monotonicity facts of the reservation operations -/

/-- The frame property of an operation performed for train t: every other
train's per-train state, block ownership and node ownership are untouched. -/
def FramePres (t : String) (σ σ' : ResState) : Prop :=
  (∀ u, u ≠ t → alookup σ'.trainState u = alookup σ.trainState u) ∧
  (∀ u b, u ≠ t → (alookup σ'.reservedByBlockId b = some u ↔
    alookup σ.reservedByBlockId b = some u)) ∧
  (∀ u n, u ≠ t → (alookup σ'.reservedByNodeId n = some u ↔
    alookup σ.reservedByNodeId n = some u))

theorem framePres_refl (t : String) (σ : ResState) : FramePres t σ σ :=
  ⟨fun _ _ => rfl, fun _ _ _ => Iff.rfl, fun _ _ _ => Iff.rfl⟩

theorem framePres_trans {t : String} {σ1 σ2 σ3 : ResState} (h1 : FramePres t σ1 σ2)
    (h2 : FramePres t σ2 σ3) : FramePres t σ1 σ3 :=
  ⟨fun u hu => (h2.1 u hu).trans (h1.1 u hu),
   fun u b hu => (h2.2.1 u b hu).trans (h1.2.1 u b hu),
   fun u n hu => (h2.2.2 u n hu).trans (h1.2.2 u n hu)⟩

theorem releaseBlock_ts (m : SectionModel) (t b : String) (σ : ResState) :
    (releaseBlock m t b σ).trainState =
      (if alookup σ.reservedByBlockId b = some t then
        (delReservedBlock t b
          { σ with reservedByBlockId := aerase σ.reservedByBlockId b }).trainState
       else σ.trainState) := by
  unfold releaseBlock
  by_cases h0 : alookup σ.reservedByBlockId b = some t
  · rw [if_pos h0, if_pos h0]
    cases m.getSectionId b with
    | none => simp
    | some s =>
      split
      · simp
      · simp only []
        split_ifs <;> simp
  · rw [if_neg h0, if_neg h0]

theorem releaseNode_ts (t n : String) (σ : ResState) :
    (releaseNode t n σ).trainState =
      (if alookup σ.reservedByNodeId n = some t then
        (delReservedNode t n
          { σ with reservedByNodeId := aerase σ.reservedByNodeId n }).trainState
       else σ.trainState) := by
  unfold releaseNode
  by_cases h0 : alookup σ.reservedByNodeId n = some t
  · rw [if_pos h0, if_pos h0]
  · rw [if_neg h0, if_neg h0]

theorem delReservedBlock_ts_ne {t b : String} {σ : ResState} {u : String} (hu : u ≠ t) :
    alookup (delReservedBlock t b σ).trainState u = alookup σ.trainState u := by
  unfold delReservedBlock
  cases alookup σ.trainState t with
  | none => rfl
  | some st => exact alookup_aset_ne _ _ _ hu

theorem delReservedNode_ts_ne {t n : String} {σ : ResState} {u : String} (hu : u ≠ t) :
    alookup (delReservedNode t n σ).trainState u = alookup σ.trainState u := by
  unfold delReservedNode
  cases alookup σ.trainState t with
  | none => rfl
  | some st => exact alookup_aset_ne _ _ _ hu

theorem bumpCursor_ts_ne {t : String} {σ : ResState} {u : String} (hu : u ≠ t) :
    alookup (bumpCursor t σ).trainState u = alookup σ.trainState u := by
  unfold bumpCursor
  cases alookup σ.trainState t with
  | none => rfl
  | some st => exact alookup_aset_ne _ _ _ hu

theorem framePres_releaseBlock (m : SectionModel) (t b : String) (σ : ResState) :
    FramePres t σ (releaseBlock m t b σ) := by
  refine ⟨?_, ?_, ?_⟩
  · intro u hu
    rw [releaseBlock_ts]
    by_cases h0 : alookup σ.reservedByBlockId b = some t
    · rw [if_pos h0]
      exact delReservedBlock_ts_ne hu
    · rw [if_neg h0]
  · intro u b' hu
    rw [releaseBlock_bm]
    by_cases h0 : alookup σ.reservedByBlockId b = some t
    · rw [if_pos h0, alookup_aerase]
      by_cases hb : b' = b
      · rw [if_pos hb]
        constructor
        · intro hc; cases hc
        · intro hc
          rw [hb, h0] at hc
          injection hc with hc
          exact absurd hc.symm hu
      · rw [if_neg hb]
    · rw [if_neg h0]
  · intro u n hu
    rw [releaseBlock_nm]

theorem framePres_releaseNode (t n : String) (σ : ResState) :
    FramePres t σ (releaseNode t n σ) := by
  refine ⟨?_, ?_, ?_⟩
  · intro u hu
    rw [releaseNode_ts]
    by_cases h0 : alookup σ.reservedByNodeId n = some t
    · rw [if_pos h0]
      exact delReservedNode_ts_ne hu
    · rw [if_neg h0]
  · intro u b hu
    rw [releaseNode_bm]
  · intro u n' hu
    rw [releaseNode_nm]
    by_cases h0 : alookup σ.reservedByNodeId n = some t
    · rw [if_pos h0, alookup_aerase]
      by_cases hn : n' = n
      · rw [if_pos hn]
        constructor
        · intro hc; cases hc
        · intro hc
          rw [hn, h0] at hc
          injection hc with hc
          exact absurd hc.symm hu
      · rw [if_neg hn]
    · rw [if_neg h0]

theorem framePres_bumpCursor (t : String) (σ : ResState) :
    FramePres t σ (bumpCursor t σ) := by
  refine ⟨?_, ?_, ?_⟩
  · intro u hu
    exact bumpCursor_ts_ne hu
  · intro u b hu
    rw [bumpCursor_bm]
  · intro u n hu
    rw [bumpCursor_nm]

theorem framePres_ensureState (t : String) (σ : ResState) :
    FramePres t σ (if (alookup σ.trainState t).isSome then σ
      else { σ with trainState := aset σ.trainState t freshTrainState }) := by
  by_cases hs : (alookup σ.trainState t).isSome = true
  · rw [if_pos hs]
    exact framePres_refl t σ
  · rw [if_neg hs]
    exact ⟨fun u hu => alookup_aset_ne _ _ _ hu, fun _ _ _ => Iff.rfl, fun _ _ _ => Iff.rfl⟩

theorem reserveIterBlock_bm (t : String) (seg : PathSegment) (sid : Option String)
    (dir : Option Dir) (σ : ResState) :
    (reserveIterBlock t seg sid dir σ).2.reservedByBlockId =
      (reserveBlock t seg.link.trackId σ).2.reservedByBlockId := by
  unfold reserveIterBlock
  cases reserveBlock t seg.link.trackId σ with
  | mk r σ1 =>
    cases r with
    | blocked => rfl
    | already => rfl
    | reserved =>
      cases sid with
      | none => rfl
      | some s =>
        cases dir with
        | none => rfl
        | some d =>
          show ((if (alookup σ1.sectionLockDirection s).isSome = true then
              ((none : Option ReservationUpdate),
                { σ1 with sectionReservedCount := aset σ1.sectionReservedCount s ((alookup σ1.sectionReservedCount s).getD 0 + 1) })
            else
              ((none : Option ReservationUpdate),
                { σ1 with
                  sectionReservedCount := aset σ1.sectionReservedCount s ((alookup σ1.sectionReservedCount s).getD 0 + 1),
                  sectionLockDirection := aset σ1.sectionLockDirection s d,
                  sectionLockOwner := aset σ1.sectionLockOwner s t })).2).reservedByBlockId =
            σ1.reservedByBlockId
          split <;> rfl

theorem reserveIterBlock_nm (t : String) (seg : PathSegment) (sid : Option String)
    (dir : Option Dir) (σ : ResState) :
    (reserveIterBlock t seg sid dir σ).2.reservedByNodeId =
      (reserveBlock t seg.link.trackId σ).2.reservedByNodeId := by
  unfold reserveIterBlock
  cases reserveBlock t seg.link.trackId σ with
  | mk r σ1 =>
    cases r with
    | blocked => rfl
    | already => rfl
    | reserved =>
      cases sid with
      | none => rfl
      | some s =>
        cases dir with
        | none => rfl
        | some d =>
          show ((if (alookup σ1.sectionLockDirection s).isSome = true then
              ((none : Option ReservationUpdate),
                { σ1 with sectionReservedCount := aset σ1.sectionReservedCount s ((alookup σ1.sectionReservedCount s).getD 0 + 1) })
            else
              ((none : Option ReservationUpdate),
                { σ1 with
                  sectionReservedCount := aset σ1.sectionReservedCount s ((alookup σ1.sectionReservedCount s).getD 0 + 1),
                  sectionLockDirection := aset σ1.sectionLockDirection s d,
                  sectionLockOwner := aset σ1.sectionLockOwner s t })).2).reservedByNodeId =
            σ1.reservedByNodeId
          split <;> rfl

theorem reserveIterBlock_ts (t : String) (seg : PathSegment) (sid : Option String)
    (dir : Option Dir) (σ : ResState) :
    (reserveIterBlock t seg sid dir σ).2.trainState =
      (reserveBlock t seg.link.trackId σ).2.trainState := by
  unfold reserveIterBlock
  cases reserveBlock t seg.link.trackId σ with
  | mk r σ1 =>
    cases r with
    | blocked => rfl
    | already => rfl
    | reserved =>
      cases sid with
      | none => rfl
      | some s =>
        cases dir with
        | none => rfl
        | some d =>
          show ((if (alookup σ1.sectionLockDirection s).isSome = true then
              ((none : Option ReservationUpdate),
                { σ1 with sectionReservedCount := aset σ1.sectionReservedCount s ((alookup σ1.sectionReservedCount s).getD 0 + 1) })
            else
              ((none : Option ReservationUpdate),
                { σ1 with
                  sectionReservedCount := aset σ1.sectionReservedCount s ((alookup σ1.sectionReservedCount s).getD 0 + 1),
                  sectionLockDirection := aset σ1.sectionLockDirection s d,
                  sectionLockOwner := aset σ1.sectionLockOwner s t })).2).trainState =
            σ1.trainState
          split <;> rfl

theorem reserveBlock_nm (t b : String) (σ : ResState) :
    (reserveBlock t b σ).2.reservedByNodeId = σ.reservedByNodeId := by
  unfold reserveBlock
  cases alookup σ.reservedByBlockId b with
  | none => rfl
  | some o =>
    show (if o = t then (ReserveResult.already, σ)
      else (ReserveResult.blocked, σ)).2.reservedByNodeId = σ.reservedByNodeId
    split <;> rfl

theorem reserveBlock_lockDir (t b : String) (σ : ResState) :
    (reserveBlock t b σ).2.sectionLockDirection = σ.sectionLockDirection := by
  unfold reserveBlock
  cases alookup σ.reservedByBlockId b with
  | none => rfl
  | some o =>
    show (if o = t then (ReserveResult.already, σ)
      else (ReserveResult.blocked, σ)).2.sectionLockDirection = σ.sectionLockDirection
    split <;> rfl

theorem reserveNode_bm (t n : String) (σ : ResState) :
    (reserveNode t n σ).2.reservedByBlockId = σ.reservedByBlockId := by
  unfold reserveNode
  cases alookup σ.reservedByNodeId n with
  | none => rfl
  | some o =>
    show (if o = t then (ReserveResult.already, σ)
      else (ReserveResult.blocked, σ)).2.reservedByBlockId = σ.reservedByBlockId
    split <;> rfl

theorem reserveNode_lockDir (t n : String) (σ : ResState) :
    (reserveNode t n σ).2.sectionLockDirection = σ.sectionLockDirection := by
  unfold reserveNode
  cases alookup σ.reservedByNodeId n with
  | none => rfl
  | some o =>
    show (if o = t then (ReserveResult.already, σ)
      else (ReserveResult.blocked, σ)).2.sectionLockDirection = σ.sectionLockDirection
    split <;> rfl

theorem framePres_reserveBlock (t b : String) (σ : ResState) :
    FramePres t σ (reserveBlock t b σ).2 := by
  unfold reserveBlock
  cases halk : alookup σ.reservedByBlockId b with
  | some o =>
    show FramePres t σ (if o = t then (ReserveResult.already, σ)
      else (ReserveResult.blocked, σ)).2
    by_cases ho : o = t
    · rw [if_pos ho]; exact framePres_refl t σ
    · rw [if_neg ho]; exact framePres_refl t σ
  | none =>
    show FramePres t σ (addReservedBlock t b
      { σ with reservedByBlockId := aset σ.reservedByBlockId b t })
    refine ⟨?_, ?_, ?_⟩
    · intro u hu
      show alookup (aset σ.trainState t _) u = _
      exact alookup_aset_ne _ _ _ hu
    · intro u b' hu
      show alookup (aset σ.reservedByBlockId b t) b' = some u ↔ _
      rw [alookup_aset]
      by_cases hb : b' = b
      · rw [if_pos hb, hb, halk]
        constructor
        · intro hc
          injection hc with hc
          exact absurd hc.symm hu
        · intro hc; cases hc
      · rw [if_neg hb]
    · intro u n hu
      exact Iff.rfl

theorem framePres_reserveNode (t n : String) (σ : ResState) :
    FramePres t σ (reserveNode t n σ).2 := by
  unfold reserveNode
  cases halk : alookup σ.reservedByNodeId n with
  | some o =>
    show FramePres t σ (if o = t then (ReserveResult.already, σ)
      else (ReserveResult.blocked, σ)).2
    by_cases ho : o = t
    · rw [if_pos ho]; exact framePres_refl t σ
    · rw [if_neg ho]; exact framePres_refl t σ
  | none =>
    show FramePres t σ (addReservedNode t n
      { σ with reservedByNodeId := aset σ.reservedByNodeId n t })
    refine ⟨?_, ?_, ?_⟩
    · intro u hu
      show alookup (aset σ.trainState t _) u = _
      exact alookup_aset_ne _ _ _ hu
    · intro u b hu
      exact Iff.rfl
    · intro u n' hu
      show alookup (aset σ.reservedByNodeId n t) n' = some u ↔ _
      rw [alookup_aset]
      by_cases hn : n' = n
      · rw [if_pos hn, hn, halk]
        constructor
        · intro hc
          injection hc with hc
          exact absurd hc.symm hu
        · intro hc; cases hc
      · rw [if_neg hn]

theorem framePres_reserveIterBlock (t : String) (seg : PathSegment) (sid : Option String)
    (dir : Option Dir) (σ : ResState) :
    FramePres t σ (reserveIterBlock t seg sid dir σ).2 := by
  have hfr := framePres_reserveBlock t seg.link.trackId σ
  refine ⟨?_, ?_, ?_⟩
  · intro u hu
    rw [reserveIterBlock_ts]
    exact hfr.1 u hu
  · intro u b hu
    rw [reserveIterBlock_bm]
    exact hfr.2.1 u b hu
  · intro u n hu
    rw [reserveIterBlock_nm]
    exact hfr.2.2 u n hu

theorem framePres_reserveIterCore (m : SectionModel) (t : String) (seg : PathSegment)
    (σ : ResState) : FramePres t σ (reserveIterCore m t seg σ).2 := by
  have hc : reserveIterCore m t seg σ =
      (match sectionBlocked σ (m.getSectionId seg.link.trackId)
          (m.getSectionDirection seg.link.trackId seg.fromNodeId seg.toNodeId) with
       | some s =>
          (some (blockedUpd seg (alookup σ.sectionLockOwner s) .section_direction s), σ)
       | none => reserveIterBlock t seg (m.getSectionId seg.link.trackId)
           (m.getSectionDirection seg.link.trackId seg.fromNodeId seg.toNodeId) σ) := rfl
  rw [hc]
  cases sectionBlocked σ (m.getSectionId seg.link.trackId)
      (m.getSectionDirection seg.link.trackId seg.fromNodeId seg.toNodeId) with
  | some s => exact framePres_refl t σ
  | none => exact framePres_reserveIterBlock t seg _ _ σ

theorem framePres_reserveIter (m : SectionModel) (t : String) (csi : Int) (i : ℕ)
    (seg : PathSegment) (σ : ResState) : FramePres t σ (reserveIter m t csi i seg σ).2 := by
  unfold reserveIter
  by_cases hj : csi < (i : Int) ∧ m.isInterlockingNode seg.fromNodeId = true
  · rw [if_pos hj]
    cases hrn : reserveNode t seg.fromNodeId σ with
    | mk r σ1 =>
      have h1 : FramePres t σ σ1 := by
        have := framePres_reserveNode t seg.fromNodeId σ
        rw [hrn] at this
        exact this
      cases r with
      | blocked => exact h1
      | already => exact framePres_trans h1 (framePres_reserveIterCore m t seg σ1)
      | reserved => exact framePres_trans h1 (framePres_reserveIterCore m t seg σ1)
  · rw [if_neg hj]
    exact framePres_reserveIterCore m t seg σ

theorem framePres_reserveLoop (m : SectionModel) (t : String) (csi : Int) (off look : ℚ) :
    ∀ (segs : List PathSegment) (i : ℕ) (σ : ResState),
      FramePres t σ (reserveLoop m t csi off look i segs σ).2 := by
  intro segs
  induction segs with
  | nil => intro i σ; exact framePres_refl t σ
  | cons seg rest ih =>
    intro i σ
    have hc : reserveLoop m t csi off look i (seg :: rest) σ =
        (if look < seg.cumulativeDistance - off then (noneUpdate, σ)
         else match reserveIter m t csi i seg σ with
           | (some upd, σ1) => (upd, σ1)
           | (none, σ1) => reserveLoop m t csi off look (i + 1) rest σ1) := rfl
    rw [hc]
    by_cases hb : look < seg.cumulativeDistance - off
    · rw [if_pos hb]; exact framePres_refl t σ
    · rw [if_neg hb]
      cases hri : reserveIter m t csi i seg σ with
      | mk o σ1 =>
        have h1 : FramePres t σ σ1 := by
          have := framePres_reserveIter m t csi i seg σ
          rw [hri] at this
          exact this
        cases o with
        | some upd => exact h1
        | none => exact framePres_trans h1 (ih (i + 1) σ1)

theorem framePres_releaseLoop (m : SectionModel) (t : String) (segs : List PathSegment)
    (csi : Int) (rb : ℚ) :
    ∀ (fuel : ℕ) (σ : ResState), FramePres t σ (releaseLoop m t segs csi rb fuel σ) := by
  intro fuel
  induction fuel with
  | zero => intro σ; exact framePres_refl t σ
  | succ fuel ih =>
    intro σ
    have hc : releaseLoop m t segs csi rb (fuel + 1) σ =
        (if (cursorOf t σ : Int) < csi then
          match segs.get? (cursorOf t σ) with
          | none => σ
          | some seg =>
              if rb < seg.cumulativeDistance + seg.link.length then σ
              else releaseLoop m t segs csi rb fuel (bumpCursor t
                (if m.isInterlockingNode seg.fromNodeId = true
                 then releaseNode t seg.fromNodeId (releaseBlock m t seg.link.trackId σ)
                 else releaseBlock m t seg.link.trackId σ))
         else σ) := rfl
    rw [hc]
    by_cases h1 : (cursorOf t σ : Int) < csi
    · rw [if_pos h1]
      cases segs.get? (cursorOf t σ) with
      | none => exact framePres_refl t σ
      | some seg =>
        show FramePres t σ (if rb < seg.cumulativeDistance + seg.link.length then σ
          else releaseLoop m t segs csi rb fuel (bumpCursor t
            (if m.isInterlockingNode seg.fromNodeId = true
             then releaseNode t seg.fromNodeId (releaseBlock m t seg.link.trackId σ)
             else releaseBlock m t seg.link.trackId σ)))
        by_cases h2 : rb < seg.cumulativeDistance + seg.link.length
        · rw [if_pos h2]; exact framePres_refl t σ
        · rw [if_neg h2]
          have hσb : FramePres t σ
              (if m.isInterlockingNode seg.fromNodeId = true
               then releaseNode t seg.fromNodeId (releaseBlock m t seg.link.trackId σ)
               else releaseBlock m t seg.link.trackId σ) := by
            by_cases h3 : m.isInterlockingNode seg.fromNodeId = true
            · rw [if_pos h3]
              exact framePres_trans (framePres_releaseBlock m t seg.link.trackId σ)
                (framePres_releaseNode t seg.fromNodeId _)
            · rw [if_neg h3]
              exact framePres_releaseBlock m t seg.link.trackId σ
          exact framePres_trans (framePres_trans hσb (framePres_bumpCursor t _)) (ih _)
    · rw [if_neg h1]
      exact framePres_refl t σ

theorem framePres_updateTrain (m : SectionModel) (t : String) (path : PathResult)
    (csi : Int) (off look rel : ℚ) (σ : ResState) :
    FramePres t σ (updateTrain m t path csi off look rel σ).2 := by
  have hc : updateTrain m t path csi off look rel σ =
      (if path.found = false ∨ path.segments = [] then (noneUpdate, σ)
       else
        reserveLoop m t csi off look csi.toNat (path.segments.drop csi.toNat)
          (releaseLoop m t path.segments csi (off - rel)
            (csi - (cursorOf t (if (alookup σ.trainState t).isSome then σ
              else { σ with trainState := aset σ.trainState t freshTrainState }) : Int)).toNat
            (if (alookup σ.trainState t).isSome then σ
              else { σ with trainState := aset σ.trainState t freshTrainState }))) := rfl
  rw [hc]
  by_cases hg : path.found = false ∨ path.segments = []
  · rw [if_pos hg]; exact framePres_refl t σ
  · rw [if_neg hg]
    exact framePres_trans (framePres_ensureState t σ)
      (framePres_trans (framePres_releaseLoop m t path.segments csi (off - rel) _ _)
        (framePres_reserveLoop m t csi off look _ _ _))

theorem framePres_yieldTrain (m : SectionModel) (t : String) (keep : Option String)
    (σ : ResState) : FramePres t σ (yieldTrain m t keep σ) := by
  unfold yieldTrain
  cases hst : alookup σ.trainState t with
  | none => exact framePres_refl t σ
  | some st =>
    have hfoldb : ∀ (l : List String) (σ0 : ResState), FramePres t σ0
        (l.foldl (fun acc x => if keepMatches keep x then acc
          else releaseBlock m t x acc) σ0) := by
      intro l
      induction l with
      | nil => intro σ0; exact framePres_refl t σ0
      | cons x rest ihl =>
        intro σ0
        rw [List.foldl_cons]
        refine framePres_trans ?_ (ihl _)
        by_cases hx : keepMatches keep x = true
        · rw [if_pos hx]; exact framePres_refl t σ0
        · rw [if_neg hx]; exact framePres_releaseBlock m t x σ0
    have hfoldn : ∀ (l : List String) (σ0 : ResState), FramePres t σ0
        (l.foldl (fun acc x => releaseNode t x acc) σ0) := by
      intro l
      induction l with
      | nil => intro σ0; exact framePres_refl t σ0
      | cons x rest ihl =>
        intro σ0
        rw [List.foldl_cons]
        exact framePres_trans (framePres_releaseNode t x σ0) (ihl _)
    exact framePres_trans (hfoldb st.reservedBlocks σ) (hfoldn st.reservedNodes _)

/-- Monotonicity of the reserve-ahead scan: ownership entries and direction
locks present before a reserve step are still present (unchanged) after it. -/
def ReserveMono (σ σ' : ResState) : Prop :=
  (∀ b v, alookup σ.reservedByBlockId b = some v →
    alookup σ'.reservedByBlockId b = some v) ∧
  (∀ n v, alookup σ.reservedByNodeId n = some v →
    alookup σ'.reservedByNodeId n = some v) ∧
  (∀ s d, alookup σ.sectionLockDirection s = some d →
    alookup σ'.sectionLockDirection s = some d)

theorem reserveMono_refl (σ : ResState) : ReserveMono σ σ :=
  ⟨fun _ _ h => h, fun _ _ h => h, fun _ _ h => h⟩

theorem reserveMono_trans {σ1 σ2 σ3 : ResState} (h1 : ReserveMono σ1 σ2)
    (h2 : ReserveMono σ2 σ3) : ReserveMono σ1 σ3 :=
  ⟨fun b v h => h2.1 b v (h1.1 b v h),
   fun n v h => h2.2.1 n v (h1.2.1 n v h),
   fun s d h => h2.2.2 s d (h1.2.2 s d h)⟩

theorem reserveMono_reserveBlock (t b : String) (σ : ResState) :
    ReserveMono σ (reserveBlock t b σ).2 := by
  unfold reserveBlock
  cases halk : alookup σ.reservedByBlockId b with
  | some o =>
    show ReserveMono σ (if o = t then (ReserveResult.already, σ)
      else (ReserveResult.blocked, σ)).2
    by_cases ho : o = t
    · rw [if_pos ho]; exact reserveMono_refl σ
    · rw [if_neg ho]; exact reserveMono_refl σ
  | none =>
    show ReserveMono σ (addReservedBlock t b
      { σ with reservedByBlockId := aset σ.reservedByBlockId b t })
    refine ⟨?_, fun _ _ h => h, fun _ _ h => h⟩
    intro b' v hb
    show alookup (aset σ.reservedByBlockId b t) b' = some v
    rw [alookup_aset]
    by_cases hbb : b' = b
    · rw [hbb, halk] at hb
      cases hb
    · rw [if_neg hbb]
      exact hb

theorem reserveMono_reserveNode (t n : String) (σ : ResState) :
    ReserveMono σ (reserveNode t n σ).2 := by
  unfold reserveNode
  cases halk : alookup σ.reservedByNodeId n with
  | some o =>
    show ReserveMono σ (if o = t then (ReserveResult.already, σ)
      else (ReserveResult.blocked, σ)).2
    by_cases ho : o = t
    · rw [if_pos ho]; exact reserveMono_refl σ
    · rw [if_neg ho]; exact reserveMono_refl σ
  | none =>
    show ReserveMono σ (addReservedNode t n
      { σ with reservedByNodeId := aset σ.reservedByNodeId n t })
    refine ⟨fun _ _ h => h, ?_, fun _ _ h => h⟩
    intro n' v hn
    show alookup (aset σ.reservedByNodeId n t) n' = some v
    rw [alookup_aset]
    by_cases hnn : n' = n
    · rw [hnn, halk] at hn
      cases hn
    · rw [if_neg hnn]
      exact hn

theorem reserveMono_reserveIterBlock (t : String) (seg : PathSegment) (sid : Option String)
    (dir : Option Dir) (σ : ResState) :
    ReserveMono σ (reserveIterBlock t seg sid dir σ).2 := by
  unfold reserveIterBlock
  cases hrb : reserveBlock t seg.link.trackId σ with
  | mk r σ1 =>
    have h1 : ReserveMono σ σ1 := by
      have := reserveMono_reserveBlock t seg.link.trackId σ
      rw [hrb] at this
      exact this
    cases r with
    | blocked => exact h1
    | already => exact h1
    | reserved =>
      cases sid with
      | none => exact h1
      | some s =>
        cases dir with
        | none => exact ⟨h1.1, h1.2.1, h1.2.2⟩
        | some d =>
          show ReserveMono σ ((if (alookup σ1.sectionLockDirection s).isSome = true then
              ((none : Option ReservationUpdate),
                { σ1 with sectionReservedCount := aset σ1.sectionReservedCount s ((alookup σ1.sectionReservedCount s).getD 0 + 1) })
            else
              ((none : Option ReservationUpdate),
                { σ1 with
                  sectionReservedCount := aset σ1.sectionReservedCount s ((alookup σ1.sectionReservedCount s).getD 0 + 1),
                  sectionLockDirection := aset σ1.sectionLockDirection s d,
                  sectionLockOwner := aset σ1.sectionLockOwner s t })).2)
          by_cases hlk : (alookup σ1.sectionLockDirection s).isSome = true
          · rw [if_pos hlk]
            exact ⟨h1.1, h1.2.1, h1.2.2⟩
          · rw [if_neg hlk]
            refine ⟨h1.1, h1.2.1, ?_⟩
            intro s' d' hs
            have hs1 := h1.2.2 s' d' hs
            show alookup (aset σ1.sectionLockDirection s d) s' = some d'
            rw [alookup_aset]
            by_cases hss : s' = s
            · exfalso
              apply hlk
              rw [← hss, hs1]
              rfl
            · rw [if_neg hss]
              exact hs1

theorem reserveMono_reserveIterCore (m : SectionModel) (t : String) (seg : PathSegment)
    (σ : ResState) : ReserveMono σ (reserveIterCore m t seg σ).2 := by
  have hc : reserveIterCore m t seg σ =
      (match sectionBlocked σ (m.getSectionId seg.link.trackId)
          (m.getSectionDirection seg.link.trackId seg.fromNodeId seg.toNodeId) with
       | some s =>
          (some (blockedUpd seg (alookup σ.sectionLockOwner s) .section_direction s), σ)
       | none => reserveIterBlock t seg (m.getSectionId seg.link.trackId)
           (m.getSectionDirection seg.link.trackId seg.fromNodeId seg.toNodeId) σ) := rfl
  rw [hc]
  cases sectionBlocked σ (m.getSectionId seg.link.trackId)
      (m.getSectionDirection seg.link.trackId seg.fromNodeId seg.toNodeId) with
  | some s => exact reserveMono_refl σ
  | none => exact reserveMono_reserveIterBlock t seg _ _ σ

theorem reserveMono_reserveIter (m : SectionModel) (t : String) (csi : Int) (i : ℕ)
    (seg : PathSegment) (σ : ResState) : ReserveMono σ (reserveIter m t csi i seg σ).2 := by
  unfold reserveIter
  by_cases hj : csi < (i : Int) ∧ m.isInterlockingNode seg.fromNodeId = true
  · rw [if_pos hj]
    cases hrn : reserveNode t seg.fromNodeId σ with
    | mk r σ1 =>
      have h1 : ReserveMono σ σ1 := by
        have := reserveMono_reserveNode t seg.fromNodeId σ
        rw [hrn] at this
        exact this
      cases r with
      | blocked => exact h1
      | already => exact reserveMono_trans h1 (reserveMono_reserveIterCore m t seg σ1)
      | reserved => exact reserveMono_trans h1 (reserveMono_reserveIterCore m t seg σ1)
  · rw [if_neg hj]
    exact reserveMono_reserveIterCore m t seg σ

/-- C6 (amended): for a truthy keep id on a well-formed state, yieldTrain
releases every junction node of the train, keeps it owning nothing but the
kept block, preserves the kept block when held, and leaves every other
train's reservations untouched. -/
theorem c6_yield_keep_amended (m : SectionModel) (σ : ResState) (t k : String)
    (hwf : WFRes m σ) (hk : k ≠ "") :
    (∀ n, alookup (yieldTrain m t (some k) σ).reservedByNodeId n ≠ some t) ∧
    (∀ b, b ≠ k → alookup (yieldTrain m t (some k) σ).reservedByBlockId b ≠ some t) ∧
    (alookup σ.reservedByBlockId k = some t →
      alookup (yieldTrain m t (some k) σ).reservedByBlockId k = some t) ∧
    FramePres t σ (yieldTrain m t (some k) σ) := by
  refine ⟨?_, ?_, ?_, framePres_yieldTrain m t (some k) σ⟩ <;> unfold yieldTrain
  · cases hst : alookup σ.trainState t with
    | none =>
      intro n hn
      rcases (hwf.nodes_iff t n).mp hn with ⟨st, hst', _⟩
      rw [hst] at hst'
      cases hst'
    | some st =>
      refine release_fold_nodes t st.reservedNodes _ ?_
      intro n hn
      rw [fold_release_blocks_nm (m := m) t (some k) st.reservedBlocks σ] at hn
      rcases (hwf.nodes_iff t n).mp hn with ⟨st', hst', hmem⟩
      rw [hst] at hst'
      injection hst' with hst'
      exact hst' ▸ hmem
  · cases hst : alookup σ.trainState t with
    | none =>
      intro b _ hb
      rcases (hwf.blocks_iff t b).mp hb with ⟨st, hst', _⟩
      rw [hst] at hst'
      cases hst'
    | some st =>
      intro b hbk hb
      rw [fold_release_nodes_bm t st.reservedNodes _] at hb
      have hkm := release_fold_blocks (m := m) t (some k) st.reservedBlocks σ ?_ b hb
      · have : b = k := by
          have hkm' : (decide (¬ k = "") && decide (b = k)) = true := hkm
          rcases (Bool.and_eq_true _ _).mp hkm' with ⟨_, hbk'⟩
          exact of_decide_eq_true hbk'
        exact hbk this
      · intro b' hb'
        rcases (hwf.blocks_iff t b').mp hb' with ⟨st', hst', hmem⟩
        rw [hst] at hst'
        injection hst' with hst'
        exact Or.inl (hst' ▸ hmem)
  · cases hst : alookup σ.trainState t with
    | none => exact fun hkk => hkk
    | some st =>
      intro hkown
      rw [fold_release_nodes_bm t st.reservedNodes _]
      have hkeepfold : ∀ (l : List String) (σ0 : ResState),
          alookup σ0.reservedByBlockId k = some t →
          alookup (l.foldl (fun acc x => if keepMatches (some k) x then acc
            else releaseBlock m t x acc) σ0).reservedByBlockId k = some t := by
        intro l
        induction l with
        | nil => intro σ0 h0; exact h0
        | cons x rest ih =>
          intro σ0 h0
          rw [List.foldl_cons]
          refine ih _ ?_
          by_cases hx : keepMatches (some k) x = true
          · rw [if_pos hx]; exact h0
          · rw [if_neg hx]
            have hxk : x ≠ k := by
              intro hxe
              apply hx
              rw [hxe]
              show (decide (¬ k = "") && decide (k = k)) = true
              simp [hk]
            rw [releaseBlock_bm]
            by_cases h0' : alookup σ0.reservedByBlockId x = some t
            · rw [if_pos h0', alookup_aerase_ne _ _ (Ne.symm hxk)]
              exact h0
            · rw [if_neg h0']; exact h0
      exact hkeepfold st.reservedBlocks σ hkown

/-- The section model of the C6 scenario: no sections, one interlocking
node J. -/
def c6Model : SectionModel :=
  { isInterlockingNode := fun n => n = "J",
    getSectionId := fun _ => none,
    getSectionDirection := fun _ _ _ => none }

/-- A path whose first block id is the empty string (A to J over an unnamed
track, J to B over b2). -/
def c6Path : PathResult := makePath [("A", "J", "", 100), ("J", "B", "b2", 100)]

/-- The state after T1 reserves both blocks and the junction node J. -/
def c6State : ResState := (updateTrain c6Model "T1" c6Path 0 0 300 0 initRes).2

/-- The C6 witness scenario: same topology with a truthy block id b1. -/
def c6WitnessPath : PathResult := makePath [("A", "J", "b1", 100), ("J", "B", "b2", 100)]

/-- The witness state: T1 holds b1, b2 and the junction node J. -/
def c6WitnessState : ResState := (updateTrain c6Model "T1" c6WitnessPath 0 0 300 0 initRes).2

theorem c6Model_total : DirectionTotal c6Model :=
  fun _ _ _ hx => absurd hx Bool.false_ne_true

section ConcreteC6

attribute [local semireducible] Rat.add Rat.sub Rat.mul Rat.inv

/-- C6 counterexample: when the explicitly kept block id is the empty string
(falsy in JavaScript), yieldTrain releases it although the train held it, so
the claim's kept-block guarantee fails as stated for every keepBlockId. -/
theorem c6_yield_keep_counterexample :
    alookup c6State.reservedByBlockId "" = some "T1" ∧
    alookup c6State.reservedByNodeId "J" = some "T1" ∧
    alookup (yieldTrain c6Model "T1" (some "") c6State).reservedByBlockId "" ≠
      some "T1" := by
  decide

end ConcreteC6

/-- Witness for the amended C6 theorem: in the reachable witness state the
yielding train keeps only b1 and keeps it because it held it. -/
theorem c6_yield_keep_amended_witness :
    (∀ b, b ≠ "b1" →
      alookup (yieldTrain c6Model "T1" (some "b1") c6WitnessState).reservedByBlockId b ≠
        some "T1") ∧
    (alookup c6WitnessState.reservedByBlockId "b1" = some "T1" →
      alookup (yieldTrain c6Model "T1" (some "b1") c6WitnessState).reservedByBlockId "b1" =
        some "T1") :=
  ⟨(c6_yield_keep_amended c6Model c6WitnessState "T1" "b1"
      (reachable_wf c6Model_total
        (Reachable.updated "T1" c6WitnessPath 0 0 300 0 Reachable.init))
      (by decide)).2.1,
   (c6_yield_keep_amended c6Model c6WitnessState "T1" "b1"
      (reachable_wf c6Model_total
        (Reachable.updated "T1" c6WitnessPath 0 0 300 0 Reachable.init))
      (by decide)).2.2.1⟩

theorem reserveMono_reserveLoop (m : SectionModel) (t : String) (csi : Int) (off look : ℚ) :
    ∀ (segs : List PathSegment) (i : ℕ) (σ : ResState),
      ReserveMono σ (reserveLoop m t csi off look i segs σ).2 := by
  intro segs
  induction segs with
  | nil => intro i σ; exact reserveMono_refl σ
  | cons seg rest ih =>
    intro i σ
    have hc : reserveLoop m t csi off look i (seg :: rest) σ =
        (if look < seg.cumulativeDistance - off then (noneUpdate, σ)
         else match reserveIter m t csi i seg σ with
           | (some upd, σ1) => (upd, σ1)
           | (none, σ1) => reserveLoop m t csi off look (i + 1) rest σ1) := rfl
    rw [hc]
    by_cases hb : look < seg.cumulativeDistance - off
    · rw [if_pos hb]; exact reserveMono_refl σ
    · rw [if_neg hb]
      cases hri : reserveIter m t csi i seg σ with
      | mk o σ1 =>
        have h1 : ReserveMono σ σ1 := by
          have := reserveMono_reserveIter m t csi i seg σ
          rw [hri] at this
          exact this
        cases o with
        | some upd => exact h1
        | none => exact reserveMono_trans h1 (ih (i + 1) σ1)

/-- C9 (amended): the reserve-ahead scan only adds ownership entries and
direction locks (so everything the train reserved before hitting the
blocking resource stays reserved), and a blocked updateTrain call leaves
every other train's per-train state and block/node ownership unchanged. -/
theorem c9_partial_acquisition_amended (m : SectionModel) (t : String) (path : PathResult)
    (csi : Int) (off look rel : ℚ) (σ : ResState)
    (hblk : (updateTrain m t path csi off look rel σ).1.blockedReason ≠ none) :
    (∀ (i : ℕ) (segs : List PathSegment) (σ0 : ResState),
      ReserveMono σ0 (reserveLoop m t csi off look i segs σ0).2) ∧
    FramePres t σ (updateTrain m t path csi off look rel σ).2 :=
  ⟨fun i segs σ0 => reserveMono_reserveLoop m t csi off look segs i σ0,
   framePres_updateTrain m t path csi off look rel σ⟩

/-- The C9 scenario path: T1 runs A to M and back over the same edge e1, so
the second segment conflicts with the section lock the first one installed. -/
def c9Path : PathResult := makePath [("A", "M", "e1", 100), ("M", "A", "e1", 100)]

section ConcreteC9

attribute [local semireducible] Rat.add Rat.sub Rat.mul Rat.inv

/-- C9 counterexample: the blocked result names the updating train itself as
the blocking train (a self-block through the section direction lock), and
that train's own reservations did change during the call, refuting the
claim that the blocking train's reservations are unchanged. -/
theorem c9_partial_acquisition_counterexample :
    (updateTrain sectionTestModel "T1" c9Path 0 0 200 0 initRes).1.blockedReason =
      some BlockReason.section_direction ∧
    (updateTrain sectionTestModel "T1" c9Path 0 0 200 0 initRes).1.blockedByTrainId =
      some "T1" ∧
    alookup initRes.reservedByBlockId "e1" = none ∧
    alookup (updateTrain sectionTestModel "T1" c9Path 0 0 200 0
      initRes).2.reservedByBlockId "e1" = some "T1" := by
  decide

/-- Witness for the amended C9 theorem, at the blocked self-block scenario. -/
theorem c9_partial_acquisition_amended_witness :
    (∀ (i : ℕ) (segs : List PathSegment) (σ0 : ResState),
      ReserveMono σ0 (reserveLoop sectionTestModel "T1" 0 0 200 i segs σ0).2) ∧
    FramePres "T1" initRes
      (updateTrain sectionTestModel "T1" c9Path 0 0 200 0 initRes).2 :=
  c9_partial_acquisition_amended sectionTestModel "T1" c9Path 0 0 200 0 initRes (by decide)

end ConcreteC9

/-! ## Idempotence of updateTrain on well-formed states (C10) -/

theorem reserveNode_blocked_state {t n : String} {σ σa : ResState}
    (h : reserveNode t n σ = (ReserveResult.blocked, σa)) :
    σa = σ ∧ ∃ o, alookup σ.reservedByNodeId n = some o ∧ o ≠ t := by
  unfold reserveNode at h
  cases halk : alookup σ.reservedByNodeId n with
  | none =>
    rw [halk] at h
    have h2 : (ReserveResult.reserved, addReservedNode t n
        { σ with reservedByNodeId := aset σ.reservedByNodeId n t }) =
        ((ReserveResult.blocked, σa) : ReserveResult × ResState) := h
    injection h2 with h1 _
    cases h1
  | some o =>
    rw [halk] at h
    have h2 : (if o = t then (ReserveResult.already, σ) else (ReserveResult.blocked, σ)) =
        ((ReserveResult.blocked, σa) : ReserveResult × ResState) := h
    by_cases ho : o = t
    · rw [if_pos ho] at h2
      injection h2 with h1 _
      cases h1
    · rw [if_neg ho] at h2
      injection h2 with _ h3
      exact ⟨h3.symm, o, rfl, ho⟩

theorem reserveNode_already_state {t n : String} {σ σa : ResState}
    (h : reserveNode t n σ = (ReserveResult.already, σa)) :
    σa = σ ∧ alookup σ.reservedByNodeId n = some t := by
  unfold reserveNode at h
  cases halk : alookup σ.reservedByNodeId n with
  | none =>
    rw [halk] at h
    have h2 : (ReserveResult.reserved, addReservedNode t n
        { σ with reservedByNodeId := aset σ.reservedByNodeId n t }) =
        ((ReserveResult.already, σa) : ReserveResult × ResState) := h
    injection h2 with h1 _
    cases h1
  | some o =>
    rw [halk] at h
    have h2 : (if o = t then (ReserveResult.already, σ) else (ReserveResult.blocked, σ)) =
        ((ReserveResult.already, σa) : ReserveResult × ResState) := h
    by_cases ho : o = t
    · rw [if_pos ho] at h2
      injection h2 with _ h3
      exact ⟨h3.symm, ho ▸ rfl⟩
    · rw [if_neg ho] at h2
      injection h2 with h1 _
      cases h1

theorem reserveNode_reserved_state {t n : String} {σ σa : ResState}
    (h : reserveNode t n σ = (ReserveResult.reserved, σa)) :
    alookup σ.reservedByNodeId n = none ∧
    σa = addReservedNode t n { σ with reservedByNodeId := aset σ.reservedByNodeId n t } := by
  unfold reserveNode at h
  cases halk : alookup σ.reservedByNodeId n with
  | none =>
    rw [halk] at h
    have h2 : (ReserveResult.reserved, addReservedNode t n
        { σ with reservedByNodeId := aset σ.reservedByNodeId n t }) =
        ((ReserveResult.reserved, σa) : ReserveResult × ResState) := h
    injection h2 with _ h3
    exact ⟨rfl, h3.symm⟩
  | some o =>
    rw [halk] at h
    have h2 : (if o = t then (ReserveResult.already, σ) else (ReserveResult.blocked, σ)) =
        ((ReserveResult.reserved, σa) : ReserveResult × ResState) := h
    by_cases ho : o = t
    · rw [if_pos ho] at h2
      injection h2 with h1 _
      cases h1
    · rw [if_neg ho] at h2
      injection h2 with h1 _
      cases h1

theorem reserveNode_of_owner_self {t n : String} {σ : ResState}
    (h : alookup σ.reservedByNodeId n = some t) :
    reserveNode t n σ = (ReserveResult.already, σ) := by
  unfold reserveNode
  rw [h]
  show (if t = t then (ReserveResult.already, σ) else (ReserveResult.blocked, σ)) =
    (ReserveResult.already, σ)
  rw [if_pos rfl]

theorem reserveBlock_blocked_state {t b : String} {σ σa : ResState}
    (h : reserveBlock t b σ = (ReserveResult.blocked, σa)) :
    σa = σ ∧ ∃ o, alookup σ.reservedByBlockId b = some o ∧ o ≠ t := by
  unfold reserveBlock at h
  cases halk : alookup σ.reservedByBlockId b with
  | none =>
    rw [halk] at h
    have h2 : (ReserveResult.reserved, addReservedBlock t b
        { σ with reservedByBlockId := aset σ.reservedByBlockId b t }) =
        ((ReserveResult.blocked, σa) : ReserveResult × ResState) := h
    injection h2 with h1 _
    cases h1
  | some o =>
    rw [halk] at h
    have h2 : (if o = t then (ReserveResult.already, σ) else (ReserveResult.blocked, σ)) =
        ((ReserveResult.blocked, σa) : ReserveResult × ResState) := h
    by_cases ho : o = t
    · rw [if_pos ho] at h2
      injection h2 with h1 _
      cases h1
    · rw [if_neg ho] at h2
      injection h2 with _ h3
      exact ⟨h3.symm, o, rfl, ho⟩

theorem sectionBlocked_none_dir (σ : ResState) (dir : Option Dir) :
    sectionBlocked σ none dir = none := by
  cases dir <;> rfl

theorem sectionBlocked_none_cases {σ : ResState} {s : String} {d : Dir}
    (h : sectionBlocked σ (some s) (some d) = none) :
    alookup σ.sectionLockDirection s = some d ∨
    alookup σ.sectionLockDirection s = none := by
  unfold sectionBlocked at h
  have h2 : (match alookup σ.sectionLockDirection s with
      | some l => if l = d then none else some s
      | none => none) = (none : Option String) := h
  cases hl : alookup σ.sectionLockDirection s with
  | none => exact Or.inr rfl
  | some l =>
    rw [hl] at h2
    have h3 : (if l = d then none else some s) = (none : Option String) := h2
    by_cases hld : l = d
    · exact Or.inl (by rw [hld])
    · rw [if_neg hld] at h3
      cases h3

theorem sectionBlocked_of_lock {σ : ResState} {s : String} {d : Dir}
    (h : alookup σ.sectionLockDirection s = some d) :
    sectionBlocked σ (some s) (some d) = none := by
  show (match alookup σ.sectionLockDirection s with
      | some l => if l = d then none else some s
      | none => none) = (none : Option String)
  rw [h]
  show (if d = d then none else some s) = (none : Option String)
  rw [if_pos rfl]

theorem sectionBlocked_dir_none (σ : ResState) (s : String) :
    sectionBlocked σ (some s) none = none := rfl

theorem reserveBlock_already_state {t b : String} {σ σa : ResState}
    (h : reserveBlock t b σ = (ReserveResult.already, σa)) :
    σa = σ ∧ alookup σ.reservedByBlockId b = some t := by
  unfold reserveBlock at h
  cases halk : alookup σ.reservedByBlockId b with
  | none =>
    rw [halk] at h
    have h2 : (ReserveResult.reserved, addReservedBlock t b
        { σ with reservedByBlockId := aset σ.reservedByBlockId b t }) =
        ((ReserveResult.already, σa) : ReserveResult × ResState) := h
    injection h2 with h1 _
    cases h1
  | some o =>
    rw [halk] at h
    have h2 : (if o = t then (ReserveResult.already, σ) else (ReserveResult.blocked, σ)) =
        ((ReserveResult.already, σa) : ReserveResult × ResState) := h
    by_cases ho : o = t
    · rw [if_pos ho] at h2
      injection h2 with _ h3
      exact ⟨h3.symm, ho ▸ rfl⟩
    · rw [if_neg ho] at h2
      injection h2 with h1 _
      cases h1

theorem reserveBlock_reserved_state {t b : String} {σ σa : ResState}
    (h : reserveBlock t b σ = (ReserveResult.reserved, σa)) :
    alookup σ.reservedByBlockId b = none ∧
    σa = addReservedBlock t b { σ with reservedByBlockId := aset σ.reservedByBlockId b t } := by
  unfold reserveBlock at h
  cases halk : alookup σ.reservedByBlockId b with
  | none =>
    rw [halk] at h
    have h2 : (ReserveResult.reserved, addReservedBlock t b
        { σ with reservedByBlockId := aset σ.reservedByBlockId b t }) =
        ((ReserveResult.reserved, σa) : ReserveResult × ResState) := h
    injection h2 with _ h3
    exact ⟨rfl, h3.symm⟩
  | some o =>
    rw [halk] at h
    have h2 : (if o = t then (ReserveResult.already, σ) else (ReserveResult.blocked, σ)) =
        ((ReserveResult.reserved, σa) : ReserveResult × ResState) := h
    by_cases ho : o = t
    · rw [if_pos ho] at h2
      injection h2 with h1 _
      cases h1
    · rw [if_neg ho] at h2
      injection h2 with h1 _
      cases h1

theorem reserveIterBlock_some_state {t : String} {seg : PathSegment} {sid : Option String}
    {dir : Option Dir} {σ σ' : ResState} {u : ReservationUpdate}
    (h : reserveIterBlock t seg sid dir σ = (some u, σ')) : σ' = σ := by
  unfold reserveIterBlock at h
  cases hrb : reserveBlock t seg.link.trackId σ with
  | mk r σ1 =>
    rw [hrb] at h
    cases r with
    | blocked =>
      have h2 : (some (blockedUpd seg (alookup σ1.reservedByBlockId seg.link.trackId)
          BlockReason.block seg.link.trackId), σ1) =
          ((some u, σ') : Option ReservationUpdate × ResState) := h
      injection h2 with _ h3
      rw [← h3]
      exact (reserveBlock_blocked_state hrb).1
    | already =>
      have h2 : ((none : Option ReservationUpdate), σ1) =
          ((some u, σ') : Option ReservationUpdate × ResState) := h
      injection h2 with h1 _
      cases h1
    | reserved =>
      cases sid with
      | none =>
        have h2 : ((none : Option ReservationUpdate), σ1) =
            ((some u, σ') : Option ReservationUpdate × ResState) := h
        injection h2 with h1 _
        cases h1
      | some s =>
        cases dir with
        | none =>
          have h2 : ((none : Option ReservationUpdate),
              { σ1 with sectionReservedCount := aset σ1.sectionReservedCount s ((alookup σ1.sectionReservedCount s).getD 0 + 1) }) =
              ((some u, σ') : Option ReservationUpdate × ResState) := h
          injection h2 with h1 _
          cases h1
        | some d =>
          have h2 : (if (alookup σ1.sectionLockDirection s).isSome = true then
              ((none : Option ReservationUpdate),
                { σ1 with sectionReservedCount := aset σ1.sectionReservedCount s ((alookup σ1.sectionReservedCount s).getD 0 + 1) })
            else
              ((none : Option ReservationUpdate),
                { σ1 with
                  sectionReservedCount := aset σ1.sectionReservedCount s ((alookup σ1.sectionReservedCount s).getD 0 + 1),
                  sectionLockDirection := aset σ1.sectionLockDirection s d,
                  sectionLockOwner := aset σ1.sectionLockOwner s t })) =
              ((some u, σ') : Option ReservationUpdate × ResState) := h
          by_cases hlk : (alookup σ1.sectionLockDirection s).isSome = true
          · rw [if_pos hlk] at h2
            injection h2 with h1 _
            cases h1
          · rw [if_neg hlk] at h2
            injection h2 with h1 _
            cases h1

theorem reserveIterCore_some_state {m : SectionModel} {t : String} {seg : PathSegment}
    {σ σ' : ResState} {u : ReservationUpdate}
    (h : reserveIterCore m t seg σ = (some u, σ')) : σ' = σ := by
  have hc : reserveIterCore m t seg σ =
      (match sectionBlocked σ (m.getSectionId seg.link.trackId)
          (m.getSectionDirection seg.link.trackId seg.fromNodeId seg.toNodeId) with
       | some s =>
          (some (blockedUpd seg (alookup σ.sectionLockOwner s) .section_direction s), σ)
       | none => reserveIterBlock t seg (m.getSectionId seg.link.trackId)
           (m.getSectionDirection seg.link.trackId seg.fromNodeId seg.toNodeId) σ) := rfl
  rw [hc] at h
  cases hsb : sectionBlocked σ (m.getSectionId seg.link.trackId)
      (m.getSectionDirection seg.link.trackId seg.fromNodeId seg.toNodeId) with
  | some s =>
    rw [hsb] at h
    have h2 : (some (blockedUpd seg (alookup σ.sectionLockOwner s)
        BlockReason.section_direction s), σ) =
        ((some u, σ') : Option ReservationUpdate × ResState) := h
    injection h2 with _ h3
    exact h3.symm
  | none =>
    rw [hsb] at h
    exact reserveIterBlock_some_state h

theorem reserveIter_some_idem {m : SectionModel} {t : String} {csi : Int} {i : ℕ}
    {seg : PathSegment} {σ σ' : ResState} {u : ReservationUpdate}
    (h : reserveIter m t csi i seg σ = (some u, σ')) :
    reserveIter m t csi i seg σ' = (some u, σ') := by
  unfold reserveIter at h ⊢
  by_cases hj : csi < (i : Int) ∧ m.isInterlockingNode seg.fromNodeId = true
  · rw [if_pos hj] at h ⊢
    cases hrn : reserveNode t seg.fromNodeId σ with
    | mk r σa =>
      rw [hrn] at h
      cases r with
      | blocked =>
        obtain ⟨hσa, o, ho, hot⟩ := reserveNode_blocked_state hrn
        have h2 : (some (blockedUpd seg (alookup σa.reservedByNodeId seg.fromNodeId)
            BlockReason.junction seg.fromNodeId), σa) =
            ((some u, σ') : Option ReservationUpdate × ResState) := h
        have hsnd : σa = σ' := congrArg Prod.snd h2
        rw [← hsnd, hσa]
        rw [hσa] at hrn
        rw [hrn]
        rw [← hsnd, hσa] at h2
        exact h2
      | already =>
        obtain ⟨hσa, hown⟩ := reserveNode_already_state hrn
        have h2 : reserveIterCore m t seg σa = (some u, σ') := h
        rw [hσa] at h2
        have hst := reserveIterCore_some_state h2
        rw [hst, reserveNode_of_owner_self hown]
        show reserveIterCore m t seg σ = ((some u, σ) : Option ReservationUpdate × ResState)
        rw [hst] at h2
        exact h2
      | reserved =>
        obtain ⟨halk, hσa⟩ := reserveNode_reserved_state hrn
        have h2 : reserveIterCore m t seg σa = (some u, σ') := h
        have hst := reserveIterCore_some_state h2
        have hown : alookup σa.reservedByNodeId seg.fromNodeId = some t := by
          rw [hσa]
          show alookup (aset σ.reservedByNodeId seg.fromNodeId t) seg.fromNodeId = some t
          exact alookup_aset_self _ _ _
        rw [hst, reserveNode_of_owner_self hown]
        show reserveIterCore m t seg σa = ((some u, σa) : Option ReservationUpdate × ResState)
        rw [hst] at h2
        exact h2
  · rw [if_neg hj] at h ⊢
    have hst := reserveIterCore_some_state h
    rw [hst]
    rw [hst] at h
    exact h

/-- The facts established by a non-blocking pass of the section check plus
block reservation: the train owns the block, the section (if any, with its
direction) is locked to the traversal direction, and the node map is
untouched. -/
theorem reserveIterCore_none_post {m : SectionModel} {t : String} {seg : PathSegment}
    {σ σ' : ResState} (hT : DirectionTotal m) (hwf : WFRes m σ)
    (h : reserveIterCore m t seg σ = (none, σ')) :
    alookup σ'.reservedByBlockId seg.link.trackId = some t ∧
    (∀ s d, m.getSectionId seg.link.trackId = some s →
      m.getSectionDirection seg.link.trackId seg.fromNodeId seg.toNodeId = some d →
      alookup σ'.sectionLockDirection s = some d) ∧
    σ'.reservedByNodeId = σ.reservedByNodeId := by
  have hc : reserveIterCore m t seg σ =
      (match sectionBlocked σ (m.getSectionId seg.link.trackId)
          (m.getSectionDirection seg.link.trackId seg.fromNodeId seg.toNodeId) with
       | some s =>
          (some (blockedUpd seg (alookup σ.sectionLockOwner s) .section_direction s), σ)
       | none => reserveIterBlock t seg (m.getSectionId seg.link.trackId)
           (m.getSectionDirection seg.link.trackId seg.fromNodeId seg.toNodeId) σ) := rfl
  rw [hc] at h
  cases hsb : sectionBlocked σ (m.getSectionId seg.link.trackId)
      (m.getSectionDirection seg.link.trackId seg.fromNodeId seg.toNodeId) with
  | some s =>
    rw [hsb] at h
    have h2 : (some (blockedUpd seg (alookup σ.sectionLockOwner s)
        BlockReason.section_direction s), σ) =
        ((none, σ') : Option ReservationUpdate × ResState) := h
    injection h2 with h1 _
    cases h1
  | none =>
    rw [hsb] at h
    have hib : reserveIterBlock t seg (m.getSectionId seg.link.trackId)
        (m.getSectionDirection seg.link.trackId seg.fromNodeId seg.toNodeId) σ =
        (none, σ') := h
    clear h
    unfold reserveIterBlock at hib
    cases hrb : reserveBlock t seg.link.trackId σ with
    | mk r σ1 =>
      rw [hrb] at hib
      cases r with
      | blocked =>
        have h2 : (some (blockedUpd seg (alookup σ1.reservedByBlockId seg.link.trackId)
            BlockReason.block seg.link.trackId), σ1) =
            ((none, σ') : Option ReservationUpdate × ResState) := hib
        injection h2 with h1 _
        cases h1
      | already =>
        obtain ⟨hσ1, hown⟩ := reserveBlock_already_state hrb
        have h2 : ((none : Option ReservationUpdate), σ1) =
            ((none, σ') : Option ReservationUpdate × ResState) := hib
        injection h2 with _ hsnd
        have hσ' : σ' = σ := by rw [← hsnd, hσ1]
        rw [hσ']
        refine ⟨hown, ?_, rfl⟩
        intro s d hs hd
        rw [hs, hd] at hsb
        rcases sectionBlocked_none_cases hsb with hl | hl
        · exact hl
        · exfalso
          have hpos : 0 < countVal m s σ.reservedByBlockId := by
            rw [countVal_pos_iff]
            exact ⟨seg.link.trackId, hs, by rw [hown]; rfl⟩
          have hlock := (hwf.lock_iff s).mpr hpos
          rw [hl] at hlock
          cases hlock
      | reserved =>
        obtain ⟨halk, hσ1⟩ := reserveBlock_reserved_state hrb
        have hown1 : alookup σ1.reservedByBlockId seg.link.trackId = some t := by
          rw [hσ1]
          show alookup (aset σ.reservedByBlockId seg.link.trackId t) seg.link.trackId = some t
          exact alookup_aset_self _ _ _
        cases hsec : m.getSectionId seg.link.trackId with
        | none =>
          rw [hsec] at hib
          have h2 : ((none : Option ReservationUpdate), σ1) =
              ((none, σ') : Option ReservationUpdate × ResState) := hib
          injection h2 with _ hsnd
          rw [← hsnd]
          refine ⟨hown1, ?_, ?_⟩
          · intro s d hs _
            exact Option.noConfusion hs
          · rw [hσ1]
            rfl
        | some s =>
          cases hdir0 : m.getSectionDirection seg.link.trackId seg.fromNodeId seg.toNodeId with
          | none =>
            have hdt := hT seg.link.trackId seg.fromNodeId seg.toNodeId (by rw [hsec]; rfl)
            rw [hdir0] at hdt
            cases hdt
          | some d0 =>
            rw [hsec, hdir0] at hib
            have h2 : (if (alookup σ1.sectionLockDirection s).isSome = true then
                ((none : Option ReservationUpdate),
                  { σ1 with sectionReservedCount := aset σ1.sectionReservedCount s ((alookup σ1.sectionReservedCount s).getD 0 + 1) })
              else
                ((none : Option ReservationUpdate),
                  { σ1 with
                    sectionReservedCount := aset σ1.sectionReservedCount s ((alookup σ1.sectionReservedCount s).getD 0 + 1),
                    sectionLockDirection := aset σ1.sectionLockDirection s d0,
                    sectionLockOwner := aset σ1.sectionLockOwner s t })) =
                ((none, σ') : Option ReservationUpdate × ResState) := hib
            rw [hsec, hdir0] at hsb
            by_cases hlk : (alookup σ1.sectionLockDirection s).isSome = true
            · rw [if_pos hlk] at h2
              injection h2 with _ hsnd
              subst hsnd
              refine ⟨hown1, ?_, by rw [hσ1]; rfl⟩
              intro s' d' hs' hd'
              injection hs' with hs'
              injection hd' with hd'
              subst hs'
              subst hd'
              show alookup σ1.sectionLockDirection s = some d0
              rcases sectionBlocked_none_cases hsb with hl | hl
              · rw [hσ1]
                exact hl
              · exfalso
                rw [hσ1] at hlk
                have hlk2 : (alookup σ.sectionLockDirection s).isSome = true := hlk
                rw [hl] at hlk2
                cases hlk2
            · rw [if_neg hlk] at h2
              injection h2 with _ hsnd
              subst hsnd
              refine ⟨hown1, ?_, by rw [hσ1]; rfl⟩
              intro s' d' hs' hd'
              injection hs' with hs'
              injection hd' with hd'
              subst hs'
              subst hd'
              show alookup (aset σ1.sectionLockDirection s d0) s = some d0
              exact alookup_aset_self _ _ _

theorem reserveIter_none_post {m : SectionModel} {t : String} {csi : Int} {i : ℕ}
    {seg : PathSegment} {σ σ' : ResState} (hT : DirectionTotal m) (hwf : WFRes m σ)
    (h : reserveIter m t csi i seg σ = (none, σ')) :
    alookup σ'.reservedByBlockId seg.link.trackId = some t ∧
    (∀ s d, m.getSectionId seg.link.trackId = some s →
      m.getSectionDirection seg.link.trackId seg.fromNodeId seg.toNodeId = some d →
      alookup σ'.sectionLockDirection s = some d) ∧
    ((csi < (i : Int) ∧ m.isInterlockingNode seg.fromNodeId = true) →
      alookup σ'.reservedByNodeId seg.fromNodeId = some t) := by
  unfold reserveIter at h
  by_cases hj : csi < (i : Int) ∧ m.isInterlockingNode seg.fromNodeId = true
  · rw [if_pos hj] at h
    cases hrn : reserveNode t seg.fromNodeId σ with
    | mk r σa =>
      rw [hrn] at h
      cases r with
      | blocked =>
        have h2 : (some (blockedUpd seg (alookup σa.reservedByNodeId seg.fromNodeId)
            BlockReason.junction seg.fromNodeId), σa) =
            ((none, σ') : Option ReservationUpdate × ResState) := h
        injection h2 with h1 _
        cases h1
      | already =>
        obtain ⟨hσa, hown⟩ := reserveNode_already_state hrn
        have h2 : reserveIterCore m t seg σa = (none, σ') := h
        rw [hσa] at h2
        obtain ⟨hb, hl, hnm⟩ := reserveIterCore_none_post hT hwf h2
        exact ⟨hb, hl, fun _ => by rw [hnm]; exact hown⟩
      | reserved =>
        obtain ⟨halk, hσa⟩ := reserveNode_reserved_state hrn
        have h2 : reserveIterCore m t seg σa = (none, σ') := h
        have hwfa : WFRes m σa := by
          have := wf_reserveNode hwf t seg.fromNodeId
          rw [hrn] at this
          exact this
        obtain ⟨hb, hl, hnm⟩ := reserveIterCore_none_post hT hwfa h2
        refine ⟨hb, hl, fun _ => ?_⟩
        rw [hnm, hσa]
        show alookup (aset σ.reservedByNodeId seg.fromNodeId t) seg.fromNodeId = some t
        exact alookup_aset_self _ _ _
  · rw [if_neg hj] at h
    obtain ⟨hb, hl, _⟩ := reserveIterCore_none_post hT hwf h
    exact ⟨hb, hl, fun hj' => absurd hj' hj⟩

/-- Re-running a non-blocking iteration on any later scan state is a
no-op: the block, node and lock it needs are already held. -/
theorem reserveIter_noop {m : SectionModel} {t : String} {csi : Int} {i : ℕ}
    {seg : PathSegment} {σ2 : ResState}
    (hb : alookup σ2.reservedByBlockId seg.link.trackId = some t)
    (hl : ∀ s d, m.getSectionId seg.link.trackId = some s →
      m.getSectionDirection seg.link.trackId seg.fromNodeId seg.toNodeId = some d →
      alookup σ2.sectionLockDirection s = some d)
    (hn : (csi < (i : Int) ∧ m.isInterlockingNode seg.fromNodeId = true) →
      alookup σ2.reservedByNodeId seg.fromNodeId = some t) :
    reserveIter m t csi i seg σ2 = (none, σ2) := by
  have hcore : reserveIterCore m t seg σ2 = (none, σ2) := by
    have hc : reserveIterCore m t seg σ2 =
        (match sectionBlocked σ2 (m.getSectionId seg.link.trackId)
            (m.getSectionDirection seg.link.trackId seg.fromNodeId seg.toNodeId) with
         | some s =>
            (some (blockedUpd seg (alookup σ2.sectionLockOwner s) .section_direction s), σ2)
         | none => reserveIterBlock t seg (m.getSectionId seg.link.trackId)
             (m.getSectionDirection seg.link.trackId seg.fromNodeId seg.toNodeId) σ2) := rfl
    have hblockstep : ∀ (sid : Option String) (dir : Option Dir),
        reserveIterBlock t seg sid dir σ2 = (none, σ2) := by
      intro sid dir
      unfold reserveIterBlock
      rw [reserveBlock_eq_of_some hb, if_pos rfl]
    cases hsec : m.getSectionId seg.link.trackId with
    | none =>
      rw [hc, hsec, sectionBlocked_none_dir]
      exact hblockstep none _
    | some s =>
      cases hdir0 : m.getSectionDirection seg.link.trackId seg.fromNodeId seg.toNodeId with
      | none =>
        rw [hc, hsec, hdir0, sectionBlocked_dir_none]
        exact hblockstep (some s) none
      | some d0 =>
        rw [hc, hsec, hdir0, sectionBlocked_of_lock (hl s d0 hsec hdir0)]
        exact hblockstep (some s) (some d0)
  unfold reserveIter
  by_cases hj : csi < (i : Int) ∧ m.isInterlockingNode seg.fromNodeId = true
  · rw [if_pos hj, reserveNode_of_owner_self (hn hj)]
    exact hcore
  · rw [if_neg hj]
    exact hcore

/-- Re-running the reserve-ahead scan on its own result state returns the
same update and changes nothing (on well-formed states over a
direction-total model). -/
theorem reserveLoop_idem {m : SectionModel} (hT : DirectionTotal m) (t : String)
    (csi : Int) (off look : ℚ) :
    ∀ (segs : List PathSegment) (i : ℕ) (σ : ResState), WFRes m σ →
      reserveLoop m t csi off look i segs (reserveLoop m t csi off look i segs σ).2 =
        reserveLoop m t csi off look i segs σ := by
  intro segs
  induction segs with
  | nil => intro i σ h; rfl
  | cons seg rest ih =>
    intro i σ hwf
    have hc : ∀ σ0 : ResState, reserveLoop m t csi off look i (seg :: rest) σ0 =
        (if look < seg.cumulativeDistance - off then (noneUpdate, σ0)
         else match reserveIter m t csi i seg σ0 with
           | (some upd, σ1) => (upd, σ1)
           | (none, σ1) => reserveLoop m t csi off look (i + 1) rest σ1) := fun _ => rfl
    by_cases hlook : look < seg.cumulativeDistance - off
    · have h1 : reserveLoop m t csi off look i (seg :: rest) σ = (noneUpdate, σ) := by
        rw [hc σ, if_pos hlook]
      rw [h1]
      show reserveLoop m t csi off look i (seg :: rest) σ = (noneUpdate, σ)
      exact h1
    · cases hri : reserveIter m t csi i seg σ with
      | mk o σ1 =>
        cases o with
        | some u =>
          have h1 : reserveLoop m t csi off look i (seg :: rest) σ = (u, σ1) := by
            rw [hc σ, if_neg hlook, hri]
          rw [h1]
          show reserveLoop m t csi off look i (seg :: rest) σ1 = (u, σ1)
          rw [hc σ1, if_neg hlook, reserveIter_some_idem hri]
        | none =>
          have h1 : reserveLoop m t csi off look i (seg :: rest) σ =
              reserveLoop m t csi off look (i + 1) rest σ1 := by
            rw [hc σ, if_neg hlook, hri]
          rw [h1]
          have hwf1 : WFRes m σ1 := by
            have := wf_reserveIter hT hwf t csi i seg
            rw [hri] at this
            exact this
          have hpost := reserveIter_none_post hT hwf hri
          have hmono := reserveMono_reserveLoop m t csi off look rest (i + 1) σ1
          have hb' := hmono.1 seg.link.trackId t hpost.1
          have hl' : ∀ s d, m.getSectionId seg.link.trackId = some s →
              m.getSectionDirection seg.link.trackId seg.fromNodeId seg.toNodeId = some d →
              alookup (reserveLoop m t csi off look (i + 1) rest
                σ1).2.sectionLockDirection s = some d :=
            fun s d hs hd => hmono.2.2 s d (hpost.2.1 s d hs hd)
          have hn' : (csi < (i : Int) ∧ m.isInterlockingNode seg.fromNodeId = true) →
              alookup (reserveLoop m t csi off look (i + 1) rest
                σ1).2.reservedByNodeId seg.fromNodeId = some t :=
            fun hj => hmono.2.1 seg.fromNodeId t (hpost.2.2 hj)
          have hnoop := reserveIter_noop hb' hl' hn'
          rw [hc _, if_neg hlook, hnoop]
          exact ih (i + 1) σ1 hwf1

theorem cursorOf_congr_ts {σ σ' : ResState} (u : String)
    (h : σ'.trainState = σ.trainState) : cursorOf u σ' = cursorOf u σ := by
  unfold cursorOf
  rw [h]

theorem cursorOf_aset_keep {σ : ResState} {t : String} {st st' : TrainReservationState}
    (u : String) (hst : (alookup σ.trainState t).getD freshTrainState = st)
    (hcur : st'.releaseCursor = st.releaseCursor) :
    cursorOf u { σ with trainState := aset σ.trainState t st' } = cursorOf u σ := by
  unfold cursorOf
  show ((alookup (aset σ.trainState t st') u).getD freshTrainState).releaseCursor = _
  rw [alookup_aset]
  by_cases hu : u = t
  · rw [if_pos hu, hu, hst]
    exact hcur
  · rw [if_neg hu]

theorem cursorOf_addReservedBlock (u t b : String) (σ : ResState) :
    cursorOf u (addReservedBlock t b σ) = cursorOf u σ :=
  cursorOf_aset_keep u rfl rfl

theorem cursorOf_addReservedNode (u t n : String) (σ : ResState) :
    cursorOf u (addReservedNode t n σ) = cursorOf u σ :=
  cursorOf_aset_keep u rfl rfl

theorem cursorOf_delReservedBlock (u t b : String) (σ : ResState) :
    cursorOf u (delReservedBlock t b σ) = cursorOf u σ := by
  unfold delReservedBlock
  cases hst : alookup σ.trainState t with
  | none => rfl
  | some st =>
    unfold cursorOf
    show ((alookup (aset σ.trainState t _) u).getD freshTrainState).releaseCursor =
      ((alookup σ.trainState u).getD freshTrainState).releaseCursor
    rw [alookup_aset]
    by_cases hu : u = t
    · rw [if_pos hu, hu, hst]
      rfl
    · rw [if_neg hu]

theorem cursorOf_delReservedNode (u t n : String) (σ : ResState) :
    cursorOf u (delReservedNode t n σ) = cursorOf u σ := by
  unfold delReservedNode
  cases hst : alookup σ.trainState t with
  | none => rfl
  | some st =>
    unfold cursorOf
    show ((alookup (aset σ.trainState t _) u).getD freshTrainState).releaseCursor =
      ((alookup σ.trainState u).getD freshTrainState).releaseCursor
    rw [alookup_aset]
    by_cases hu : u = t
    · rw [if_pos hu, hu, hst]
      rfl
    · rw [if_neg hu]

theorem cursorOf_reserveBlock (u t b : String) (σ : ResState) :
    cursorOf u (reserveBlock t b σ).2 = cursorOf u σ := by
  unfold reserveBlock
  cases halk : alookup σ.reservedByBlockId b with
  | some o =>
    show cursorOf u (if o = t then (ReserveResult.already, σ)
      else (ReserveResult.blocked, σ)).2 = cursorOf u σ
    by_cases ho : o = t
    · rw [if_pos ho]
    · rw [if_neg ho]
  | none =>
    show cursorOf u (addReservedBlock t b
      { σ with reservedByBlockId := aset σ.reservedByBlockId b t }) = cursorOf u σ
    rw [cursorOf_addReservedBlock]
    exact cursorOf_congr_ts u rfl

theorem cursorOf_reserveNode (u t n : String) (σ : ResState) :
    cursorOf u (reserveNode t n σ).2 = cursorOf u σ := by
  unfold reserveNode
  cases halk : alookup σ.reservedByNodeId n with
  | some o =>
    show cursorOf u (if o = t then (ReserveResult.already, σ)
      else (ReserveResult.blocked, σ)).2 = cursorOf u σ
    by_cases ho : o = t
    · rw [if_pos ho]
    · rw [if_neg ho]
  | none =>
    show cursorOf u (addReservedNode t n
      { σ with reservedByNodeId := aset σ.reservedByNodeId n t }) = cursorOf u σ
    rw [cursorOf_addReservedNode]
    exact cursorOf_congr_ts u rfl

theorem cursorOf_reserveIterCore (u : String) (m : SectionModel) (t : String)
    (seg : PathSegment) (σ : ResState) :
    cursorOf u (reserveIterCore m t seg σ).2 = cursorOf u σ := by
  have hc : reserveIterCore m t seg σ =
      (match sectionBlocked σ (m.getSectionId seg.link.trackId)
          (m.getSectionDirection seg.link.trackId seg.fromNodeId seg.toNodeId) with
       | some s =>
          (some (blockedUpd seg (alookup σ.sectionLockOwner s) .section_direction s), σ)
       | none => reserveIterBlock t seg (m.getSectionId seg.link.trackId)
           (m.getSectionDirection seg.link.trackId seg.fromNodeId seg.toNodeId) σ) := rfl
  rw [hc]
  cases sectionBlocked σ (m.getSectionId seg.link.trackId)
      (m.getSectionDirection seg.link.trackId seg.fromNodeId seg.toNodeId) with
  | some s => rfl
  | none =>
    rw [cursorOf_congr_ts u (reserveIterBlock_ts t seg _ _ σ), cursorOf_reserveBlock]

theorem cursorOf_reserveIter (u : String) (m : SectionModel) (t : String) (csi : Int)
    (i : ℕ) (seg : PathSegment) (σ : ResState) :
    cursorOf u (reserveIter m t csi i seg σ).2 = cursorOf u σ := by
  unfold reserveIter
  by_cases hj : csi < (i : Int) ∧ m.isInterlockingNode seg.fromNodeId = true
  · rw [if_pos hj]
    cases hrn : reserveNode t seg.fromNodeId σ with
    | mk r σa =>
      have ha : cursorOf u σa = cursorOf u σ := by
        have := cursorOf_reserveNode u t seg.fromNodeId σ
        rw [hrn] at this
        exact this
      cases r with
      | blocked => exact ha
      | already => rw [cursorOf_reserveIterCore u m t seg σa]; exact ha
      | reserved => rw [cursorOf_reserveIterCore u m t seg σa]; exact ha
  · rw [if_neg hj]
    exact cursorOf_reserveIterCore u m t seg σ

theorem cursorOf_reserveLoop (u : String) (m : SectionModel) (t : String) (csi : Int)
    (off look : ℚ) :
    ∀ (segs : List PathSegment) (i : ℕ) (σ : ResState),
      cursorOf u (reserveLoop m t csi off look i segs σ).2 = cursorOf u σ := by
  intro segs
  induction segs with
  | nil => intro i σ; rfl
  | cons seg rest ih =>
    intro i σ
    have hc : reserveLoop m t csi off look i (seg :: rest) σ =
        (if look < seg.cumulativeDistance - off then (noneUpdate, σ)
         else match reserveIter m t csi i seg σ with
           | (some upd, σ1) => (upd, σ1)
           | (none, σ1) => reserveLoop m t csi off look (i + 1) rest σ1) := rfl
    rw [hc]
    by_cases hb : look < seg.cumulativeDistance - off
    · rw [if_pos hb]
    · rw [if_neg hb]
      cases hri : reserveIter m t csi i seg σ with
      | mk o σ1 =>
        have h1 : cursorOf u σ1 = cursorOf u σ := by
          have := cursorOf_reserveIter u m t csi i seg σ
          rw [hri] at this
          exact this
        cases o with
        | some upd => exact h1
        | none => rw [ih (i + 1) σ1]; exact h1

theorem tsSome_aset_keep {σ : ResState} {t : String} {st' : TrainReservationState}
    (u : String) (h : (alookup σ.trainState u).isSome = true) :
    (alookup (aset σ.trainState t st') u).isSome = true := by
  rw [alookup_aset]
  by_cases hu : u = t
  · rw [if_pos hu]
    rfl
  · rw [if_neg hu]
    exact h

theorem tsSome_releaseBlock {u : String} (m : SectionModel) (t b : String) (σ : ResState)
    (h : (alookup σ.trainState u).isSome = true) :
    (alookup (releaseBlock m t b σ).trainState u).isSome = true := by
  rw [releaseBlock_ts]
  by_cases h0 : alookup σ.reservedByBlockId b = some t
  · rw [if_pos h0]
    show (alookup (delReservedBlock t b
      { σ with reservedByBlockId := aerase σ.reservedByBlockId b }).trainState u).isSome = true
    unfold delReservedBlock
    cases hst : alookup σ.trainState t with
    | none => exact h
    | some st => exact tsSome_aset_keep u h
  · rw [if_neg h0]
    exact h

theorem tsSome_releaseNode {u : String} (t n : String) (σ : ResState)
    (h : (alookup σ.trainState u).isSome = true) :
    (alookup (releaseNode t n σ).trainState u).isSome = true := by
  rw [releaseNode_ts]
  by_cases h0 : alookup σ.reservedByNodeId n = some t
  · rw [if_pos h0]
    show (alookup (delReservedNode t n
      { σ with reservedByNodeId := aerase σ.reservedByNodeId n }).trainState u).isSome = true
    unfold delReservedNode
    cases hst : alookup σ.trainState t with
    | none => exact h
    | some st => exact tsSome_aset_keep u h
  · rw [if_neg h0]
    exact h

theorem tsSome_bumpCursor {u : String} (t : String) (σ : ResState)
    (h : (alookup σ.trainState u).isSome = true) :
    (alookup (bumpCursor t σ).trainState u).isSome = true := by
  unfold bumpCursor
  cases hst : alookup σ.trainState t with
  | none => exact h
  | some st => exact tsSome_aset_keep u h

theorem tsSome_releaseLoop {u : String} (m : SectionModel) (t : String)
    (segs : List PathSegment) (csi : Int) (rb : ℚ) :
    ∀ (fuel : ℕ) (σ : ResState), (alookup σ.trainState u).isSome = true →
      (alookup (releaseLoop m t segs csi rb fuel σ).trainState u).isSome = true := by
  intro fuel
  induction fuel with
  | zero => intro σ h; exact h
  | succ fuel ih =>
    intro σ h
    have hc : releaseLoop m t segs csi rb (fuel + 1) σ =
        (if (cursorOf t σ : Int) < csi then
          match segs.get? (cursorOf t σ) with
          | none => σ
          | some seg =>
              if rb < seg.cumulativeDistance + seg.link.length then σ
              else releaseLoop m t segs csi rb fuel (bumpCursor t
                (if m.isInterlockingNode seg.fromNodeId = true
                 then releaseNode t seg.fromNodeId (releaseBlock m t seg.link.trackId σ)
                 else releaseBlock m t seg.link.trackId σ))
         else σ) := rfl
    rw [hc]
    by_cases h1 : (cursorOf t σ : Int) < csi
    · rw [if_pos h1]
      cases segs.get? (cursorOf t σ) with
      | none => exact h
      | some seg =>
        show (alookup (if rb < seg.cumulativeDistance + seg.link.length then σ
          else releaseLoop m t segs csi rb fuel (bumpCursor t
            (if m.isInterlockingNode seg.fromNodeId = true
             then releaseNode t seg.fromNodeId (releaseBlock m t seg.link.trackId σ)
             else releaseBlock m t seg.link.trackId σ))).trainState u).isSome = true
        by_cases h2 : rb < seg.cumulativeDistance + seg.link.length
        · rw [if_pos h2]; exact h
        · rw [if_neg h2]
          refine ih _ (tsSome_bumpCursor t _ ?_)
          by_cases h3 : m.isInterlockingNode seg.fromNodeId = true
          · rw [if_pos h3]
            exact tsSome_releaseNode t seg.fromNodeId _ (tsSome_releaseBlock m t _ σ h)
          · rw [if_neg h3]
            exact tsSome_releaseBlock m t _ σ h
    · rw [if_neg h1]
      exact h

theorem tsSome_reserveLoop {u : String} (m : SectionModel) (t : String) (csi : Int)
    (off look : ℚ) :
    ∀ (segs : List PathSegment) (i : ℕ) (σ : ResState),
      (alookup σ.trainState u).isSome = true →
      (alookup (reserveLoop m t csi off look i segs σ).2.trainState u).isSome = true := by
  have hone : ∀ (i : ℕ) (seg : PathSegment) (σ : ResState),
      (alookup σ.trainState u).isSome = true →
      (alookup (reserveIter m t csi i seg σ).2.trainState u).isSome = true := by
    intro i seg σ h
    have hblockStep : ∀ (σ0 : ResState), (alookup σ0.trainState u).isSome = true →
        (alookup (reserveBlock t seg.link.trackId σ0).2.trainState u).isSome = true := by
      intro σ0 h0
      unfold reserveBlock
      cases halk : alookup σ0.reservedByBlockId seg.link.trackId with
      | some o =>
        show (alookup (if o = t then (ReserveResult.already, σ0)
          else (ReserveResult.blocked, σ0)).2.trainState u).isSome = true
        by_cases ho : o = t
        · rw [if_pos ho]; exact h0
        · rw [if_neg ho]; exact h0
      | none =>
        show (alookup (aset σ0.trainState t _) u).isSome = true
        exact tsSome_aset_keep u h0
    have hcoreStep : ∀ (σ0 : ResState), (alookup σ0.trainState u).isSome = true →
        (alookup (reserveIterCore m t seg σ0).2.trainState u).isSome = true := by
      intro σ0 h0
      have hc : reserveIterCore m t seg σ0 =
          (match sectionBlocked σ0 (m.getSectionId seg.link.trackId)
              (m.getSectionDirection seg.link.trackId seg.fromNodeId seg.toNodeId) with
           | some s =>
              (some (blockedUpd seg (alookup σ0.sectionLockOwner s) .section_direction s), σ0)
           | none => reserveIterBlock t seg (m.getSectionId seg.link.trackId)
               (m.getSectionDirection seg.link.trackId seg.fromNodeId seg.toNodeId) σ0) := rfl
      rw [hc]
      cases sectionBlocked σ0 (m.getSectionId seg.link.trackId)
          (m.getSectionDirection seg.link.trackId seg.fromNodeId seg.toNodeId) with
      | some s => exact h0
      | none =>
        have hts := reserveIterBlock_ts t seg (m.getSectionId seg.link.trackId)
          (m.getSectionDirection seg.link.trackId seg.fromNodeId seg.toNodeId) σ0
        rw [hts]
        exact hblockStep σ0 h0
    unfold reserveIter
    by_cases hj : csi < (i : Int) ∧ m.isInterlockingNode seg.fromNodeId = true
    · rw [if_pos hj]
      cases hrn : reserveNode t seg.fromNodeId σ with
      | mk r σa =>
        have ha : (alookup σa.trainState u).isSome = true := by
          have hstep : (alookup (reserveNode t seg.fromNodeId σ).2.trainState u).isSome =
              true := by
            unfold reserveNode
            cases halk : alookup σ.reservedByNodeId seg.fromNodeId with
            | some o =>
              show (alookup (if o = t then (ReserveResult.already, σ)
                else (ReserveResult.blocked, σ)).2.trainState u).isSome = true
              by_cases ho : o = t
              · rw [if_pos ho]; exact h
              · rw [if_neg ho]; exact h
            | none =>
              show (alookup (aset σ.trainState t _) u).isSome = true
              exact tsSome_aset_keep u h
          rw [hrn] at hstep
          exact hstep
        cases r with
        | blocked => exact ha
        | already => exact hcoreStep σa ha
        | reserved => exact hcoreStep σa ha
    · rw [if_neg hj]
      exact hcoreStep σ h
  intro segs
  induction segs with
  | nil => intro i σ h; exact h
  | cons seg rest ih =>
    intro i σ h
    have hc : reserveLoop m t csi off look i (seg :: rest) σ =
        (if look < seg.cumulativeDistance - off then (noneUpdate, σ)
         else match reserveIter m t csi i seg σ with
           | (some upd, σ1) => (upd, σ1)
           | (none, σ1) => reserveLoop m t csi off look (i + 1) rest σ1) := rfl
    rw [hc]
    by_cases hb : look < seg.cumulativeDistance - off
    · rw [if_pos hb]; exact h
    · rw [if_neg hb]
      cases hri : reserveIter m t csi i seg σ with
      | mk o σ1 =>
        have h1 : (alookup σ1.trainState u).isSome = true := by
          have := hone i seg σ h
          rw [hri] at this
          exact this
        cases o with
        | some upd => exact h1
        | none => exact ih (i + 1) σ1 h1

theorem cursorOf_releaseBlock (u : String) (m : SectionModel) (t b : String) (σ : ResState) :
    cursorOf u (releaseBlock m t b σ) = cursorOf u σ := by
  have h1 : cursorOf u (releaseBlock m t b σ) =
      ((alookup (releaseBlock m t b σ).trainState u).getD freshTrainState).releaseCursor := rfl
  rw [h1, releaseBlock_ts]
  by_cases h0 : alookup σ.reservedByBlockId b = some t
  · rw [if_pos h0]
    have h2 := cursorOf_delReservedBlock u t b
      { σ with reservedByBlockId := aerase σ.reservedByBlockId b }
    have h3 : cursorOf u { σ with reservedByBlockId := aerase σ.reservedByBlockId b } =
        cursorOf u σ := cursorOf_congr_ts u rfl
    rw [h3] at h2
    exact h2
  · rw [if_neg h0]
    rfl

theorem cursorOf_releaseNode (u : String) (t n : String) (σ : ResState) :
    cursorOf u (releaseNode t n σ) = cursorOf u σ := by
  have h1 : cursorOf u (releaseNode t n σ) =
      ((alookup (releaseNode t n σ).trainState u).getD freshTrainState).releaseCursor := rfl
  rw [h1, releaseNode_ts]
  by_cases h0 : alookup σ.reservedByNodeId n = some t
  · rw [if_pos h0]
    have h2 := cursorOf_delReservedNode u t n
      { σ with reservedByNodeId := aerase σ.reservedByNodeId n }
    have h3 : cursorOf u { σ with reservedByNodeId := aerase σ.reservedByNodeId n } =
        cursorOf u σ := cursorOf_congr_ts u rfl
    rw [h3] at h2
    exact h2
  · rw [if_neg h0]
    rfl

theorem cursorOf_bumpCursor_some {t : String} {σ : ResState}
    (h : (alookup σ.trainState t).isSome = true) :
    cursorOf t (bumpCursor t σ) = cursorOf t σ + 1 := by
  unfold bumpCursor
  cases hst : alookup σ.trainState t with
  | none =>
    rw [hst] at h
    simp at h
  | some st =>
    unfold cursorOf
    show ((alookup (aset σ.trainState t _) t).getD freshTrainState).releaseCursor =
      ((alookup σ.trainState t).getD freshTrainState).releaseCursor + 1
    rw [alookup_aset, if_pos rfl, hst]
    rfl

/-- The negation of the while condition of the release-behind loop: the loop
makes no step at the current cursor because the cursor has reached the current
segment index, runs off the segment list, or the segment under the cursor ends
past the release boundary. -/
def ReleaseExit (segs : List PathSegment) (csi : Int) (rb : ℚ) (c : ℕ) : Prop :=
  ¬((c : Int) < csi) ∨ segs.get? c = none ∨
    ∃ seg, segs.get? c = some seg ∧ rb < seg.cumulativeDistance + seg.link.length

theorem releaseLoop_noop_of_exit (m : SectionModel) (t : String) (segs : List PathSegment)
    (csi : Int) (rb : ℚ) (σ : ResState)
    (hex : ReleaseExit segs csi rb (cursorOf t σ)) :
    ∀ fuel, releaseLoop m t segs csi rb fuel σ = σ := by
  intro fuel
  cases fuel with
  | zero => rfl
  | succ fuel =>
    have hc : releaseLoop m t segs csi rb (fuel + 1) σ =
        (if (cursorOf t σ : Int) < csi then
          match segs.get? (cursorOf t σ) with
          | none => σ
          | some seg =>
              if rb < seg.cumulativeDistance + seg.link.length then σ
              else releaseLoop m t segs csi rb fuel (bumpCursor t
                (if m.isInterlockingNode seg.fromNodeId = true
                 then releaseNode t seg.fromNodeId (releaseBlock m t seg.link.trackId σ)
                 else releaseBlock m t seg.link.trackId σ))
         else σ) := rfl
    rw [hc]
    by_cases h1 : (cursorOf t σ : Int) < csi
    · rw [if_pos h1]
      cases hget : segs.get? (cursorOf t σ) with
      | none => rfl
      | some seg =>
        show (if rb < seg.cumulativeDistance + seg.link.length then σ
          else releaseLoop m t segs csi rb fuel (bumpCursor t
            (if m.isInterlockingNode seg.fromNodeId = true
             then releaseNode t seg.fromNodeId (releaseBlock m t seg.link.trackId σ)
             else releaseBlock m t seg.link.trackId σ))) = σ
        unfold ReleaseExit at hex
        rcases hex with h | h | ⟨seg', hs', hrb⟩
        · exact absurd h1 h
        · rw [hget] at h
          exact Option.noConfusion h
        · rw [hget] at hs'
          injection hs' with h2
          rw [if_pos (h2 ▸ hrb)]
    · rw [if_neg h1]

theorem releaseLoop_post (m : SectionModel) (t : String) (segs : List PathSegment)
    (csi : Int) (rb : ℚ) :
    ∀ (fuel : ℕ) (σ : ResState), (alookup σ.trainState t).isSome = true →
      fuel = (csi - (cursorOf t σ : Int)).toNat →
      ReleaseExit segs csi rb (cursorOf t (releaseLoop m t segs csi rb fuel σ)) := by
  intro fuel
  induction fuel with
  | zero =>
    intro σ hts hfuel
    show ReleaseExit segs csi rb (cursorOf t σ)
    unfold ReleaseExit
    exact Or.inl (by omega)
  | succ fuel ih =>
    intro σ hts hfuel
    have hc : releaseLoop m t segs csi rb (fuel + 1) σ =
        (if (cursorOf t σ : Int) < csi then
          match segs.get? (cursorOf t σ) with
          | none => σ
          | some seg =>
              if rb < seg.cumulativeDistance + seg.link.length then σ
              else releaseLoop m t segs csi rb fuel (bumpCursor t
                (if m.isInterlockingNode seg.fromNodeId = true
                 then releaseNode t seg.fromNodeId (releaseBlock m t seg.link.trackId σ)
                 else releaseBlock m t seg.link.trackId σ))
         else σ) := rfl
    rw [hc]
    by_cases h1 : (cursorOf t σ : Int) < csi
    · rw [if_pos h1]
      cases hget : segs.get? (cursorOf t σ) with
      | none =>
        unfold ReleaseExit
        exact Or.inr (Or.inl hget)
      | some seg =>
        show ReleaseExit segs csi rb (cursorOf t
          (if rb < seg.cumulativeDistance + seg.link.length then σ
           else releaseLoop m t segs csi rb fuel (bumpCursor t
             (if m.isInterlockingNode seg.fromNodeId = true
              then releaseNode t seg.fromNodeId (releaseBlock m t seg.link.trackId σ)
              else releaseBlock m t seg.link.trackId σ))))
        by_cases h2 : rb < seg.cumulativeDistance + seg.link.length
        · rw [if_pos h2]
          unfold ReleaseExit
          exact Or.inr (Or.inr ⟨seg, hget, h2⟩)
        · rw [if_neg h2]
          have hsb : (alookup (if m.isInterlockingNode seg.fromNodeId = true
              then releaseNode t seg.fromNodeId (releaseBlock m t seg.link.trackId σ)
              else releaseBlock m t seg.link.trackId σ).trainState t).isSome = true := by
            by_cases h3 : m.isInterlockingNode seg.fromNodeId = true
            · rw [if_pos h3]
              exact tsSome_releaseNode t seg.fromNodeId _
                (tsSome_releaseBlock m t seg.link.trackId σ hts)
            · rw [if_neg h3]
              exact tsSome_releaseBlock m t seg.link.trackId σ hts
          have hcb : cursorOf t (if m.isInterlockingNode seg.fromNodeId = true
              then releaseNode t seg.fromNodeId (releaseBlock m t seg.link.trackId σ)
              else releaseBlock m t seg.link.trackId σ) = cursorOf t σ := by
            by_cases h3 : m.isInterlockingNode seg.fromNodeId = true
            · rw [if_pos h3, cursorOf_releaseNode, cursorOf_releaseBlock]
            · rw [if_neg h3, cursorOf_releaseBlock]
          refine ih _ (tsSome_bumpCursor t _ hsb) ?_
          rw [cursorOf_bumpCursor_some hsb, hcb]
          omega
    · rw [if_neg h1]
      unfold ReleaseExit
      exact Or.inl h1

/-- C10 (amended): on a well-formed reservation state, over a section model
answering a direction for every section block, a second identical updateTrain
call returns the same ReservationUpdate and the same final state as the first
(the release-behind loop makes no further step because the first call left
its exit condition true, and a repeat of the reserve-ahead scan is a no-op
on the state the scan itself produced); and for a path with found = false or
no segments, updateTrain returns the all-null update and the unchanged
state. -/
theorem c10_idempotence_amended (m : SectionModel) (t : String) (path : PathResult)
    (csi : Int) (off look rel : ℚ) (σ : ResState) (hT : DirectionTotal m)
    (hwf : WFRes m σ) :
    updateTrain m t path csi off look rel (updateTrain m t path csi off look rel σ).2 =
      updateTrain m t path csi off look rel σ ∧
    ((path.found = false ∨ path.segments = []) →
      updateTrain m t path csi off look rel σ = (noneUpdate, σ)) := by
  have hguard : ∀ σ0 : ResState, (path.found = false ∨ path.segments = []) →
      updateTrain m t path csi off look rel σ0 = (noneUpdate, σ0) := by
    intro σ0 hg
    have hc : updateTrain m t path csi off look rel σ0 =
        (if path.found = false ∨ path.segments = [] then (noneUpdate, σ0)
         else
          reserveLoop m t csi off look csi.toNat (path.segments.drop csi.toNat)
            (releaseLoop m t path.segments csi (off - rel)
              (csi - (cursorOf t (if (alookup σ0.trainState t).isSome then σ0
                else { σ0 with trainState := aset σ0.trainState t freshTrainState }) : Int)).toNat
              (if (alookup σ0.trainState t).isSome then σ0
                else { σ0 with trainState := aset σ0.trainState t freshTrainState }))) := rfl
    rw [hc, if_pos hg]
  refine ⟨?_, fun h2 => hguard σ h2⟩
  by_cases hg : path.found = false ∨ path.segments = []
  · rw [hguard σ hg]
    exact hguard σ hg
  · set σ0 : ResState := if (alookup σ.trainState t).isSome then σ
      else { σ with trainState := aset σ.trainState t freshTrainState } with hσ0
    set σ1 : ResState := releaseLoop m t path.segments csi (off - rel)
      (csi - (cursorOf t σ0 : Int)).toNat σ0 with hσ1
    set σf : ResState :=
      (reserveLoop m t csi off look csi.toNat (path.segments.drop csi.toNat) σ1).2 with hσf
    have hts0 : (alookup σ0.trainState t).isSome = true := by
      rw [hσ0]
      by_cases h : (alookup σ.trainState t).isSome = true
      · rw [if_pos h]
        exact h
      · rw [if_neg h]
        show (alookup (aset σ.trainState t freshTrainState) t).isSome = true
        rw [alookup_aset, if_pos rfl]
        rfl
    have hcall1 : updateTrain m t path csi off look rel σ =
        reserveLoop m t csi off look csi.toNat (path.segments.drop csi.toNat) σ1 := by
      have hc : updateTrain m t path csi off look rel σ =
          (if path.found = false ∨ path.segments = [] then (noneUpdate, σ)
           else
            reserveLoop m t csi off look csi.toNat (path.segments.drop csi.toNat)
              (releaseLoop m t path.segments csi (off - rel)
                (csi - (cursorOf t (if (alookup σ.trainState t).isSome then σ
                  else { σ with trainState := aset σ.trainState t freshTrainState }) : Int)).toNat
                (if (alookup σ.trainState t).isSome then σ
                  else { σ with trainState := aset σ.trainState t freshTrainState }))) := rfl
      rw [hc, if_neg hg, hσ1, hσ0]
    have hwf0 : WFRes m σ0 := by
      rw [hσ0]
      exact wf_ensureState hwf t
    have hwf1 : WFRes m σ1 := by
      rw [hσ1]
      exact wf_releaseLoop t path.segments csi (off - rel) _ σ0 hwf0
    have hts1 : (alookup σ1.trainState t).isSome = true := by
      rw [hσ1]
      exact tsSome_releaseLoop m t path.segments csi (off - rel) _ σ0 hts0
    have htsf : (alookup σf.trainState t).isSome = true := by
      rw [hσf]
      exact tsSome_reserveLoop m t csi off look (path.segments.drop csi.toNat) csi.toNat σ1 hts1
    have hcurf : cursorOf t σf = cursorOf t σ1 := by
      rw [hσf]
      exact cursorOf_reserveLoop t m t csi off look (path.segments.drop csi.toNat) csi.toNat σ1
    have hexit1 : ReleaseExit path.segments csi (off - rel) (cursorOf t σ1) := by
      rw [hσ1]
      exact releaseLoop_post m t path.segments csi (off - rel) _ σ0 hts0 rfl
    have hexitf : ReleaseExit path.segments csi (off - rel) (cursorOf t σf) := by
      rw [hcurf]
      exact hexit1
    have hsnd : (updateTrain m t path csi off look rel σ).2 = σf := by
      rw [hcall1]
    rw [hsnd]
    have hc2 : updateTrain m t path csi off look rel σf =
        (if path.found = false ∨ path.segments = [] then (noneUpdate, σf)
         else
          reserveLoop m t csi off look csi.toNat (path.segments.drop csi.toNat)
            (releaseLoop m t path.segments csi (off - rel)
              (csi - (cursorOf t (if (alookup σf.trainState t).isSome then σf
                else { σf with trainState := aset σf.trainState t freshTrainState }) : Int)).toNat
              (if (alookup σf.trainState t).isSome then σf
                else { σf with trainState := aset σf.trainState t freshTrainState }))) := rfl
    rw [hc2, if_neg hg, if_pos htsf,
      releaseLoop_noop_of_exit m t path.segments csi (off - rel) σf hexitf _, hcall1, hσf]
    exact reserveLoop_idem hT t csi off look (path.segments.drop csi.toNat) csi.toNat σ1 hwf1

/-- Modelled from the spec: a section model for the C10 scenario, with two
blocks b1 and b2 of one section s traversed in opposite orientations and no
interlocking nodes. -/
def c10Model : SectionModel :=
  { isInterlockingNode := fun _ => false,
    getSectionId := fun b => if b = "b1" then some "s" else if b = "b2" then some "s" else none,
    getSectionDirection := fun b _ _ =>
      if b = "b1" then some Dir.forward else if b = "b2" then some Dir.backward else none }

theorem c10Model_total : DirectionTotal c10Model := by
  intro b f u hx
  show (if b = "b1" then some Dir.forward
    else if b = "b2" then some Dir.backward else none).isSome = true
  have hx2 : (if b = "b1" then some "s"
      else if b = "b2" then some "s" else none).isSome = true := hx
  by_cases h1 : b = "b1"
  · rw [if_pos h1]
    rfl
  · rw [if_neg h1]
    rw [if_neg h1] at hx2
    by_cases h2 : b = "b2"
    · rw [if_pos h2]
      rfl
    · rw [if_neg h2] at hx2
      exact absurd hx2 (by simp)

/-- The C10 scenario path: two 100 m segments over the blocks b1 and b2,
whose section directions conflict. -/
def c10Path : PathResult := makePath [("A", "M", "b1", 100), ("M", "B", "b2", 100)]

/-- The C10 counterexample state: T1 already owns block b1, but the section
count and direction lock of section s were never installed (the state is not
reachable: it violates the count and lock invariants of well-formed
states). -/
def c10State : ResState :=
  { reservedByBlockId := [("b1", "T1")], reservedByNodeId := [], sectionLockDirection := [],
    sectionLockOwner := [], sectionReservedCount := [],
    trainState := [("T1", { reservedBlocks := ["b1"], reservedNodes := [], releaseCursor := 0 })] }

section ConcreteC10

attribute [local semireducible] Rat.add Rat.sub Rat.mul Rat.inv

/-- C10 counterexample: from a state where T1 already owns b1 without the
section lock of s, the first call succeeds (the already-owned block skips the
lock installation, then b2 installs the lock in the backward orientation),
but the second identical call is blocked on b1 by that very lock, so the two
calls return different ReservationUpdates. -/
theorem c10_idempotence_counterexample :
    (updateTrain c10Model "T1" c10Path 0 0 200 0 c10State).1 = noneUpdate ∧
    (updateTrain c10Model "T1" c10Path 0 0 200 0
        (updateTrain c10Model "T1" c10Path 0 0 200 0 c10State).2).1.blockedReason =
      some BlockReason.section_direction := by
  decide

/-- Witness for the amended C10 theorem, at the empty initial state. -/
theorem c10_idempotence_amended_witness :
    updateTrain c10Model "T1" c10Path 0 0 200 0
        (updateTrain c10Model "T1" c10Path 0 0 200 0 initRes).2 =
      updateTrain c10Model "T1" c10Path 0 0 200 0 initRes ∧
    ((c10Path.found = false ∨ c10Path.segments = []) →
      updateTrain c10Model "T1" c10Path 0 0 200 0 initRes = (noneUpdate, initRes)) :=
  c10_idempotence_amended c10Model "T1" c10Path 0 0 200 0 initRes c10Model_total
    (wf_initRes c10Model)

end ConcreteC10

end OpenSFS
